import Mathlib

/-!
# regit_library: the asynchronous primitives

A shallow embedding of `src/async/include/thread_pool.hpp` (the worker pool
`GenericThreadPool`, its default thread wrapper and its default work policy) and of
`src/async/include/timer.hpp` (the single-slot timer `SimplerTimer`).

Conventions of the embedding.

* A Job (`std::function<void()>`) acts on an environment `σ` that stands for everything
  the callable captured by reference (the counter of the tests, for instance).
  A call returns, throws an object derived from `std::exception`, or throws anything else.
* `std::call_once` on a `std::once_flag` is a boolean that is set by the first call.
* Every critical section, and the hand-over of a dequeued Job to the work policy that
  follows it, is one atomic step; a schedule names the thread that takes each step.
* `std::terminate` is the flag `aborted` of the running system; nothing moves afterwards.
-/

namespace regit.async

/-! ## Jobs -/

/-- Kind of the object a callable throws: derived from `std::exception`, or not. -/
inductive Thrown
  | stdException
  | other
  deriving DecidableEq, Repr

/-- Result of calling the target of a `std::function<void()>`. -/
inductive CallResult (σ : Type)
  | returns (env : σ)
  | throws (what : Thrown) (env : σ)

/-- The environment a call leaves behind, however it ended. -/
def CallResult.env {σ : Type} : CallResult σ → σ
  | CallResult.returns e => e
  | CallResult.throws _ e => e

/-- The type `work_t = std::function<void()>`; `target = none` is the empty function. -/
structure work_t (σ : Type) where
  target : Option (σ → CallResult σ)

/-- The conversion `if (work)`: true when the function holds a target. -/
def work_t.toBool {σ : Type} (work : work_t σ) : Bool :=
  work.target.isSome

/-- The call `work()`: an empty `std::function` throws `std::bad_function_call`,
which derives from `std::exception`. -/
def work_t.call {σ : Type} (work : work_t σ) (env : σ) : CallResult σ :=
  match work.target with
  | none => CallResult.throws Thrown.stdException env
  | some f => f env

/-- How a call of `BeginWork` ends for the thread that made it: it returns, or an exception
leaves a `noexcept` function (or the thread function) and `std::terminate` is called. -/
inductive PolicyResult (σ : Type)
  | returned (env : σ)
  | terminated (env : σ)

/-- The environment a call of `BeginWork` leaves behind. -/
def PolicyResult.env {σ : Type} : PolicyResult σ → σ
  | PolicyResult.returned e => e
  | PolicyResult.terminated e => e

/-- The template parameter `WorkPolicyT`: any class with a `BeginWork(const work_t&)`. -/
structure WorkPolicyT (σ : Type) where
  BeginWork : work_t σ → σ → PolicyResult σ

namespace detail

/-- The member `DefaultWorkPolicy::BeginWork` (thread_pool.hpp, lines 47-58): `noexcept`,
with a single handler `catch (const std::exception&)`. -/
def DefaultWorkPolicy.BeginWork {σ : Type} (work : work_t σ) (env : σ) : PolicyResult σ :=
  if work.toBool then
    match work.call env with
    | CallResult.returns e => PolicyResult.returned e
    | CallResult.throws Thrown.stdException e => PolicyResult.returned e
    | CallResult.throws Thrown.other e => PolicyResult.terminated e
  else
    PolicyResult.returned env

/-- The class `DefaultWorkPolicy` as a value of the policy parameter. -/
def DefaultWorkPolicy.policy (σ : Type) : WorkPolicyT σ :=
  ⟨DefaultWorkPolicy.BeginWork⟩

end detail

/-! ## Threads -/

/-- The type `worker_t`: the only value the pool ever builds is the closure
`[this] { WorkerFunc(); }` of `Start`. -/
inductive worker_t
  | joinPool
  deriving DecidableEq, Repr

/-- A `std::thread` handle with the progress of the thread it owns: no thread at all
(default-constructed), a thread inside its entry point, or a thread that left it. -/
inductive std_thread
  | notAThread
  | running (entry : worker_t)
  | finished (entry : worker_t)
  deriving DecidableEq, Repr

namespace detail

/-- The class `NaiveThreadWrapper`: one member `m_thread`. -/
structure NaiveThreadWrapper where
  m_thread : std_thread
  deriving DecidableEq, Repr

/-- The variadic constructor with an empty pack: `m_thread{}`. -/
def NaiveThreadWrapper.defaultCtor : NaiveThreadWrapper :=
  ⟨std_thread.notAThread⟩

/-- The variadic constructor with one callable: `m_thread{work}` starts a thread on it. -/
def NaiveThreadWrapper.ctor (work : worker_t) : NaiveThreadWrapper :=
  ⟨std_thread.running work⟩

instance : Inhabited NaiveThreadWrapper := ⟨NaiveThreadWrapper.defaultCtor⟩

end detail

/-! ## The worker pool -/

/-- The data members of `GenericThreadPool<ThreadT, WorkPolicyT>`; the mutex and the
condition variable are the atomicity of the steps, `m_ready_flag` is never used. -/
structure GenericThreadPool (σ ThreadT : Type) where
  m_stopping : Bool
  m_jobs : List (work_t σ)
  m_threads : List ThreadT
  m_threadFactory : worker_t → ThreadT
  m_poolSize : Nat
  m_init_flag : Bool
  m_deinit_flag : Bool

/-- The call `std::vector::resize(n)`: cut to `n` elements or fill up to `n` elements with
value-initialised ones. -/
def vector_resize {ThreadT : Type} [Inhabited ThreadT] (v : List ThreadT) (n : Nat) :
    List ThreadT :=
  v.take n ++ List.replicate (n - v.length) default

namespace GenericThreadPool

variable {σ ThreadT : Type}

/-- The constructor `GenericThreadPool(size, threadFactory)` (lines 110-116). -/
def ctor (size : Nat) (threadFactory : worker_t → ThreadT) : GenericThreadPool σ ThreadT :=
  { m_stopping := false
    m_jobs := []
    m_threads := []
    m_threadFactory := threadFactory
    m_poolSize := size
    m_init_flag := false
    m_deinit_flag := false }

/-- The constructor `GenericThreadPool(size)` (lines 101-106) with the default thread type:
the factory is `[](worker_t joinPool) { return ThreadT{std::move(joinPool)}; }`. -/
def ctorDefault (size : Nat) : GenericThreadPool σ detail.NaiveThreadWrapper :=
  ctor size detail.NaiveThreadWrapper.ctor

/-- The loop `for (i = 0; i != m_poolSize; ++i) m_threads.emplace_back(m_threadFactory(..))`
of `Start`, with `k` iterations left. -/
def Start.loop (threadFactory : worker_t → ThreadT) : Nat → List ThreadT → List ThreadT
  | 0, threads => threads
  | k + 1, threads => Start.loop threadFactory k (threads ++ [threadFactory worker_t.joinPool])

/-- The member `Start` (lines 125-135): under `m_init_flag`, `resize` then the loop. -/
def Start [Inhabited ThreadT] (p : GenericThreadPool σ ThreadT) : GenericThreadPool σ ThreadT :=
  if p.m_init_flag then p
  else
    { p with
      m_init_flag := true
      m_threads := Start.loop p.m_threadFactory p.m_poolSize
        (vector_resize p.m_threads p.m_poolSize) }

/-- The member `Stop` (lines 138-149): under `m_deinit_flag`, set `m_stopping`, notify, and
`m_threads.clear()`, which destroys (joins) every wrapper. -/
def Stop (p : GenericThreadPool σ ThreadT) : GenericThreadPool σ ThreadT :=
  if p.m_deinit_flag then p
  else
    { p with
      m_deinit_flag := true
      m_stopping := true
      m_threads := [] }

/-- The member `Post` (lines 152-159): `m_jobs.emplace(std::move(work))` under the mutex. -/
def Post (p : GenericThreadPool σ ThreadT) (work : work_t σ) : GenericThreadPool σ ThreadT :=
  { p with m_jobs := p.m_jobs ++ [work] }

/-- What one pass of the loop of `WorkerFunc` does with the pool. -/
inductive Pass (σ ThreadT : Type)
  | exit
  | blocked
  | dequeued (work : work_t σ) (p : GenericThreadPool σ ThreadT)

/-- One pass of `while (!m_stopping)` in `WorkerFunc` (lines 164-176) up to the call of
`BeginWork`: leave when `m_stopping`, stay in `m_condition.wait` while the queue is empty,
otherwise `work = m_jobs.front(); m_jobs.pop();`. -/
def WorkerFunc.pass (p : GenericThreadPool σ ThreadT) : Pass σ ThreadT :=
  if p.m_stopping then Pass.exit
  else
    match p.m_jobs with
    | [] => Pass.blocked
    | work :: rest => Pass.dequeued work { p with m_jobs := rest }

end GenericThreadPool

/-! ## A running pool -/

/-- A pool with its default thread type together with what its threads act on: the
environment of the Jobs, the Jobs handed to `BeginWork` so far (oldest first), and
whether `std::terminate` was called. -/
structure PoolSystem (σ : Type) where
  pool : GenericThreadPool σ detail.NaiveThreadWrapper
  env : σ
  handed : List (work_t σ)
  aborted : Bool

/-- What can happen next: a call of the public interface, or a step of the thread owned
by entry `i` of `m_threads`. -/
inductive Event (σ : Type)
  | post (work : work_t σ)
  | start
  | stop
  | worker (i : Nat)

namespace PoolSystem

variable {σ : Type}

/-- A pool right after construction, in environment `env`. -/
def init (size : Nat) (env : σ) : PoolSystem σ :=
  { pool := GenericThreadPool.ctorDefault size
    env := env
    handed := []
    aborted := false }

/-- Entry `i` of `m_threads` owns a thread that is inside `WorkerFunc`. -/
def isWorker (s : PoolSystem σ) (i : Nat) : Bool :=
  match s.pool.m_threads[i]? with
  | some ⟨std_thread.running _⟩ => true
  | _ => false

/-- One pass of `WorkerFunc` (lines 162-180) by the thread of entry `i`: the pass on the
pool, then `WorkPolicyT::BeginWork(work)` on the dequeued Job. -/
def workerStep (W : WorkPolicyT σ) (i : Nat) (s : PoolSystem σ) : PoolSystem σ :=
  if s.aborted then s
  else
    match s.pool.m_threads[i]? with
    | some ⟨std_thread.running entry⟩ =>
      match GenericThreadPool.WorkerFunc.pass s.pool with
      | GenericThreadPool.Pass.exit =>
        { s with pool := { s.pool with
            m_threads := s.pool.m_threads.set i ⟨std_thread.finished entry⟩ } }
      | GenericThreadPool.Pass.blocked => s
      | GenericThreadPool.Pass.dequeued work p =>
        match W.BeginWork work s.env with
        | PolicyResult.returned e =>
          { s with pool := p, env := e, handed := s.handed ++ [work] }
        | PolicyResult.terminated e =>
          { pool := p, env := e, handed := s.handed ++ [work], aborted := true }
    | _ => s

/-- One event on a running pool. -/
def step (W : WorkPolicyT σ) (s : PoolSystem σ) : Event σ → PoolSystem σ
  | Event.post work => if s.aborted then s else { s with pool := s.pool.Post work }
  | Event.start => if s.aborted then s else { s with pool := s.pool.Start }
  | Event.stop => if s.aborted then s else { s with pool := s.pool.Stop }
  | Event.worker i => workerStep W i s

/-- A sequence of events, oldest first. -/
def run (W : WorkPolicyT σ) (s : PoolSystem σ) (events : List (Event σ)) : PoolSystem σ :=
  events.foldl (step W) s

/-- The Jobs posted by a sequence of events, in order. -/
def posted : List (Event σ) → List (work_t σ)
  | [] => []
  | Event.post work :: rest => work :: posted rest
  | _ :: rest => posted rest

end PoolSystem

/-! ## The timer -/

/-- Where the background thread of a `SimplerTimer` is inside `SimplerTimer::WorkerFunc`:
before `std::call_once`, at the test of `while (!m_stopping)`, evaluating the predicate of
`m_condition.wait`, blocked inside that wait, past `sleep_for` with the Job about to be
called, or returned. -/
inductive TimerThread
  | entry
  | loopHead
  | checking
  | waiting
  | armed
  | finished
  deriving DecidableEq, Repr

/-- The data members of `SimplerTimer`; `m_interval` counts seconds, and `m_thread` is the
thread the constructor starts on `WorkerFunc`. A thread at `waiting` is the wait set of
`m_condition`. -/
structure SimplerTimer (σ : Type) where
  m_stopping : Bool
  m_has_job : Bool
  m_ready : Bool
  m_interval : Int
  m_thread : TimerThread
  m_work : work_t σ
  m_ready_flag : Bool

namespace SimplerTimer

variable {σ : Type}

/-- The constructor (timer.hpp, lines 40-46); `m_interval` has no initialiser, its value is
whatever `garbage` the storage held. -/
def ctor (garbage : Int) : SimplerTimer σ :=
  { m_stopping := false
    m_has_job := false
    m_ready := false
    m_interval := garbage
    m_thread := TimerThread.entry
    m_work := ⟨none⟩
    m_ready_flag := false }

/-- The call `m_condition.notify_one()`: a thread blocked in the wait evaluates the
predicate again. -/
def notify_one (t : SimplerTimer σ) : SimplerTimer σ :=
  { t with m_thread := if t.m_thread = TimerThread.waiting then TimerThread.checking
                       else t.m_thread }

/-- The member `Post` (lines 59-73); `none` is the caller spinning in `while (!m_ready);`. -/
def Post (t : SimplerTimer σ) (interval : Int) (work : work_t σ) : Option (SimplerTimer σ) :=
  if !t.m_ready then none
  else if t.m_has_job then some t
  else some (notify_one { t with m_work := work, m_interval := interval, m_has_job := true })

end SimplerTimer

/-- A timer together with what its background thread acts on: the environment of the
Jobs, the Jobs it called so far (oldest first), the seconds it spent in `sleep_for`, and
whether `std::terminate` was called. -/
structure TimerSystem (σ : Type) where
  timer : SimplerTimer σ
  env : σ
  ran : List (work_t σ)
  slept : Nat
  aborted : Bool

namespace TimerSystem

variable {σ : Type}

/-- A timer right after construction, in environment `env`. -/
def init (garbage : Int) (env : σ) : TimerSystem σ :=
  { timer := SimplerTimer.ctor garbage
    env := env
    ran := []
    slept := 0
    aborted := false }

/-- A call of `Post` by a client thread; a spinning caller leaves everything as it is. -/
def post (s : TimerSystem σ) (interval : Int) (work : work_t σ) : TimerSystem σ :=
  if s.aborted then s
  else
    match s.timer.Post interval work with
    | none => s
    | some t => { s with timer := t }

/-- One step of the background thread through `SimplerTimer::WorkerFunc` (lines 75-104).
The step from `checking` is a call of `m_condition.wait(lock, pred)` that no other thread
interrupts: the predicate is evaluated and, when it is false, the thread blocks. The wait
that a `Post` interrupts between the two is `TimerRace.workerStep`. -/
def workerStep (s : TimerSystem σ) : TimerSystem σ :=
  if s.aborted then s
  else
    match s.timer.m_thread with
    | TimerThread.entry =>
      if s.timer.m_ready_flag then
        { s with timer := { s.timer with m_thread := TimerThread.loopHead } }
      else
        { s with timer := { s.timer with
            m_ready_flag := true
            m_ready := true
            m_thread := TimerThread.loopHead } }
    | TimerThread.loopHead =>
      if s.timer.m_stopping then
        { s with timer := { s.timer with m_thread := TimerThread.finished } }
      else
        { s with timer := { s.timer with m_thread := TimerThread.checking } }
    | TimerThread.checking =>
      if s.timer.m_stopping || s.timer.m_has_job then
        if s.timer.m_stopping then
          { s with timer := { s.timer with m_thread := TimerThread.finished } }
        else
          { s with
            timer := { s.timer with m_thread := TimerThread.armed }
            slept := s.slept + s.timer.m_interval.toNat }
      else
        { s with timer := { s.timer with m_thread := TimerThread.waiting } }
    | TimerThread.waiting => s
    | TimerThread.armed =>
      match s.timer.m_work.call s.env with
      | CallResult.returns e =>
        { s with
          timer := { s.timer with m_has_job := false, m_thread := TimerThread.loopHead }
          env := e
          ran := s.ran ++ [s.timer.m_work] }
      | CallResult.throws _ e =>
        { s with env := e, ran := s.ran ++ [s.timer.m_work], aborted := true }
    | TimerThread.finished => s

/-- The background thread takes `n` steps. -/
def workerSteps : Nat → TimerSystem σ → TimerSystem σ
  | 0, s => s
  | n + 1, s => workerSteps n (workerStep s)

/-- Job `A` is stored and accepted but not called yet: the trace and the environment are
still `ran0` and `env0`. -/
def Pending (A : work_t σ) (ran0 : List (work_t σ)) (env0 : σ) (s : TimerSystem σ) : Prop :=
  s.timer.m_has_job = true ∧ s.timer.m_ready = true ∧ s.timer.m_work = A
    ∧ s.ran = ran0 ∧ s.env = env0 ∧ s.aborted = false

/-- Job `A` was called, once: the trace grew by `A` and the environment is the one that
call left; the slot is free again unless the call ended the process. -/
def Done (A : work_t σ) (ran0 : List (work_t σ)) (env0 : σ) (s : TimerSystem σ) : Prop :=
  s.ran = ran0 ++ [A] ∧ s.env = (A.call env0).env
    ∧ (s.aborted = true ∨ (s.timer.m_has_job = false ∧ s.timer.m_thread ≠ TimerThread.armed))

/-- Steps the background thread needs from its position to the call of a pending Job. -/
def distance : TimerThread → Nat
  | TimerThread.entry => 4
  | TimerThread.loopHead => 3
  | TimerThread.checking => 2
  | TimerThread.armed => 1
  | TimerThread.waiting => 0
  | TimerThread.finished => 0

end TimerSystem

/-- Where the thread that destroys a `SimplerTimer` is inside `~SimplerTimer` (timer.hpp,
lines 48-57): at `while (m_has_job);`, inside `m_thread.join()` after `m_stopping = true`,
or returned. -/
inductive DestructorAt
  | spin
  | join
  | returned
  deriving DecidableEq, Repr

/-- A timer that is being destroyed: the running timer and the position of the
destroying thread. -/
structure TimerTeardown (σ : Type) where
  sys : TimerSystem σ
  dtor : DestructorAt

/-- The two threads that move while a timer is destroyed. -/
inductive TeardownEvent
  | worker
  | destructor
  deriving DecidableEq, Repr

namespace TimerTeardown

variable {σ : Type}

/-- The destructor is entered on a running timer. -/
def enter (s : TimerSystem σ) : TimerTeardown σ :=
  { sys := s, dtor := DestructorAt.spin }

/-- One step of the destroying thread through `~SimplerTimer`: it leaves the spin loop when
`m_has_job` is false and then sets `m_stopping` (nothing is notified); `join` returns when
the background thread has left `WorkerFunc`. -/
def destructorStep (d : TimerTeardown σ) : TimerTeardown σ :=
  if d.sys.aborted then d
  else
    match d.dtor with
    | DestructorAt.spin =>
      if d.sys.timer.m_has_job then d
      else
        { sys := { d.sys with timer := { d.sys.timer with m_stopping := true } }
          dtor := DestructorAt.join }
    | DestructorAt.join =>
      if d.sys.timer.m_thread = TimerThread.finished then { d with dtor := DestructorAt.returned }
      else d
    | DestructorAt.returned => d

/-- One event while the timer is destroyed. -/
def step (d : TimerTeardown σ) : TeardownEvent → TimerTeardown σ
  | TeardownEvent.worker => { d with sys := d.sys.workerStep }
  | TeardownEvent.destructor => destructorStep d

/-- A sequence of events, oldest first. -/
def run (d : TimerTeardown σ) (events : List TeardownEvent) : TimerTeardown σ :=
  events.foldl step d

end TimerTeardown

/-- While the background thread stands at the head of `WorkerFunc`, `m_ready` and the
once-flag are unset; once it is past it, `m_ready` is set. -/
def ReadyInv {σ : Type} (t : SimplerTimer σ) : Prop :=
  (t.m_thread = TimerThread.entry → t.m_ready = false ∧ t.m_ready_flag = false)
    ∧ (t.m_thread ≠ TimerThread.entry → t.m_ready = true)

/-- What can happen to a `SimplerTimer` between its construction and the end of its
destructor: a client calls `Post`, the background thread takes a step, or the thread that
destroys the timer takes a step of `~SimplerTimer`. -/
inductive TimerEvent (σ : Type)
  | post (interval : Int) (work : work_t σ)
  | worker
  | destructor

namespace TimerTeardown

variable {σ : Type}

/-- One event in the life of a timer; the destroying thread stands at the head of
`~SimplerTimer` until its first step. -/
def event (d : TimerTeardown σ) : TimerEvent σ → TimerTeardown σ
  | TimerEvent.post interval work => { d with sys := d.sys.post interval work }
  | TimerEvent.worker => { d with sys := d.sys.workerStep }
  | TimerEvent.destructor => destructorStep d

/-- A sequence of events in the life of a timer, oldest first. -/
def life (d : TimerTeardown σ) (events : List (TimerEvent σ)) : TimerTeardown σ :=
  events.foldl event d

end TimerTeardown

/-! ## The wait of the background thread, step by step

`m_condition.wait(lock, pred)` is `while (!pred()) wait(lock);`: the predicate is evaluated
with `m_mutex` held, and only `wait(lock)` puts the thread into the wait set.
`SimplerTimer::Post` writes `m_has_job` and calls `notify_one` without taking `m_mutex`,
so it can run between the two. -/

/-- A timer whose background thread is followed through `m_condition.wait(lock, pred)` in
two steps. `beforeBlock` says that the thread, at `checking`, has evaluated the predicate,
found it false and has not yet blocked in `wait(lock)`; it is not in the wait set, so a
`notify_one` does not reach it. -/
structure TimerRace (σ : Type) where
  sys : TimerSystem σ
  beforeBlock : Bool

/-- What the two threads of the timer test do: the client calls `Post`, or the background
thread takes a step. -/
inductive RaceEvent (σ : Type)
  | post (interval : Int) (work : work_t σ)
  | worker

namespace TimerRace

variable {σ : Type}

/-- A timer with its background thread outside the wait. -/
def ofSystem (s : TimerSystem σ) : TimerRace σ :=
  { sys := s, beforeBlock := false }

/-- One step of the background thread (timer.hpp, lines 85-90): at `checking` the
evaluation of the predicate is a step of its own when the predicate is false, and the
next step blocks the thread whatever the members hold by then; everywhere else the step
is the one of `TimerSystem.workerStep`. -/
def workerStep (d : TimerRace σ) : TimerRace σ :=
  if d.sys.aborted then d
  else if d.beforeBlock then
    { sys := { d.sys with timer := { d.sys.timer with m_thread := TimerThread.waiting } }
      beforeBlock := false }
  else if d.sys.timer.m_thread = TimerThread.checking
      ∧ (d.sys.timer.m_stopping || d.sys.timer.m_has_job) = false then
    { d with beforeBlock := true }
  else
    { d with sys := d.sys.workerStep }

/-- One event. A `Post` does not look at where the background thread is: its
`notify_one` reaches the thread only when it is blocked in the wait. -/
def step (d : TimerRace σ) : RaceEvent σ → TimerRace σ
  | RaceEvent.post interval work => { d with sys := d.sys.post interval work }
  | RaceEvent.worker => d.workerStep

/-- A sequence of events, oldest first. -/
def run (d : TimerRace σ) (events : List (RaceEvent σ)) : TimerRace σ :=
  events.foldl step d

end TimerRace

/-! ## The locking discipline

Each member function that touches shared members is listed as the sequence of its
accesses and of its operations on `m_mutex` and `m_condition`, in program order. -/

/-- The Job of the tests: `[&counter] () mutable { ++counter; }`. -/
def incrementer : work_t Nat :=
  ⟨some (fun counter => CallResult.returns (counter + 1))⟩

/-- A Job that throws an object that does not derive from `std::exception`. -/
def throwsOther (σ : Type) : work_t σ :=
  ⟨some (fun env => CallResult.throws Thrown.other env)⟩

/-- A Job that throws a `std::runtime_error`. -/
def throwsStd (σ : Type) : work_t σ :=
  ⟨some (fun env => CallResult.throws Thrown.stdException env)⟩

end regit.async

/-!
# regit_library: the circular buffer

A shallow embedding of `src/containers/circular_buffer/include/circular_buffer.hpp`.

* The allocated block is the list `mBuffer` of its objects; `mStart` and `mEnd` are the
  pointers as offsets from `mBuffer`, in objects. They are integers because the copy
  assignment computes them from `mBuffer - mStart`.
* An access through a pointer that is outside the block is undefined behaviour: the
  operation has no result (`none`).
* The stateless allocator `mAlloc` is left out.
-/

namespace regit.containers

/-- What the buffer needs to know about the object representation of the element type: the
first byte of an object (`*reinterpret_cast<unsigned char*>(p)`) and the object whose
bytes are all `0xCC` (what `memset(p, INVALID, sizeof(T))` leaves). -/
structure ObjectRepr (T : Type) where
  firstByte : T → Nat
  filled : T
  firstByte_filled : firstByte filled = 204

/-- The constant `INVALID = 0xCC`. -/
def INVALID : Nat := 204

/-- The type `int` (32 bits, two's complement, little-endian): the first byte is the low
byte, and the `int` with all bytes `0xCC` is `-858993460`. -/
def intRepr : ObjectRepr Int :=
  { firstByte := fun v => (v % 256).toNat
    filled := -858993460
    firstByte_filled := by decide }

/-- The type `unsigned char`: the object is its byte. -/
def ucharRepr : ObjectRepr Nat :=
  { firstByte := fun v => v % 256
    filled := 204
    firstByte_filled := by decide }

/-- The data members of `CircularBuffer<T>`. -/
structure CircularBuffer (T : Type) where
  mCap : Nat
  mBuffer : List T
  mStart : Int
  mEnd : Int

/-- What a call of `operator[]` or `at` ends with. -/
inductive Fetch (T : Type)
  | value (v : T)
  | out_of_range
  | undefined

namespace CircularBuffer

variable {T : Type}

/-- The read `*p` of the object at offset `p`. -/
def deref (b : CircularBuffer T) (p : Int) : Option T :=
  if 0 ≤ p then b.mBuffer[p.toNat]? else none

/-- The write `*p = value` (also `new (p) T{...}` and `memset(p, ..)` of one object). -/
def store (b : CircularBuffer T) (p : Int) (value : T) : Option (CircularBuffer T) :=
  if 0 ≤ p ∧ p.toNat < b.mBuffer.length then
    some { b with mBuffer := b.mBuffer.set p.toNat value }
  else none

/-- The expression `std::next(p) == end ? mBuffer : std::next(p)` with `end = mBuffer + mCap`. -/
def next (b : CircularBuffer T) (p : Int) : Int :=
  if p + 1 = b.mCap then 0 else p + 1

/-- The constructor `CircularBuffer(size_t size = 1)` (lines 202-207). -/
def ctor (R : ObjectRepr T) (size : Nat) : CircularBuffer T :=
  { mCap := size, mBuffer := List.replicate size R.filled, mStart := 0, mEnd := 0 }

/-- The copy constructor (lines 209-214). -/
def copyCtor (rhs : CircularBuffer T) : CircularBuffer T :=
  { mCap := rhs.mCap, mBuffer := rhs.mBuffer.take rhs.mCap,
    mStart := rhs.mStart, mEnd := rhs.mEnd }

/-- The move constructor (lines 216-224): the new buffer and what is left of `rhs`. -/
def moveCtor (rhs : CircularBuffer T) : CircularBuffer T × CircularBuffer T :=
  ({ mCap := rhs.mCap, mBuffer := rhs.mBuffer, mStart := rhs.mStart, mEnd := rhs.mEnd },
   { mCap := 0, mBuffer := [], mStart := 0, mEnd := 0 })

/-- The constructor from a range `[_begin, _end)` (lines 226-232), the range being given as
the list of its elements. -/
def rangeCtor (range : List T) : CircularBuffer T :=
  { mCap := range.length, mBuffer := range, mStart := 0,
    mEnd := (range.length : Int) - 1 }

/-- The constructor from an initializer list (lines 234-236). -/
def initCtor (il : List T) : CircularBuffer T :=
  rangeCtor il

/-- The copy assignment `*this = rhs` (lines 238-254): `start_pos = mBuffer - mStart` and
`end_pos = mBuffer - mEnd` are taken from `*this`, and added to the new block. -/
def copyAssign (this rhs : CircularBuffer T) : CircularBuffer T :=
  { mCap := rhs.mCap, mBuffer := rhs.mBuffer.take rhs.mCap,
    mStart := 0 - this.mStart, mEnd := 0 - this.mEnd }

/-- The member `empty` (lines 328-331). -/
def empty (R : ObjectRepr T) (b : CircularBuffer T) : Option Bool :=
  if b.mStart = b.mEnd then
    (b.deref b.mStart).map (fun v => R.firstByte v == INVALID)
  else some false

/-- The member `size` (lines 288-300); the result is a `size_t`. -/
def size (R : ObjectRepr T) (b : CircularBuffer T) : Option Nat :=
  if b.mStart - b.mEnd = 0 then
    (b.deref b.mStart).map (fun v => if R.firstByte v != INVALID then 1 else 0)
  else if b.mStart - b.mEnd < 0 then
    some ((b.mEnd - b.mStart + 1) % 2 ^ 64).toNat
  else if b.mStart - 1 = b.mEnd then
    some b.mCap
  else
    some (((b.mCap : Int) - (b.mStart - b.mEnd)) % 2 ^ 64).toNat

/-- The member `capacity` (lines 333-336). -/
def capacity (b : CircularBuffer T) : Nat :=
  b.mCap

/-- The member `operator[]` (lines 338-360); `index` is an `unsigned`. -/
def subscript (b : CircularBuffer T) (index : Nat) : Fetch T :=
  if index ≥ b.mCap then Fetch.out_of_range
  else
    let offset : Int := b.mStart + index - b.mCap
    let p : Int := if offset < 0 then b.mStart + index else (offset % 2 ^ 32)
    match b.deref p with
    | some v => Fetch.value v
    | none => Fetch.undefined

/-- The member `at` (lines 400-408). -/
def «at» (b : CircularBuffer T) (index : Nat) : Fetch T :=
  b.subscript index

/-- The member `front` (lines 420-428). -/
def front (b : CircularBuffer T) : Option T :=
  b.deref b.mStart

/-- The member `back` (lines 410-418). -/
def back (b : CircularBuffer T) : Option T :=
  b.deref b.mEnd

/-- The member `data` (lines 430-433). -/
def data (b : CircularBuffer T) : List T :=
  b.mBuffer

/-- The member `push` (lines 362-374). -/
def push (R : ObjectRepr T) (b : CircularBuffer T) (value : T) : Option (CircularBuffer T) :=
  match b.empty R with
  | none => none
  | some true => b.store b.mStart value
  | some false =>
    match ({ b with mEnd := b.next b.mEnd }).store (b.next b.mEnd) value with
    | none => none
    | some b1 =>
      if b1.mEnd = b1.mStart then some { b1 with mStart := b1.next b1.mStart }
      else some b1

/-- The member `emplace` (lines 376-389), the object built from the arguments being
`value`. -/
def emplace (R : ObjectRepr T) (b : CircularBuffer T) (value : T) : Option (CircularBuffer T) :=
  match b.empty R with
  | none => none
  | some true => b.store b.mStart value
  | some false =>
    match ({ b with mEnd := b.next b.mEnd }).store (b.next b.mEnd) value with
    | none => none
    | some b1 =>
      if b1.mEnd = b1.mStart then some { b1 with mStart := b1.next b1.mStart }
      else some b1

/-- The member `pop` (lines 391-398). -/
def pop (R : ObjectRepr T) (b : CircularBuffer T) : Option (CircularBuffer T) :=
  match b.store b.mEnd R.filled with
  | none => none
  | some b1 =>
    if b1.mEnd = b1.mStart then some b1
    else some { b1 with mEnd := if b1.mEnd = 0 then (b1.mCap : Int) - 1 else b1.mEnd - 1 }

/-- The member `resize` (lines 302-326). In the shrinking branch `start_pos % sz` has no
defined result for `sz = 0`, and `curr_size` is what `size()` returns before any member is
changed. -/
def resize (R : ObjectRepr T) (b : CircularBuffer T) (sz : Nat) : Option (CircularBuffer T) :=
  if b.mCap ≤ sz then
    some
      { mCap := sz
        mBuffer := b.mBuffer.take b.mCap ++ List.replicate (sz - b.mCap) R.filled
        mStart := b.mStart
        mEnd := b.mEnd }
  else if sz = 0 then none
  else
    match b.size R with
    | none => none
    | some curr_size =>
      some
        { mCap := sz
          mBuffer := b.mBuffer.take sz
          mStart := (((b.mStart % 2 ^ 64).toNat % sz : Nat) : Int)
          mEnd := (((b.mStart % 2 ^ 64).toNat % sz : Nat) : Int)
            + ((curr_size % sz : Nat) : Int) }

/-- A sequence of `resize` calls, oldest first; it has a result when every call has one. -/
def resizeAll (R : ObjectRepr T) : CircularBuffer T → List Nat → Option (CircularBuffer T)
  | b, [] => some b
  | b, sz :: rest =>
    match b.resize R sz with
    | none => none
    | some b1 => resizeAll R b1 rest

end CircularBuffer

/-- A call that changes a buffer. -/
inductive Op (T : Type)
  | push (value : T)
  | emplace (value : T)
  | pop

/-- The call is a `pop`. -/
def Op.isPop {T : Type} : Op T → Bool
  | Op.pop => true
  | _ => false

/-- The values a sequence of calls pushes or emplaces, in order. -/
def Op.values {T : Type} : List (Op T) → List T
  | [] => []
  | Op.push value :: rest => value :: Op.values rest
  | Op.emplace value :: rest => value :: Op.values rest
  | Op.pop :: rest => Op.values rest

/-- The number of elements a buffer of capacity `c` holds after a sequence of calls when it
held `k` before, as the specification counts them: a `push` or `emplace` takes `k` to
`min (k + 1) c`, a `pop` takes it to `k - 1`, and to 0 from 0. -/
def Op.heldCount {T : Type} (c : Nat) : Nat → List (Op T) → Nat
  | k, [] => k
  | k, Op.push _ :: rest => Op.heldCount c (min (k + 1) c) rest
  | k, Op.emplace _ :: rest => Op.heldCount c (min (k + 1) c) rest
  | k, Op.pop :: rest => Op.heldCount c (k - 1) rest

namespace CircularBuffer

variable {T : Type}

/-- One call on a buffer. -/
def apply (R : ObjectRepr T) (b : CircularBuffer T) : Op T → Option (CircularBuffer T)
  | Op.push value => b.push R value
  | Op.emplace value => b.emplace R value
  | Op.pop => b.pop R

/-- A sequence of calls, oldest first; it has a result when every call has one. -/
def applyAll (R : ObjectRepr T) : CircularBuffer T → List (Op T) → Option (CircularBuffer T)
  | b, [] => some b
  | b, op :: rest =>
    match b.apply R op with
    | none => none
    | some b1 => applyAll R b1 rest

/-- A chain of copy constructions (`true`) and move constructions (`false`), each from the
buffer the one before it built. -/
def constructedFrom (b : CircularBuffer T) : List Bool → CircularBuffer T
  | [] => b
  | true :: rest => constructedFrom (copyCtor b) rest
  | false :: rest => constructedFrom (moveCtor b).1 rest

/-- The slot `x` objects after the first one, for `x` below twice the capacity `c`. -/
def wrap (c x : Nat) : Nat :=
  if x < c then x else x - c

/-- The buffer is well formed and holds nothing: the block has `mCap` objects, `mStart` and
`mEnd` point at the same object of it, and the first byte of that object is `0xCC`. -/
def Vacant (R : ObjectRepr T) (b : CircularBuffer T) : Prop :=
  ∃ s : Nat, b.mStart = (s : Int) ∧ b.mEnd = (s : Int) ∧ b.mBuffer.length = b.mCap
    ∧ s < b.mCap ∧ ∃ x, b.mBuffer[s]? = some x ∧ R.firstByte x = INVALID

/-- The buffer is well formed and holds exactly the elements `L`, oldest first: the block
has `mCap` objects, `mStart` points into it, `L` has between 1 and `mCap` elements, they
sit in consecutive slots from `mStart` on (wrapping at the end of the block), and `mEnd`
points at the last of them. -/
def Holds (b : CircularBuffer T) (L : List T) : Prop :=
  ∃ s : Nat, b.mStart = (s : Int) ∧ b.mBuffer.length = b.mCap ∧ s < b.mCap
    ∧ 1 ≤ L.length ∧ L.length ≤ b.mCap
    ∧ b.mEnd = ((wrap b.mCap (s + L.length - 1) : Nat) : Int)
    ∧ ∀ i, i < L.length → b.mBuffer[wrap b.mCap (s + i)]? = L[i]?

/-- The buffer is well formed and holds `k` elements, none of which has `0xCC` as its first
byte: nothing when `k = 0`, and a list of `k` elements otherwise. -/
def HoldsCount (R : ObjectRepr T) (b : CircularBuffer T) (k : Nat) : Prop :=
  (k = 0 ∧ b.Vacant R)
    ∨ ∃ L, b.Holds L ∧ L.length = k ∧ ∀ x ∈ L, R.firstByte x ≠ INVALID

end CircularBuffer

end regit.containers

/-! # Theorems -/

namespace regit.async

/-! ## The pool on its own -/

section Pool

variable {σ ThreadT : Type}

theorem Start_loop_eq (f : worker_t → ThreadT) (k : Nat) (threads : List ThreadT) :
    GenericThreadPool.Start.loop f k threads
      = threads ++ List.replicate k (f worker_t.joinPool) := by
  induction k generalizing threads with
  | zero => simp [GenericThreadPool.Start.loop]
  | succ k ih =>
    simp [GenericThreadPool.Start.loop, ih, List.replicate_succ]

theorem Start_of_init_flag [Inhabited ThreadT] (p : GenericThreadPool σ ThreadT)
    (h : p.m_init_flag = true) : p.Start = p := by
  simp [GenericThreadPool.Start, h]

theorem Start_init_flag [Inhabited ThreadT] (p : GenericThreadPool σ ThreadT) :
    p.Start.m_init_flag = true := by
  unfold GenericThreadPool.Start
  split
  · assumption
  · rfl

theorem Stop_of_deinit_flag (p : GenericThreadPool σ ThreadT)
    (h : p.m_deinit_flag = true) : p.Stop = p := by
  simp [GenericThreadPool.Stop, h]

theorem Stop_deinit_flag (p : GenericThreadPool σ ThreadT) :
    p.Stop.m_deinit_flag = true := by
  unfold GenericThreadPool.Stop
  split
  · assumption
  · rfl

theorem Start_twice [Inhabited ThreadT] (p : GenericThreadPool σ ThreadT) :
    p.Start.Start = p.Start :=
  Start_of_init_flag _ (Start_init_flag p)

theorem Stop_twice (p : GenericThreadPool σ ThreadT) : p.Stop.Stop = p.Stop :=
  Stop_of_deinit_flag _ (Stop_deinit_flag p)

theorem Start_iterate [Inhabited ThreadT] (p : GenericThreadPool σ ThreadT) (k : Nat) :
    GenericThreadPool.Start^[k + 1] p = p.Start := by
  induction k with
  | zero => rfl
  | succ k ih =>
    rw [Function.iterate_succ_apply', ih, Start_twice]

theorem Stop_iterate (p : GenericThreadPool σ ThreadT) (k : Nat) :
    GenericThreadPool.Stop^[k + 1] p = p.Stop := by
  induction k with
  | zero => rfl
  | succ k ih =>
    rw [Function.iterate_succ_apply', ih, Stop_twice]

theorem Start_frame [Inhabited ThreadT] (p : GenericThreadPool σ ThreadT) :
    p.Start.m_jobs = p.m_jobs ∧ p.Start.m_stopping = p.m_stopping
      ∧ p.Start.m_deinit_flag = p.m_deinit_flag ∧ p.Start.m_poolSize = p.m_poolSize := by
  unfold GenericThreadPool.Start
  split <;> simp

theorem Stop_frame (p : GenericThreadPool σ ThreadT) :
    p.Stop.m_jobs = p.m_jobs ∧ p.Stop.m_init_flag = p.m_init_flag
      ∧ p.Stop.m_poolSize = p.m_poolSize := by
  unfold GenericThreadPool.Stop
  split <;> simp

theorem Start_threads_of_fresh [Inhabited ThreadT] (p : GenericThreadPool σ ThreadT)
    (hi : p.m_init_flag = false) (ht : p.m_threads = []) :
    p.Start.m_threads = List.replicate p.m_poolSize default
      ++ List.replicate p.m_poolSize (p.m_threadFactory worker_t.joinPool) := by
  simp [GenericThreadPool.Start, hi, ht, Start_loop_eq, vector_resize]

/-- C1: `Post` is a total function of the pool state, whatever the flags say (before `Start`,
running, after `Stop`); the queue of the result is the old queue with the Job appended at
the tail, and the stopping flag, the execution units and every other member are
unchanged. -/
theorem Post_enqueues_at_tail (p : GenericThreadPool σ ThreadT) (j : work_t σ) :
    (p.Post j).m_jobs = p.m_jobs ++ [j]
      ∧ (p.Post j).m_stopping = p.m_stopping
      ∧ (p.Post j).m_threads = p.m_threads
      ∧ (p.Post j).m_init_flag = p.m_init_flag
      ∧ (p.Post j).m_deinit_flag = p.m_deinit_flag
      ∧ (p.Post j).m_poolSize = p.m_poolSize
      ∧ (p.Post j).m_threadFactory = p.m_threadFactory :=
  ⟨rfl, rfl, rfl, rfl, rfl, rfl, rfl⟩

/-- C5: `Start` and `Stop` are idempotent on every pool state: calling either twice, or any
positive number of times, gives the state that one call gives. -/
theorem Start_Stop_idempotent [Inhabited ThreadT] (p : GenericThreadPool σ ThreadT) :
    p.Start.Start = p.Start
      ∧ p.Stop.Stop = p.Stop
      ∧ (∀ k : Nat, GenericThreadPool.Start^[k + 1] p = p.Start)
      ∧ (∀ k : Nat, GenericThreadPool.Stop^[k + 1] p = p.Stop) :=
  ⟨Start_twice p, Stop_twice p, Start_iterate p, Stop_iterate p⟩

/-- C6: after the first `Start` of a pool constructed with size `n`, `m_threads` holds
`2 * n` entries: `n` value-initialised ones from `resize`, which no factory call made,
followed by the `n` results of the factory; for `n = 1` with the default thread type the
collection is a wrapper without a thread followed by the single worker. -/
theorem Start_doubles_the_collection [Inhabited ThreadT] (n : Nat)
    (factory : worker_t → ThreadT) :
    ((GenericThreadPool.ctor n factory : GenericThreadPool σ ThreadT).Start).m_threads
        = List.replicate n default ++ List.replicate n (factory worker_t.joinPool)
      ∧ ((GenericThreadPool.ctor n factory : GenericThreadPool σ ThreadT).Start).m_threads.length
        = 2 * n
      ∧ ((GenericThreadPool.ctorDefault 1 : GenericThreadPool σ detail.NaiveThreadWrapper).Start).m_threads
        = [⟨std_thread.notAThread⟩, ⟨std_thread.running worker_t.joinPool⟩] := by
  refine ⟨?_, ?_, ?_⟩
  · exact Start_threads_of_fresh _ rfl rfl
  · rw [Start_threads_of_fresh _ rfl rfl]
    simp [GenericThreadPool.ctor]
    omega
  · rfl

end Pool

/-! ## The running pool -/

section Running

variable {σ : Type} (W : WorkPolicyT σ)

theorem run_cons (s : PoolSystem σ) (e : Event σ) (es : List (Event σ)) :
    PoolSystem.run W s (e :: es) = PoolSystem.run W (PoolSystem.step W s e) es := rfl

theorem run_append (s : PoolSystem σ) (a b : List (Event σ)) :
    PoolSystem.run W s (a ++ b) = PoolSystem.run W (PoolSystem.run W s a) b := by
  simp [PoolSystem.run, List.foldl_append]

theorem step_of_aborted (s : PoolSystem σ) (h : s.aborted = true) (e : Event σ) :
    PoolSystem.step W s e = s := by
  cases e <;> simp [PoolSystem.step, PoolSystem.workerStep, h]

theorem run_of_aborted (s : PoolSystem σ) (h : s.aborted = true) (es : List (Event σ)) :
    PoolSystem.run W s es = s := by
  induction es with
  | nil => rfl
  | cons e es ih => rw [run_cons, step_of_aborted W s h, ih]

theorem isWorker_iff (s : PoolSystem σ) (i : Nat) :
    s.isWorker i = true ↔ ∃ entry, s.pool.m_threads[i]? = some ⟨std_thread.running entry⟩ := by
  unfold PoolSystem.isWorker
  cases h : s.pool.m_threads[i]? with
  | none => simp
  | some w =>
    obtain ⟨t⟩ := w
    cases t with
    | notAThread => simp
    | running entry => simpa using ⟨entry, trivial⟩
    | finished entry => simp

theorem workerStep_not_worker (s : PoolSystem σ) (i : Nat) (h : s.isWorker i = false) :
    PoolSystem.workerStep W i s = s := by
  unfold PoolSystem.isWorker at h
  unfold PoolSystem.workerStep
  cases hi : s.pool.m_threads[i]? with
  | none => simp
  | some w =>
    obtain ⟨t⟩ := w
    cases t <;> simp_all

theorem workerStep_blocked (s : PoolSystem σ) (i : Nat) (hs : s.pool.m_stopping = false)
    (hq : s.pool.m_jobs = []) : PoolSystem.workerStep W i s = s := by
  unfold PoolSystem.workerStep
  cases hi : s.pool.m_threads[i]? with
  | none => simp
  | some w =>
    obtain ⟨t⟩ := w
    cases t <;> simp [GenericThreadPool.WorkerFunc.pass, hs, hq]

theorem workerStep_dequeue (s : PoolSystem σ) (i : Nat) (j : work_t σ) (rest : List (work_t σ))
    (ha : s.aborted = false) (hs : s.pool.m_stopping = false) (hw : s.isWorker i = true)
    (hq : s.pool.m_jobs = j :: rest) :
    PoolSystem.workerStep W i s =
      match W.BeginWork j s.env with
      | PolicyResult.returned e =>
        { s with pool := { s.pool with m_jobs := rest }, env := e, handed := s.handed ++ [j] }
      | PolicyResult.terminated e =>
        { pool := { s.pool with m_jobs := rest }, env := e, handed := s.handed ++ [j],
          aborted := true } := by
  obtain ⟨entry, hi⟩ := (isWorker_iff s i).1 hw
  unfold PoolSystem.workerStep
  simp [ha, hi, GenericThreadPool.WorkerFunc.pass, hs, hq]

theorem workerStep_stopping (s : PoolSystem σ) (i : Nat) (hs : s.pool.m_stopping = true) :
    (PoolSystem.workerStep W i s).pool.m_jobs = s.pool.m_jobs
      ∧ (PoolSystem.workerStep W i s).handed = s.handed
      ∧ (PoolSystem.workerStep W i s).env = s.env
      ∧ (PoolSystem.workerStep W i s).aborted = s.aborted
      ∧ (PoolSystem.workerStep W i s).pool.m_stopping = true
      ∧ (PoolSystem.workerStep W i s).pool.m_deinit_flag = s.pool.m_deinit_flag
      ∧ (s.aborted = false → (PoolSystem.workerStep W i s).isWorker i = false) := by
  by_cases hw : s.isWorker i = true
  · obtain ⟨entry, hi⟩ := (isWorker_iff s i).1 hw
    have hlt : i < s.pool.m_threads.length := by
      rcases Nat.lt_or_ge i s.pool.m_threads.length with h | h
      · exact h
      · rw [List.getElem?_eq_none h] at hi
        cases hi
    unfold PoolSystem.workerStep
    by_cases ha : s.aborted = true
    · simp [ha, hs]
    · simp [ha, hi, GenericThreadPool.WorkerFunc.pass, hs, PoolSystem.isWorker, hlt]
  · have hw2 : s.isWorker i = false := by simpa using hw
    rw [workerStep_not_worker W s i hw2]
    exact ⟨rfl, rfl, rfl, rfl, hs, rfl, fun _ => hw2⟩

theorem isWorker_congr (s t : PoolSystem σ) (h : t.pool.m_threads = s.pool.m_threads) (i : Nat) :
    t.isWorker i = s.isWorker i := by
  simp [PoolSystem.isWorker, h]

/-- The three ways a worker step can go: nothing moves (dead process, no running thread at
the entry, or an empty queue), the thread leaves the loop because the pool is stopping,
or the front of the queue goes to the policy. -/
theorem workerStep_cases (s : PoolSystem σ) (i : Nat) :
    PoolSystem.workerStep W i s = s
      ∨ (s.pool.m_stopping = true ∧ ∃ entry,
          PoolSystem.workerStep W i s = { s with pool := { s.pool with
            m_threads := s.pool.m_threads.set i ⟨std_thread.finished entry⟩ } })
      ∨ (s.pool.m_stopping = false ∧ s.aborted = false ∧ s.isWorker i = true
          ∧ ∃ j rest, s.pool.m_jobs = j :: rest ∧
            PoolSystem.workerStep W i s =
              match W.BeginWork j s.env with
              | PolicyResult.returned e =>
                { s with pool := { s.pool with m_jobs := rest }, env := e,
                         handed := s.handed ++ [j] }
              | PolicyResult.terminated e =>
                { pool := { s.pool with m_jobs := rest }, env := e,
                  handed := s.handed ++ [j], aborted := true }) := by
  by_cases ha : s.aborted = true
  · left
    simp [PoolSystem.workerStep, ha]
  have ha2 : s.aborted = false := by simpa using ha
  by_cases hw : s.isWorker i = true
  · by_cases hs : s.pool.m_stopping = true
    · right; left
      obtain ⟨entry, hi⟩ := (isWorker_iff s i).1 hw
      refine ⟨hs, entry, ?_⟩
      simp [PoolSystem.workerStep, ha2, hi, GenericThreadPool.WorkerFunc.pass, hs]
    · have hs2 : s.pool.m_stopping = false := by simpa using hs
      cases hq : s.pool.m_jobs with
      | nil => left; exact workerStep_blocked W s i hs2 hq
      | cons j rest =>
        right; right
        exact ⟨hs2, ha2, hw, j, rest, rfl, workerStep_dequeue W s i j rest ha2 hs2 hw hq⟩
  · left
    exact workerStep_not_worker W s i (by simpa using hw)

theorem run_posts (js : List (work_t σ)) (s : PoolSystem σ) (ha : s.aborted = false) :
    PoolSystem.run W s (js.map Event.post)
      = { s with pool := { s.pool with m_jobs := s.pool.m_jobs ++ js } } := by
  induction js generalizing s with
  | nil => simp [PoolSystem.run]
  | cons j js ih =>
    rw [List.map_cons, run_cons]
    have h1 : PoolSystem.step W s (Event.post j) = { s with pool := s.pool.Post j } := by
      simp [PoolSystem.step, ha]
    rw [h1, ih { s with pool := s.pool.Post j } ha]
    simp [GenericThreadPool.Post]

/-- A schedule of worker steps on a pool that is not stopping: the flag and the collection
stay as they are, and while the process lives the steps hand over the front of the queue,
one Job per step, in order. -/
theorem run_workers (sched : List Nat) (s : PoolSystem σ) (hs : s.pool.m_stopping = false)
    (hw : ∀ i ∈ sched, s.isWorker i = true) :
    (PoolSystem.run W s (sched.map Event.worker)).pool.m_stopping = false
      ∧ (PoolSystem.run W s (sched.map Event.worker)).pool.m_threads = s.pool.m_threads
      ∧ ((PoolSystem.run W s (sched.map Event.worker)).aborted = false →
          (PoolSystem.run W s (sched.map Event.worker)).handed
              = s.handed ++ s.pool.m_jobs.take sched.length
            ∧ (PoolSystem.run W s (sched.map Event.worker)).pool.m_jobs
              = s.pool.m_jobs.drop sched.length
            ∧ (PoolSystem.run W s (sched.map Event.worker)).env
              = (s.pool.m_jobs.take sched.length).foldl
                  (fun e j => (W.BeginWork j e).env) s.env) := by
  induction sched generalizing s with
  | nil => simp [PoolSystem.run, hs]
  | cons i sched ih =>
    rw [List.map_cons, run_cons]
    have hwi : s.isWorker i = true := hw i (List.mem_cons_self _ _)
    have hwr : ∀ k ∈ sched, s.isWorker k = true := fun k hk => hw k (List.mem_cons_of_mem _ hk)
    by_cases ha : s.aborted = true
    · rw [step_of_aborted W s ha, run_of_aborted W s ha]
      exact ⟨hs, rfl, fun h => by simp [ha] at h⟩
    · have ha2 : s.aborted = false := by simpa using ha
      cases hq : s.pool.m_jobs with
      | nil =>
        have h1 : PoolSystem.step W s (Event.worker i) = s := workerStep_blocked W s i hs hq
        rw [h1]
        have := ih s hs hwr
        simpa [hq] using this
      | cons j rest =>
        have h1 : PoolSystem.step W s (Event.worker i) = _ :=
          workerStep_dequeue W s i j rest ha2 hs hwi hq
        rw [h1]
        cases hb : W.BeginWork j s.env with
        | returned e =>
          simp only []
          have := ih { s with pool := { s.pool with m_jobs := rest }, env := e,
                              handed := s.handed ++ [j] } hs
            (fun k hk => (isWorker_congr s _ rfl k).trans (hwr k hk))
          simpa [hb, PolicyResult.env] using this
        | terminated e =>
          simp only []
          rw [run_of_aborted W _ rfl]
          exact ⟨hs, rfl, fun h => by simp at h⟩

/-- A worker step does not end the process when the policy returns on every queued Job,
and it leaves no Job in the queue that was not there. -/
theorem workerStep_alive (i : Nat) (s : PoolSystem σ) (ha : s.aborted = false)
    (hok : ∀ j ∈ s.pool.m_jobs, ∀ e, ∃ e2, W.BeginWork j e = PolicyResult.returned e2) :
    (PoolSystem.workerStep W i s).aborted = false
      ∧ ∀ j ∈ (PoolSystem.workerStep W i s).pool.m_jobs, j ∈ s.pool.m_jobs := by
  rcases workerStep_cases W s i with h | ⟨_, entry, h⟩ | ⟨_, _, _, j, rest, hq, h⟩
  · rw [h]; exact ⟨ha, fun j hj => hj⟩
  · rw [h]; exact ⟨ha, fun j hj => hj⟩
  · obtain ⟨e2, h2⟩ := hok j (by simp [hq]) s.env
    rw [h, h2]
    refine ⟨ha, fun k hk => ?_⟩
    rw [hq]
    exact List.mem_cons_of_mem _ hk

/-- A schedule of worker steps never ends the process when the policy returns on every
queued Job. -/
theorem run_workers_alive (sched : List Nat) (s : PoolSystem σ) (ha : s.aborted = false)
    (hok : ∀ j ∈ s.pool.m_jobs, ∀ e, ∃ e2, W.BeginWork j e = PolicyResult.returned e2) :
    (PoolSystem.run W s (sched.map Event.worker)).aborted = false := by
  induction sched generalizing s with
  | nil => simpa [PoolSystem.run] using ha
  | cons i sched ih =>
    rw [List.map_cons, run_cons]
    have h := workerStep_alive W i s ha hok
    exact ih (PoolSystem.step W s (Event.worker i)) h.1 (fun j hj e => hok j (h.2 j hj) e)

theorem posted_cons (e : Event σ) (es : List (Event σ)) :
    PoolSystem.posted (e :: es) = PoolSystem.posted [e] ++ PoolSystem.posted es := by
  cases e <;> simp [PoolSystem.posted]

theorem posted_append (a b : List (Event σ)) :
    PoolSystem.posted (a ++ b) = PoolSystem.posted a ++ PoolSystem.posted b := by
  induction a with
  | nil => simp [PoolSystem.posted]
  | cons e a ih =>
    rw [List.cons_append, posted_cons, posted_cons e a, ih, List.append_assoc]

theorem posted_posts (js : List (work_t σ)) : PoolSystem.posted (js.map Event.post) = js := by
  induction js with
  | nil => rfl
  | cons j js ih => simp [PoolSystem.posted, ih]

theorem posted_workers (sched : List Nat) :
    PoolSystem.posted (sched.map (Event.worker : Nat → Event σ)) = [] := by
  induction sched with
  | nil => rfl
  | cons i sched ih => simp [PoolSystem.posted, ih]

/-- No event loses or duplicates a Job: what was handed to the policy followed by what is
queued grows by exactly the Job the event posts. -/
theorem step_conserves (s : PoolSystem σ) (e : Event σ) (h : (PoolSystem.step W s e).aborted = false) :
    (PoolSystem.step W s e).handed ++ (PoolSystem.step W s e).pool.m_jobs
      = s.handed ++ s.pool.m_jobs ++ PoolSystem.posted [e] := by
  have ha : s.aborted = false := by
    cases hb : s.aborted with
    | false => rfl
    | true => rw [step_of_aborted W s hb] at h; rw [hb] at h; cases h
  cases e with
  | post work => simp [PoolSystem.step, ha, PoolSystem.posted, GenericThreadPool.Post]
  | start => simp [PoolSystem.step, ha, PoolSystem.posted, (Start_frame s.pool).1]
  | stop => simp [PoolSystem.step, ha, PoolSystem.posted, (Stop_frame s.pool).1]
  | worker i =>
    have hp : PoolSystem.posted [Event.worker i] = ([] : List (work_t σ)) := rfl
    rw [hp, List.append_nil]
    show (PoolSystem.workerStep W i s).handed ++ (PoolSystem.workerStep W i s).pool.m_jobs = _
    rcases workerStep_cases W s i with h1 | ⟨_, entry, h1⟩ | ⟨_, _, _, j, rest, hq, h1⟩
    · rw [h1]
    · rw [h1]
    · rw [h1, hq]
      cases W.BeginWork j s.env <;> simp

theorem run_conserves (es : List (Event σ)) (s : PoolSystem σ)
    (h : (PoolSystem.run W s es).aborted = false) :
    (PoolSystem.run W s es).handed ++ (PoolSystem.run W s es).pool.m_jobs
      = s.handed ++ s.pool.m_jobs ++ PoolSystem.posted es := by
  induction es generalizing s with
  | nil => simp [PoolSystem.run, PoolSystem.posted]
  | cons e es ih =>
    rw [run_cons] at h ⊢
    have h1 : (PoolSystem.step W s e).aborted = false := by
      cases hb : (PoolSystem.step W s e).aborted with
      | false => rfl
      | true => rw [run_of_aborted W _ hb] at h; rw [hb] at h; cases h
    rw [ih _ h, step_conserves W s e h1, posted_cons e es]
    simp [List.append_assoc]

theorem alive_of_run_alive (es : List (Event σ)) (s : PoolSystem σ)
    (h : (PoolSystem.run W s es).aborted = false) : s.aborted = false := by
  cases hb : s.aborted with
  | false => rfl
  | true => rw [run_of_aborted W s hb] at h; rw [hb] at h; cases h

/-- In a collection made of `n` value-initialised wrappers followed by `n` wrappers from the
default factory, entries `n .. 2 * n - 1` own a running worker and entries `0 .. n - 1`
own no thread. -/
theorem isWorker_of_threads (s : PoolSystem σ) (n : Nat)
    (h : s.pool.m_threads = List.replicate n default
          ++ List.replicate n (detail.NaiveThreadWrapper.ctor worker_t.joinPool)) (i : Nat) :
    s.isWorker i = true ↔ n ≤ i ∧ i < 2 * n := by
  unfold PoolSystem.isWorker
  rw [h]
  rcases Nat.lt_or_ge i n with hi | hi
  · rw [List.getElem?_append_left (by simpa using hi)]
    have hd : (default : detail.NaiveThreadWrapper) = ⟨std_thread.notAThread⟩ := rfl
    simp [List.getElem?_replicate, hi, hd]
  · rw [List.getElem?_append_right (by simpa using hi)]
    simp only [List.length_replicate, List.getElem?_replicate]
    by_cases h2 : i - n < n
    · simp [h2, detail.NaiveThreadWrapper.ctor]
      omega
    · simp [h2]
      omega

/-- Whatever threads a schedule of worker steps names and whatever the policy does, the
steps take some number `k` of Jobs off the front of the queue, hand exactly those to the
policy, in order, and leave the environment those `k` calls of `BeginWork` produce. -/
theorem run_workers_trace (sched : List Nat) (s : PoolSystem σ) :
    ∃ k, (PoolSystem.run W s (sched.map Event.worker)).handed
          = s.handed ++ s.pool.m_jobs.take k
      ∧ (PoolSystem.run W s (sched.map Event.worker)).pool.m_jobs = s.pool.m_jobs.drop k
      ∧ (PoolSystem.run W s (sched.map Event.worker)).env
          = (s.pool.m_jobs.take k).foldl (fun e j => (W.BeginWork j e).env) s.env := by
  induction sched generalizing s with
  | nil => exact ⟨0, by simp [PoolSystem.run]⟩
  | cons i sched ih =>
    rw [List.map_cons, run_cons]
    have hstep : PoolSystem.step W s (Event.worker i) = PoolSystem.workerStep W i s := rfl
    rw [hstep]
    rcases workerStep_cases W s i with h | ⟨_, entry, h⟩ | ⟨_, _, _, j, rest, hq, h⟩
    · rw [h]
      exact ih s
    · rw [h]
      exact ih _
    · rw [h, hq]
      cases hb : W.BeginWork j s.env with
      | returned e =>
        obtain ⟨k, h1, h2, h3⟩ :=
          ih ⟨{ s.pool with m_jobs := rest }, e, s.handed ++ [j], s.aborted⟩
        exact ⟨k + 1, by simpa using h1, by simpa using h2,
          by simpa [hb, PolicyResult.env] using h3⟩
      | terminated e =>
        simp only []
        rw [run_of_aborted W _ rfl]
        exact ⟨1, by simp, by simp, by simp [hb, PolicyResult.env]⟩

/-- When a schedule of worker steps has emptied the queue, every Job that was queued has
been handed to the policy, once and in queue order. -/
theorem run_workers_emptied (sched : List Nat) (s : PoolSystem σ)
    (h : (PoolSystem.run W s (sched.map Event.worker)).pool.m_jobs = []) :
    (PoolSystem.run W s (sched.map Event.worker)).handed = s.handed ++ s.pool.m_jobs
      ∧ (PoolSystem.run W s (sched.map Event.worker)).env
          = s.pool.m_jobs.foldl (fun e j => (W.BeginWork j e).env) s.env := by
  obtain ⟨k, h1, h2, h3⟩ := run_workers_trace W sched s
  rw [h] at h2
  have hk : s.pool.m_jobs.take k = s.pool.m_jobs := by
    have := List.take_append_drop k s.pool.m_jobs
    rw [← h2, List.append_nil] at this
    exact this
  rw [hk] at h1 h3
  exact ⟨h1, h3⟩

/-- Draining a queue: on a live pool that is not stopping, as many worker steps as there
are queued Jobs, by whichever running threads, hand every queued Job to the policy once,
in queue order, and leave the queue empty. -/
theorem run_workers_drain (s : PoolSystem σ) (js : List (work_t σ)) (sched : List Nat)
    (hs : s.pool.m_stopping = false) (ha : s.aborted = false) (hq : s.pool.m_jobs = js)
    (hw : ∀ i ∈ sched, s.isWorker i = true) (hlen : sched.length = js.length)
    (hok : ∀ j ∈ js, ∀ e, ∃ e2, W.BeginWork j e = PolicyResult.returned e2) :
    (PoolSystem.run W s (sched.map Event.worker)).aborted = false
      ∧ (PoolSystem.run W s (sched.map Event.worker)).pool.m_jobs = []
      ∧ (PoolSystem.run W s (sched.map Event.worker)).handed = s.handed ++ js
      ∧ (PoolSystem.run W s (sched.map Event.worker)).env
          = js.foldl (fun e j => (W.BeginWork j e).env) s.env := by
  have halive := run_workers_alive W sched s ha (by rw [hq]; exact hok)
  obtain ⟨_, _, h3⟩ := run_workers W sched s hs hw
  obtain ⟨h4, h5, h6⟩ := h3 halive
  rw [hq, hlen] at h4 h5 h6
  refine ⟨halive, ?_, ?_, ?_⟩
  · simpa using h5
  · simpa using h4
  · simpa using h6

theorem incrementers_count (n c : Nat) :
    (List.replicate n incrementer).foldl
        (fun e j => (detail.DefaultWorkPolicy.BeginWork j e).env) c = c + n := by
  induction n generalizing c with
  | zero => rfl
  | succ n ih =>
    rw [List.replicate_succ, List.foldl_cons, ih]
    simp [detail.DefaultWorkPolicy.BeginWork, incrementer, work_t.toBool, work_t.call,
      PolicyResult.env]
    omega

theorem incrementer_returns (j : work_t Nat) (n : Nat) (hj : j ∈ List.replicate n incrementer)
    (e : Nat) : ∃ e2, (detail.DefaultWorkPolicy.policy Nat).BeginWork j e
      = PolicyResult.returned e2 := by
  rw [List.eq_of_mem_replicate hj]
  exact ⟨e + 1, rfl⟩

/-- C2: Jobs are dequeued in submission order. On a live pool that is not stopping, with
Jobs `js` posted onto its empty queue, after any `k - 1` worker steps (`pre`) the front
of the queue is the `k`-th posted Job; the `k`-th step, whichever running thread `i` takes
it, removes exactly that Job and hands it, and nothing else, to the work policy. For every
interleaving of events at all, the Jobs handed over so far followed by the queue are the
Jobs posted so far, in order. -/
theorem dequeue_in_submission_order (s : PoolSystem σ) (js : List (work_t σ)) (pre : List Nat)
    (i : Nat) (hs : s.pool.m_stopping = false) (hq : s.pool.m_jobs = [])
    (hw : ∀ k ∈ pre ++ [i], s.isWorker k = true) (hk : pre.length < js.length)
    (halive : (PoolSystem.run W s (js.map Event.post ++ pre.map Event.worker)).aborted = false) :
    ∃ jk, js[pre.length]? = some jk
      ∧ (PoolSystem.run W s (js.map Event.post ++ pre.map Event.worker)).pool.m_jobs
          = jk :: js.drop (pre.length + 1)
      ∧ (PoolSystem.run W s (js.map Event.post ++ pre.map Event.worker)).handed
          = s.handed ++ js.take pre.length
      ∧ (PoolSystem.run W s
            (js.map Event.post ++ pre.map Event.worker ++ [Event.worker i])).pool.m_jobs
          = js.drop (pre.length + 1)
      ∧ (PoolSystem.run W s
            (js.map Event.post ++ pre.map Event.worker ++ [Event.worker i])).handed
          = s.handed ++ js.take pre.length ++ [jk]
      ∧ ∀ events : List (Event σ), (PoolSystem.run W s events).aborted = false →
          (PoolSystem.run W s events).handed ++ (PoolSystem.run W s events).pool.m_jobs
            = s.handed ++ PoolSystem.posted events := by
  have ha : s.aborted = false := alive_of_run_alive W _ s halive
  have hposts := run_posts W js s ha
  rw [hq, List.nil_append] at hposts
  rw [run_append] at halive
  have hwpre : ∀ k ∈ pre, (PoolSystem.run W s (js.map Event.post)).isWorker k = true := by
    intro k hk2
    rw [hposts]
    exact (isWorker_congr s _ rfl k).trans (hw k (List.mem_append_left _ hk2))
  obtain ⟨h1, h2, h3⟩ := run_workers W pre (PoolSystem.run W s (js.map Event.post))
    (by rw [hposts]; exact hs) hwpre
  obtain ⟨h4, h5, h6⟩ := h3 halive
  have hjobs : (PoolSystem.run W s (js.map Event.post)).pool.m_jobs = js := by rw [hposts]
  have hhanded : (PoolSystem.run W s (js.map Event.post)).handed = s.handed := by rw [hposts]
  have hthreads : (PoolSystem.run W s (js.map Event.post)).pool.m_threads = s.pool.m_threads := by
    rw [hposts]
  rw [hjobs, hhanded] at h4
  rw [hjobs] at h5
  have hdrop : js.drop pre.length = js[pre.length] :: js.drop (pre.length + 1) :=
    List.drop_eq_getElem_cons hk
  refine ⟨js[pre.length], List.getElem?_eq_getElem hk, ?_, ?_, ?_, ?_, ?_⟩
  · rw [run_append, h5, hdrop]
  · rw [run_append, h4]
  · rw [run_append, run_append]
    have hwi : (PoolSystem.run W (PoolSystem.run W s (js.map Event.post))
        (pre.map Event.worker)).isWorker i = true :=
      (isWorker_congr s _ (h2.trans hthreads) i).trans (hw i (by simp))
    have hstep := workerStep_dequeue W _ i _ _ halive h1 hwi (h5.trans hdrop)
    show (PoolSystem.workerStep W i _).pool.m_jobs = _
    rw [hstep]
    cases W.BeginWork js[pre.length] _ <;> rfl
  · rw [run_append, run_append]
    have hwi : (PoolSystem.run W (PoolSystem.run W s (js.map Event.post))
        (pre.map Event.worker)).isWorker i = true :=
      (isWorker_congr s _ (h2.trans hthreads) i).trans (hw i (by simp))
    have hstep := workerStep_dequeue W _ i _ _ halive h1 hwi (h5.trans hdrop)
    show (PoolSystem.workerStep W i _).handed = _
    rw [hstep]
    cases W.BeginWork js[pre.length] _ <;> simp [h4]
  · intro events hev
    have := run_conserves W events s hev
    rw [hq, List.append_nil] at this
    exact this

/-- Witness for C2: a pool of size 2 (workers at entries 2 and 3), three posted Jobs, the
third dequeue step taken by the thread of entry 2 after steps by entries 2 and 3. -/
theorem dequeue_in_submission_order_witness :
    (PoolSystem.run (detail.DefaultWorkPolicy.policy Nat) (PoolSystem.init 2 0) [Event.start]).isWorker 2
        = true
      ∧ (PoolSystem.run (detail.DefaultWorkPolicy.policy Nat)
          (PoolSystem.run (detail.DefaultWorkPolicy.policy Nat) (PoolSystem.init 2 0) [Event.start])
          ([incrementer, throwsStd Nat, incrementer].map Event.post
            ++ [2, 3].map Event.worker ++ [Event.worker 2])).handed
        = [incrementer, throwsStd Nat, incrementer] := by
  obtain ⟨jk, h1, _, _, _, h5, _⟩ := dequeue_in_submission_order
    (detail.DefaultWorkPolicy.policy Nat)
    (PoolSystem.run (detail.DefaultWorkPolicy.policy Nat) (PoolSystem.init 2 0) [Event.start])
    [incrementer, throwsStd Nat, incrementer] [2, 3] 2 rfl rfl (by decide) (by decide) rfl
  refine ⟨rfl, ?_⟩
  simp only [List.length_cons, List.length_nil] at h1
  cases h1
  exact h5

/-- C3: on a live, started pool that is not stopping, after `N` Jobs are posted onto the
empty queue and running workers take `N` dequeue steps, under every choice `sched` of the
thread that takes each step, the queue is empty and the Jobs handed to the policy are the
`N` posted Jobs, each once, in order; the environment is the one the `N` invocations
leave. Whenever worker steps at all, any number by any threads, have emptied the queue, the
Jobs handed over are exactly the posted ones. A pool of any size `>= 1` has schedules of
`N` steps, and with the default policy `N` increment-Jobs take a counter from 0 to exactly
`N` under each of them. -/
theorem every_job_invoked_once (s : PoolSystem σ) (js : List (work_t σ)) (sched : List Nat)
    (hs : s.pool.m_stopping = false) (ha : s.aborted = false) (hq : s.pool.m_jobs = [])
    (hw : ∀ i ∈ sched, s.isWorker i = true) (hlen : sched.length = js.length)
    (hok : ∀ j ∈ js, ∀ e, ∃ e2, W.BeginWork j e = PolicyResult.returned e2) :
    ((PoolSystem.run W s (js.map Event.post ++ sched.map Event.worker)).aborted = false
      ∧ (PoolSystem.run W s (js.map Event.post ++ sched.map Event.worker)).pool.m_jobs = []
      ∧ (PoolSystem.run W s (js.map Event.post ++ sched.map Event.worker)).handed = s.handed ++ js
      ∧ (PoolSystem.run W s (js.map Event.post ++ sched.map Event.worker)).env
          = js.foldl (fun e j => (W.BeginWork j e).env) s.env)
    ∧ (∀ order : List Nat,
        (PoolSystem.run W s (js.map Event.post ++ order.map Event.worker)).pool.m_jobs = [] →
        (PoolSystem.run W s (js.map Event.post ++ order.map Event.worker)).handed
            = s.handed ++ js
          ∧ (PoolSystem.run W s (js.map Event.post ++ order.map Event.worker)).env
            = js.foldl (fun e j => (W.BeginWork j e).env) s.env)
    ∧ (∀ size N : Nat, 1 ≤ size → ∃ order : List Nat, order.length = N ∧
        ∀ i ∈ order, (PoolSystem.run (detail.DefaultWorkPolicy.policy Nat) (PoolSystem.init size 0)
          [Event.start]).isWorker i = true)
    ∧ (∀ (size N : Nat) (order : List Nat), order.length = N →
        (∀ i ∈ order, (PoolSystem.run (detail.DefaultWorkPolicy.policy Nat) (PoolSystem.init size 0)
          [Event.start]).isWorker i = true) →
        (PoolSystem.run (detail.DefaultWorkPolicy.policy Nat) (PoolSystem.init size 0)
          (Event.start :: ((List.replicate N incrementer).map Event.post
            ++ order.map Event.worker))).env = N) := by
  refine ⟨?_, ?_, ?_, ?_⟩
  · rw [run_append, run_posts W js s ha]
    have := run_workers_drain W
      { s with pool := { s.pool with m_jobs := s.pool.m_jobs ++ js } } js sched hs ha
      (by simp [hq]) (fun i hi => (isWorker_congr s _ rfl i).trans (hw i hi)) hlen hok
    exact this
  · intro order hempty
    rw [run_append, run_posts W js s ha] at hempty ⊢
    have := run_workers_emptied W order _ hempty
    simpa [hq] using this
  · intro size N hsize
    refine ⟨List.replicate N size, by simp, ?_⟩
    intro i hi
    rw [List.eq_of_mem_replicate hi]
    refine (isWorker_of_threads _ size ?_ size).2 ⟨le_refl _, by omega⟩
    exact Start_threads_of_fresh _ rfl rfl
  · intro size N order hlen2 hw2
    rw [run_cons, run_append]
    have hposts := run_posts (detail.DefaultWorkPolicy.policy Nat) (List.replicate N incrementer)
      (PoolSystem.step (detail.DefaultWorkPolicy.policy Nat) (PoolSystem.init size 0) Event.start) rfl
    rw [hposts]
    have := run_workers_drain (detail.DefaultWorkPolicy.policy Nat)
      { PoolSystem.step (detail.DefaultWorkPolicy.policy Nat) (PoolSystem.init size 0) Event.start with
        pool := { (PoolSystem.step (detail.DefaultWorkPolicy.policy Nat) (PoolSystem.init size 0)
            Event.start).pool with
          m_jobs := (PoolSystem.step (detail.DefaultWorkPolicy.policy Nat) (PoolSystem.init size 0)
            Event.start).pool.m_jobs ++ List.replicate N incrementer } }
      (List.replicate N incrementer) order rfl rfl rfl
      (fun i hi => (isWorker_congr _ _ rfl i).trans (hw2 i hi)) (by simp [hlen2])
      (fun j hj e => incrementer_returns j N hj e)
    rw [this.2.2.2]
    have hc := incrementers_count N 0
    simpa [detail.DefaultWorkPolicy.policy, PoolSystem.step, PoolSystem.init] using hc

/-- Witness for C3: the scenario of the tests, five increment-Jobs on a started pool of
size 3 whose workers (entries 3, 4 and 5) take the five steps in turn. -/
theorem every_job_invoked_once_witness :
    (PoolSystem.run (detail.DefaultWorkPolicy.policy Nat)
        (PoolSystem.run (detail.DefaultWorkPolicy.policy Nat) (PoolSystem.init 3 0) [Event.start])
        ((List.replicate 5 incrementer).map Event.post
          ++ [3, 4, 5, 3, 4].map Event.worker)).pool.m_jobs = []
      ∧ (PoolSystem.run (detail.DefaultWorkPolicy.policy Nat)
        (PoolSystem.run (detail.DefaultWorkPolicy.policy Nat) (PoolSystem.init 3 0) [Event.start])
        ((List.replicate 5 incrementer).map Event.post
          ++ [3, 4, 5, 3, 4].map Event.worker)).handed = List.replicate 5 incrementer
      ∧ (PoolSystem.run (detail.DefaultWorkPolicy.policy Nat)
        (PoolSystem.run (detail.DefaultWorkPolicy.policy Nat) (PoolSystem.init 3 0) [Event.start])
        ((List.replicate 5 incrementer).map Event.post
          ++ [3, 4, 5, 3, 4].map Event.worker)).env = 5 := by
  have h := (every_job_invoked_once (detail.DefaultWorkPolicy.policy Nat)
    (PoolSystem.run (detail.DefaultWorkPolicy.policy Nat) (PoolSystem.init 3 0) [Event.start])
    (List.replicate 5 incrementer) [3, 4, 5, 3, 4] rfl rfl rfl (by decide) rfl
    (fun j hj e => incrementer_returns j 5 hj e)).1
  exact ⟨h.2.1, h.2.2.1, h.2.2.2.trans rfl⟩

/-- C8: `Start` leaves the queue and the stopping flag of every pool as they are. On a pool
on which Jobs `js` were posted after construction and before any `Start`, the queue right
after `Start` is still `js` in submission order and the pool is not stopping; the worker
steps that follow, as many as there are Jobs and by whichever running threads, dequeue
every one of them and hand it to the policy, once each and in order. A pool of size `>= 1`
has running threads to take these steps. -/
theorem Start_keeps_pre_posted_jobs (size : Nat) (env : σ) (js : List (work_t σ))
    (sched : List Nat)
    (hw : ∀ i ∈ sched,
      (PoolSystem.run W (PoolSystem.init size env) (js.map Event.post ++ [Event.start])).isWorker i
        = true)
    (hlen : sched.length = js.length)
    (hok : ∀ j ∈ js, ∀ e, ∃ e2, W.BeginWork j e = PolicyResult.returned e2) :
    (∀ p : GenericThreadPool σ detail.NaiveThreadWrapper,
        p.Start.m_jobs = p.m_jobs ∧ p.Start.m_stopping = p.m_stopping)
      ∧ (PoolSystem.run W (PoolSystem.init size env) (js.map Event.post ++ [Event.start])).pool.m_jobs
          = js
      ∧ (PoolSystem.run W (PoolSystem.init size env)
          (js.map Event.post ++ [Event.start])).pool.m_stopping = false
      ∧ (PoolSystem.run W (PoolSystem.init size env)
          (js.map Event.post ++ [Event.start] ++ sched.map Event.worker)).pool.m_jobs = []
      ∧ (PoolSystem.run W (PoolSystem.init size env)
          (js.map Event.post ++ [Event.start] ++ sched.map Event.worker)).handed = js
      ∧ (PoolSystem.run W (PoolSystem.init size env)
          (js.map Event.post ++ [Event.start] ++ sched.map Event.worker)).env
          = js.foldl (fun e j => (W.BeginWork j e).env) env
      ∧ (PoolSystem.run W (PoolSystem.init size env)
          (js.map Event.post ++ [Event.start] ++ sched.map Event.worker)).aborted = false
      ∧ (1 ≤ size → ∃ order : List Nat, order.length = js.length ∧
          ∀ i ∈ order, (PoolSystem.run W (PoolSystem.init size env)
            (js.map Event.post ++ [Event.start])).isWorker i = true) := by
  have hstate : PoolSystem.run W (PoolSystem.init size env) (js.map Event.post ++ [Event.start])
      = { PoolSystem.init size env with
          pool := ({ (PoolSystem.init size env).pool with m_jobs := js }).Start } := by
    rw [run_append, run_posts W js _ rfl]
    simp [PoolSystem.run, PoolSystem.step, PoolSystem.init, GenericThreadPool.ctorDefault,
      GenericThreadPool.ctor]
  have hjobs : (PoolSystem.run W (PoolSystem.init size env)
      (js.map Event.post ++ [Event.start])).pool.m_jobs = js := by
    rw [hstate]
    exact (Start_frame _).1
  have hstop : (PoolSystem.run W (PoolSystem.init size env)
      (js.map Event.post ++ [Event.start])).pool.m_stopping = false := by
    rw [hstate]
    exact (Start_frame _).2.1
  have hdrain := run_workers_drain W
    (PoolSystem.run W (PoolSystem.init size env) (js.map Event.post ++ [Event.start])) js sched
    hstop (by rw [hstate]; rfl) hjobs hw hlen hok
  have hh : (PoolSystem.run W (PoolSystem.init size env)
      (js.map Event.post ++ [Event.start])).handed = [] := by rw [hstate]; rfl
  have he : (PoolSystem.run W (PoolSystem.init size env)
      (js.map Event.post ++ [Event.start])).env = env := by rw [hstate]; rfl
  rw [hh, he, List.nil_append] at hdrain
  refine ⟨fun p => ⟨(Start_frame p).1, (Start_frame p).2.1⟩, hjobs, hstop, ?_, ?_, ?_, ?_, ?_⟩
  · rw [run_append]; exact hdrain.2.1
  · rw [run_append]; exact hdrain.2.2.1
  · rw [run_append]; exact hdrain.2.2.2
  · rw [run_append]; exact hdrain.1
  · intro hsize
    refine ⟨List.replicate js.length size, by simp, ?_⟩
    intro i hi
    rw [List.eq_of_mem_replicate hi, hstate]
    refine (isWorker_of_threads _ size ?_ size).2 ⟨le_refl _, by omega⟩
    exact Start_threads_of_fresh _ rfl rfl

/-- Witness for C8: two increment-Jobs posted on a pool of size 1 before `Start`; the
worker (entry 1) then takes two steps. -/
theorem Start_keeps_pre_posted_jobs_witness :
    (PoolSystem.run (detail.DefaultWorkPolicy.policy Nat) (PoolSystem.init 1 0)
        ([incrementer, incrementer].map Event.post ++ [Event.start])).isWorker 1 = true
      ∧ (PoolSystem.run (detail.DefaultWorkPolicy.policy Nat) (PoolSystem.init 1 0)
        ([incrementer, incrementer].map Event.post ++ [Event.start]
          ++ [1, 1].map Event.worker)).handed = [incrementer, incrementer]
      ∧ (PoolSystem.run (detail.DefaultWorkPolicy.policy Nat) (PoolSystem.init 1 0)
        ([incrementer, incrementer].map Event.post ++ [Event.start]
          ++ [1, 1].map Event.worker)).env = 2 := by
  have h := Start_keeps_pre_posted_jobs (detail.DefaultWorkPolicy.policy Nat) 1 0
    [incrementer, incrementer] [1, 1] (by decide) rfl
    (fun j hj e => incrementer_returns j 2 hj e)
  exact ⟨rfl, h.2.2.2.2.1, h.2.2.2.2.2.1.trans rfl⟩

/-- C4: `DefaultWorkPolicy::BeginWork` returns normally on an empty Job, on a Job that
returns and on a Job that throws an object derived from `std::exception`; on a Job that
throws anything else the exception leaves the `noexcept` function and the process is
terminated. On a started pool of size 1 with such a Job posted before an increment-Job,
the worker step that runs it ends the process, the increment-Job stays in the queue and
the counter stays at 0 whatever is attempted afterwards. -/
theorem BeginWork_terminates_on_other_failure :
    (∀ env : Nat, detail.DefaultWorkPolicy.BeginWork (throwsOther Nat) env
        = PolicyResult.terminated env)
      ∧ (∀ env : Nat, detail.DefaultWorkPolicy.BeginWork (throwsStd Nat) env
        = PolicyResult.returned env)
      ∧ (∀ (work : work_t Nat) (env : Nat),
          (∃ e, detail.DefaultWorkPolicy.BeginWork work env = PolicyResult.returned e)
            ∨ (∃ e, work.call env = CallResult.throws Thrown.other e))
      ∧ (PoolSystem.run (detail.DefaultWorkPolicy.policy Nat) (PoolSystem.init 1 0)
          [Event.start, Event.post (throwsOther Nat), Event.post incrementer,
            Event.worker 1]).aborted = true
      ∧ (PoolSystem.run (detail.DefaultWorkPolicy.policy Nat) (PoolSystem.init 1 0)
          [Event.start, Event.post (throwsOther Nat), Event.post incrementer,
            Event.worker 1]).pool.m_jobs.length = 1
      ∧ (∀ later : List (Event Nat),
          (PoolSystem.run (detail.DefaultWorkPolicy.policy Nat) (PoolSystem.init 1 0)
            ([Event.start, Event.post (throwsOther Nat), Event.post incrementer,
              Event.worker 1] ++ later)).env = 0
          ∧ (PoolSystem.run (detail.DefaultWorkPolicy.policy Nat) (PoolSystem.init 1 0)
            ([Event.start, Event.post (throwsOther Nat), Event.post incrementer,
              Event.worker 1] ++ later)).handed.length = 1) := by
  refine ⟨fun _ => rfl, fun _ => rfl, ?_, rfl, rfl, ?_⟩
  · intro work env
    unfold detail.DefaultWorkPolicy.BeginWork
    split
    · split
      · exact Or.inl ⟨_, rfl⟩
      · exact Or.inl ⟨_, rfl⟩
      · rename_i e h
        exact Or.inr ⟨e, h⟩
    · exact Or.inl ⟨_, rfl⟩
  · intro later
    rw [run_append, run_of_aborted _ _ rfl]
    exact ⟨rfl, rfl⟩

/-! ### After `Stop` -/

theorem Stop_keeps_stopping {ThreadT : Type} (p : GenericThreadPool σ ThreadT)
    (h : p.m_deinit_flag = true → p.m_stopping = true) : p.Stop.m_stopping = true := by
  unfold GenericThreadPool.Stop
  split
  · rename_i hd
    exact h hd
  · rfl

theorem step_start_eq (s : PoolSystem σ) (ha : s.aborted = false) :
    PoolSystem.step W s Event.start = { s with pool := s.pool.Start } := by
  simp [PoolSystem.step, ha]

theorem step_stop_eq (s : PoolSystem σ) (ha : s.aborted = false) :
    PoolSystem.step W s Event.stop = { s with pool := s.pool.Stop } := by
  simp [PoolSystem.step, ha]

/-- Only `Stop` sets `m_deinit_flag`, and it sets `m_stopping` with it. -/
theorem step_deinit_stopping (s : PoolSystem σ) (e : Event σ)
    (h : s.pool.m_deinit_flag = true → s.pool.m_stopping = true) :
    (PoolSystem.step W s e).pool.m_deinit_flag = true →
      (PoolSystem.step W s e).pool.m_stopping = true := by
  by_cases ha : s.aborted = true
  · rw [step_of_aborted W s ha]; exact h
  have ha2 : s.aborted = false := by simpa using ha
  cases e with
  | post work => simpa [PoolSystem.step, ha2, GenericThreadPool.Post] using h
  | start =>
    rw [step_start_eq W s ha2]
    show s.pool.Start.m_deinit_flag = true → s.pool.Start.m_stopping = true
    rw [(Start_frame s.pool).2.1, (Start_frame s.pool).2.2.1]
    exact h
  | stop =>
    intro _
    rw [step_stop_eq W s ha2]
    exact Stop_keeps_stopping s.pool h
  | worker i =>
    show (PoolSystem.workerStep W i s).pool.m_deinit_flag = true →
      (PoolSystem.workerStep W i s).pool.m_stopping = true
    rcases workerStep_cases W s i with h1 | ⟨_, entry, h1⟩ | ⟨_, _, _, j, rest, hq, h1⟩
    · rw [h1]; exact h
    · rw [h1]; exact h
    · rw [h1]
      cases W.BeginWork j s.env <;> exact h

theorem run_deinit_stopping (es : List (Event σ)) (s : PoolSystem σ)
    (h : s.pool.m_deinit_flag = true → s.pool.m_stopping = true) :
    (PoolSystem.run W s es).pool.m_deinit_flag = true →
      (PoolSystem.run W s es).pool.m_stopping = true := by
  induction es generalizing s with
  | nil => exact h
  | cons e es ih =>
    rw [run_cons]
    exact ih _ (step_deinit_stopping W s e h)

/-- On a live pool that is stopping no event invokes a Job: the flag stays, the process
lives on, the trace and the environment stay, and the queue only grows by what the
event posts. -/
theorem step_when_stopping (s : PoolSystem σ) (e : Event σ) (hs : s.pool.m_stopping = true)
    (ha : s.aborted = false) :
    (PoolSystem.step W s e).pool.m_stopping = true
      ∧ (PoolSystem.step W s e).aborted = false
      ∧ (PoolSystem.step W s e).handed = s.handed
      ∧ (PoolSystem.step W s e).env = s.env
      ∧ (PoolSystem.step W s e).pool.m_jobs = s.pool.m_jobs ++ PoolSystem.posted [e] := by
  cases e with
  | post work => simp [PoolSystem.step, ha, GenericThreadPool.Post, hs, PoolSystem.posted]
  | start =>
    rw [step_start_eq W s ha]
    refine ⟨?_, ha, rfl, rfl, ?_⟩
    · exact ((Start_frame s.pool).2.1).trans hs
    · simpa [PoolSystem.posted] using (Start_frame s.pool).1
  | stop =>
    rw [step_stop_eq W s ha]
    refine ⟨Stop_keeps_stopping s.pool (fun _ => hs), ha, rfl, rfl, ?_⟩
    simpa [PoolSystem.posted] using (Stop_frame s.pool).1
  | worker i =>
    obtain ⟨h1, h2, h3, h4, h5, _, _⟩ := workerStep_stopping W s i hs
    exact ⟨h5, h4.trans ha, h2, h3, by simpa [PoolSystem.posted] using h1⟩

theorem run_when_stopping (es : List (Event σ)) (s : PoolSystem σ)
    (hs : s.pool.m_stopping = true) (ha : s.aborted = false) :
    (PoolSystem.run W s es).pool.m_stopping = true
      ∧ (PoolSystem.run W s es).aborted = false
      ∧ (PoolSystem.run W s es).handed = s.handed
      ∧ (PoolSystem.run W s es).env = s.env
      ∧ (PoolSystem.run W s es).pool.m_jobs = s.pool.m_jobs ++ PoolSystem.posted es := by
  induction es generalizing s with
  | nil => simp [PoolSystem.run, PoolSystem.posted, hs, ha]
  | cons e es ih =>
    rw [run_cons]
    obtain ⟨h1, h2, h3, h4, h5⟩ := step_when_stopping W s e hs ha
    obtain ⟨k1, k2, k3, k4, k5⟩ := ih (PoolSystem.step W s e) h1 h2
    refine ⟨k1, k2, k3.trans h3, k4.trans h4, ?_⟩
    rw [k5, h5, posted_cons e es, List.append_assoc]

end Running

/-! ## The timer -/

section Timer

variable {σ : Type}

theorem timer_Post_of_pending (t : SimplerTimer σ) (interval : Int) (job : work_t σ)
    (hr : t.m_ready = true) (hj : t.m_has_job = true) : t.Post interval job = some t := by
  simp [SimplerTimer.Post, hr, hj]

theorem timer_Post_of_idle (t : SimplerTimer σ) (interval : Int) (job : work_t σ)
    (hr : t.m_ready = true) (hj : t.m_has_job = false) :
    t.Post interval job = some (SimplerTimer.notify_one
      { t with m_work := job, m_interval := interval, m_has_job := true }) := by
  simp [SimplerTimer.Post, hr, hj]

theorem timer_workerStep_of_aborted (s : TimerSystem σ) (h : s.aborted = true) :
    s.workerStep = s := by
  simp [TimerSystem.workerStep, h]

theorem timer_workerSteps_add (m n : Nat) (s : TimerSystem σ) :
    TimerSystem.workerSteps (m + n) s
      = TimerSystem.workerSteps n (TimerSystem.workerSteps m s) := by
  induction m generalizing s with
  | zero => simp [TimerSystem.workerSteps]
  | succ m ih =>
    rw [Nat.add_right_comm]
    simp only [TimerSystem.workerSteps]
    exact ih _

/-- A step of the background thread never writes `m_stopping`. -/
theorem timer_workerStep_stopping (s : TimerSystem σ) :
    s.workerStep.timer.m_stopping = s.timer.m_stopping := by
  unfold TimerSystem.workerStep
  split
  · rfl
  · split
    · split <;> rfl
    · split <;> rfl
    · split
      · split <;> rfl
      · rfl
    · rfl
    · split <;> rfl
    · rfl

/-- Once the Job was called, nothing the background thread does calls anything again. -/
theorem timer_Done_step (A : work_t σ) (ran0 : List (work_t σ)) (env0 : σ)
    (s : TimerSystem σ) (h : TimerSystem.Done A ran0 env0 s) :
    TimerSystem.Done A ran0 env0 s.workerStep := by
  obtain ⟨h1, h2, h3⟩ := h
  by_cases ha : s.aborted = true
  · rw [timer_workerStep_of_aborted s ha]
    exact ⟨h1, h2, h3⟩
  have ha2 : s.aborted = false := by simpa using ha
  rcases h3 with h3 | ⟨hj, ht⟩
  · exact absurd h3 ha
  unfold TimerSystem.workerStep
  simp only [ha2]
  cases hth : s.timer.m_thread with
  | entry =>
    by_cases hf : s.timer.m_ready_flag = true
    · simp [hf, TimerSystem.Done, h1, h2, hj]
    · simp [hf, TimerSystem.Done, h1, h2, hj]
  | loopHead =>
    by_cases hs : s.timer.m_stopping = true
    · simp [hs, TimerSystem.Done, h1, h2, hj]
    · simp [hs, TimerSystem.Done, h1, h2, hj]
  | checking =>
    by_cases hs : s.timer.m_stopping = true
    · simp [hs, TimerSystem.Done, h1, h2, hj]
    · simp [hs, TimerSystem.Done, h1, h2, hj]
  | waiting => simp [TimerSystem.Done, h1, h2, hj, hth]
  | armed => exact absurd hth ht
  | finished => simp [TimerSystem.Done, h1, h2, hj, hth]

theorem timer_Done_steps (A : work_t σ) (ran0 : List (work_t σ)) (env0 : σ) (n : Nat)
    (s : TimerSystem σ) (h : TimerSystem.Done A ran0 env0 s) :
    TimerSystem.Done A ran0 env0 (TimerSystem.workerSteps n s) := by
  induction n generalizing s with
  | zero => exact h
  | succ n ih => exact ih _ (timer_Done_step A ran0 env0 s h)

/-- While the Job is pending a step of the background thread either leaves it pending or
is its one call. -/
theorem timer_Pending_step (A : work_t σ) (ran0 : List (work_t σ)) (env0 : σ)
    (s : TimerSystem σ) (h : TimerSystem.Pending A ran0 env0 s) :
    TimerSystem.Pending A ran0 env0 s.workerStep
      ∨ TimerSystem.Done A ran0 env0 s.workerStep := by
  obtain ⟨hj, hr, hw, h1, h2, ha⟩ := h
  unfold TimerSystem.workerStep
  simp only [ha]
  cases hth : s.timer.m_thread with
  | entry =>
    left
    by_cases hf : s.timer.m_ready_flag = true
    · simp [hf, TimerSystem.Pending, hj, hr, hw, h1, h2, ha]
    · simp [hf, TimerSystem.Pending, hj, hw, h1, h2, ha]
  | loopHead =>
    left
    by_cases hs : s.timer.m_stopping = true
    · simp [hs, TimerSystem.Pending, hj, hr, hw, h1, h2, ha]
    · simp [hs, TimerSystem.Pending, hj, hr, hw, h1, h2, ha]
  | checking =>
    left
    by_cases hs : s.timer.m_stopping = true
    · simp [hs, TimerSystem.Pending, hj, hr, hw, h1, h2, ha]
    · simp [hs, TimerSystem.Pending, hj, hr, hw, h1, h2, ha]
  | waiting =>
    left
    simp [TimerSystem.Pending, hj, hr, hw, h1, h2, ha, hth]
  | armed =>
    right
    simp only []
    rw [hw, h2]
    cases hc : A.call env0 with
    | returns e => simp [TimerSystem.Done, h1, hw, CallResult.env, hc]
    | throws what e => simp [TimerSystem.Done, h1, hw, CallResult.env, hc]
  | finished =>
    left
    simp [TimerSystem.Pending, hj, hr, hw, h1, h2, ha, hth]

theorem timer_Pending_steps (A : work_t σ) (ran0 : List (work_t σ)) (env0 : σ) (n : Nat)
    (s : TimerSystem σ) (h : TimerSystem.Pending A ran0 env0 s) :
    TimerSystem.Pending A ran0 env0 (TimerSystem.workerSteps n s)
      ∨ TimerSystem.Done A ran0 env0 (TimerSystem.workerSteps n s) := by
  induction n generalizing s with
  | zero => exact Or.inl h
  | succ n ih =>
    rcases timer_Pending_step A ran0 env0 s h with h1 | h1
    · exact ih _ h1
    · exact Or.inr (timer_Done_steps A ran0 env0 n _ h1)

/-- While the timer is not stopping, a thread that is on its way gets one position closer
to the call of the pending Job with every step. -/
theorem timer_Pending_progress (A : work_t σ) (ran0 : List (work_t σ)) (env0 : σ)
    (s : TimerSystem σ) (k : Nat) (h : TimerSystem.Pending A ran0 env0 s)
    (hs : s.timer.m_stopping = false)
    (hd : TimerSystem.distance s.timer.m_thread = k + 1) :
    (k = 0 ∧ TimerSystem.Done A ran0 env0 s.workerStep)
      ∨ (0 < k ∧ TimerSystem.Pending A ran0 env0 s.workerStep
          ∧ TimerSystem.distance s.workerStep.timer.m_thread = k) := by
  have hstep := timer_Pending_step A ran0 env0 s h
  obtain ⟨hj, hr, hw, h1, h2, ha⟩ := h
  cases hth : s.timer.m_thread with
  | entry =>
    right
    rw [hth] at hd
    have hk : k = 3 := by simp [TimerSystem.distance] at hd; omega
    unfold TimerSystem.workerStep
    by_cases hf : s.timer.m_ready_flag = true
    · simp [ha, hth, hf, TimerSystem.Pending, hj, hr, hw, h1, h2, TimerSystem.distance, hk]
    · simp [ha, hth, hf, TimerSystem.Pending, hj, hw, h1, h2, TimerSystem.distance, hk]
  | loopHead =>
    right
    rw [hth] at hd
    have hk : k = 2 := by simp [TimerSystem.distance] at hd; omega
    unfold TimerSystem.workerStep
    simp [ha, hth, hs, TimerSystem.Pending, hj, hr, hw, h1, h2, TimerSystem.distance, hk]
  | checking =>
    right
    rw [hth] at hd
    have hk : k = 1 := by simp [TimerSystem.distance] at hd; omega
    unfold TimerSystem.workerStep
    simp [ha, hth, hs, TimerSystem.Pending, hj, hr, hw, h1, h2, TimerSystem.distance, hk]
  | waiting => rw [hth] at hd; simp [TimerSystem.distance] at hd
  | armed =>
    left
    rw [hth] at hd
    have hk : k = 0 := by simp [TimerSystem.distance] at hd; omega
    refine ⟨hk, ?_⟩
    rcases hstep with h3 | h3
    · exfalso
      have h4 := h3.2.2.2.1
      unfold TimerSystem.workerStep at h4
      simp only [ha, hth] at h4
      rw [h1] at h4
      cases hc : s.timer.m_work.call s.env with
      | returns e => simp [hc] at h4
      | throws what e => simp [hc] at h4
    · exact h3
  | finished => rw [hth] at hd; simp [TimerSystem.distance] at hd

/-- A pending Job is called after as many steps as the thread is away from the call. -/
theorem timer_Pending_reaches_Done (A : work_t σ) (ran0 : List (work_t σ)) (env0 : σ)
    (k : Nat) (s : TimerSystem σ) (h : TimerSystem.Pending A ran0 env0 s)
    (hs : s.timer.m_stopping = false)
    (hd : TimerSystem.distance s.timer.m_thread = k + 1) :
    TimerSystem.Done A ran0 env0 (TimerSystem.workerSteps (k + 1) s) := by
  induction k generalizing s with
  | zero =>
    rcases timer_Pending_progress A ran0 env0 s 0 h hs hd with ⟨_, h1⟩ | ⟨h0, _, _⟩
    · exact h1
    · exact absurd h0 (lt_irrefl 0)
  | succ k ih =>
    rcases timer_Pending_progress A ran0 env0 s (k + 1) h hs hd with ⟨h0, _⟩ | ⟨_, h1, h2⟩
    · omega
    · have hs2 : s.workerStep.timer.m_stopping = false :=
        (timer_workerStep_stopping s).trans hs
      exact ih s.workerStep h1 hs2 h2

theorem timer_post_of_idle (s : TimerSystem σ) (interval : Int) (job : work_t σ)
    (hr : s.timer.m_ready = true) (hj : s.timer.m_has_job = false) (ha : s.aborted = false) :
    s.post interval job =
      { s with
        timer := SimplerTimer.notify_one
          { s.timer with m_work := job, m_interval := interval, m_has_job := true } } := by
  unfold TimerSystem.post
  rw [timer_Post_of_idle s.timer interval job hr hj]
  simp [ha]

theorem timer_post_of_Pending (A : work_t σ) (ran0 : List (work_t σ)) (env0 : σ)
    (s : TimerSystem σ) (h : TimerSystem.Pending A ran0 env0 s) (interval : Int)
    (job : work_t σ) : s.post interval job = s := by
  obtain ⟨hj, hr, _, _, _, ha⟩ := h
  unfold TimerSystem.post
  rw [timer_Post_of_pending s.timer interval job hr hj]
  split <;> rfl

theorem timer_Pending_after_post (s : TimerSystem σ) (interval : Int) (job : work_t σ)
    (hr : s.timer.m_ready = true) (hj : s.timer.m_has_job = false) (ha : s.aborted = false) :
    TimerSystem.Pending job s.ran s.env (s.post interval job) := by
  rw [timer_post_of_idle s interval job hr hj ha]
  exact ⟨rfl, hr, rfl, rfl, rfl, ha⟩

/-- C10: on a ready timer with no pending Job, `Post(interval, job)` returns, and the timer
then stores exactly that Job and that interval with `m_has_job` true; `m_stopping`,
`m_ready` and the once-flag are as before, and a background thread that was blocked in the
wait has been woken. -/
theorem timer_Post_stores_job (t : SimplerTimer σ) (interval : Int) (job : work_t σ)
    (hr : t.m_ready = true) (hj : t.m_has_job = false) :
    ∃ t2, t.Post interval job = some t2
      ∧ t2.m_work = job ∧ t2.m_interval = interval ∧ t2.m_has_job = true
      ∧ t2.m_stopping = t.m_stopping ∧ t2.m_ready = t.m_ready
      ∧ t2.m_ready_flag = t.m_ready_flag
      ∧ t2.m_thread = (if t.m_thread = TimerThread.waiting then TimerThread.checking
                        else t.m_thread) :=
  ⟨_, timer_Post_of_idle t interval job hr hj, rfl, rfl, rfl, rfl, rfl, rfl, rfl⟩

/-- Witness for C10: a timer whose background thread announced `ready` and went to wait
accepts an increment-Job with an interval of one second. -/
theorem timer_Post_stores_job_witness :
    (TimerSystem.workerSteps 3 (TimerSystem.init 7 (0 : Nat))).timer.m_ready = true
      ∧ (TimerSystem.workerSteps 3 (TimerSystem.init 7 (0 : Nat))).timer.m_has_job = false
      ∧ ∃ t2, (TimerSystem.workerSteps 3 (TimerSystem.init 7 (0 : Nat))).timer.Post 1 incrementer
          = some t2
        ∧ t2.m_work = incrementer ∧ t2.m_interval = 1 ∧ t2.m_has_job = true
        ∧ t2.m_thread = TimerThread.checking := by
  obtain ⟨t2, h1, h2, h3, h4, _, _, _, h8⟩ := timer_Post_stores_job
    (TimerSystem.workerSteps 3 (TimerSystem.init 7 (0 : Nat))).timer 1 incrementer rfl rfl
  exact ⟨rfl, rfl, t2, h1, h2, h3, h4, h8.trans rfl⟩

/-- C9: on a ready timer that already has a pending Job, `Post` returns and changes nothing
at all. When Job `A` is posted on a ready, idle timer and Job `B` right after it, the state
is the one after the post of `A` alone (`A`, its interval and `m_has_job` are stored); after
any number `n` of steps of the background thread either `A` is still pending, nothing was
called and a post of `B` is still dropped, or exactly `A` was called, once, and the
environment is the one `A` left. If the timer is not stopping and its thread has not
returned, four steps are enough for the latter. -/
theorem timer_Post_drops_second_job (s : TimerSystem σ) (iA iB : Int) (A B : work_t σ)
    (n : Nat) (hr : s.timer.m_ready = true) (hj : s.timer.m_has_job = false)
    (ha : s.aborted = false) :
    (∀ (t : SimplerTimer σ) (interval : Int) (job : work_t σ),
        t.m_ready = true → t.m_has_job = true → t.Post interval job = some t)
      ∧ ((s.post iA A).timer.m_work = A ∧ (s.post iA A).timer.m_interval = iA
          ∧ (s.post iA A).timer.m_has_job = true)
      ∧ (s.post iA A).post iB B = s.post iA A
      ∧ (((TimerSystem.workerSteps n ((s.post iA A).post iB B)).ran = s.ran
            ∧ (TimerSystem.workerSteps n ((s.post iA A).post iB B)).env = s.env
            ∧ (TimerSystem.workerSteps n ((s.post iA A).post iB B)).post iB B
                = TimerSystem.workerSteps n ((s.post iA A).post iB B))
          ∨ ((TimerSystem.workerSteps n ((s.post iA A).post iB B)).ran = s.ran ++ [A]
            ∧ (TimerSystem.workerSteps n ((s.post iA A).post iB B)).env = (A.call s.env).env))
      ∧ (s.timer.m_stopping = false → s.timer.m_thread ≠ TimerThread.finished → 4 ≤ n →
          (TimerSystem.workerSteps n ((s.post iA A).post iB B)).ran = s.ran ++ [A]
            ∧ (TimerSystem.workerSteps n ((s.post iA A).post iB B)).env = (A.call s.env).env) := by
  have hP := timer_Pending_after_post s iA A hr hj ha
  have hB : (s.post iA A).post iB B = s.post iA A :=
    timer_post_of_Pending A s.ran s.env _ hP iB B
  have hA := timer_post_of_idle s iA A hr hj ha
  refine ⟨fun t interval job h1 h2 => timer_Post_of_pending t interval job h1 h2, ?_, hB, ?_, ?_⟩
  · rw [hA]
    exact ⟨rfl, rfl, rfl⟩
  · rw [hB]
    rcases timer_Pending_steps A s.ran s.env n _ hP with h | h
    · exact Or.inl ⟨h.2.2.2.1, h.2.2.2.2.1, timer_post_of_Pending A s.ran s.env _ h iB B⟩
    · exact Or.inr ⟨h.1, h.2.1⟩
  · intro hs hth hn
    rw [hB]
    have hs2 : (s.post iA A).timer.m_stopping = false := by rw [hA]; exact hs
    have hd : ∃ k, TimerSystem.distance (s.post iA A).timer.m_thread = k + 1 ∧ k + 1 ≤ 4 := by
      rw [hA]
      cases h : s.timer.m_thread with
      | entry => exact ⟨3, by simp [SimplerTimer.notify_one, h, TimerSystem.distance]⟩
      | loopHead => exact ⟨2, by simp [SimplerTimer.notify_one, h, TimerSystem.distance]⟩
      | checking => exact ⟨1, by simp [SimplerTimer.notify_one, h, TimerSystem.distance]⟩
      | waiting => exact ⟨1, by simp [SimplerTimer.notify_one, h, TimerSystem.distance]⟩
      | armed => exact ⟨0, by simp [SimplerTimer.notify_one, h, TimerSystem.distance]⟩
      | finished => exact absurd h hth
    obtain ⟨k, hk, hk4⟩ := hd
    have hdone := timer_Pending_reaches_Done A s.ran s.env k _ hP hs2 hk
    have hn2 : n = (k + 1) + (n - (k + 1)) := by omega
    rw [hn2, timer_workerSteps_add]
    have := timer_Done_steps A s.ran s.env (n - (k + 1)) _ hdone
    exact ⟨this.1, this.2.1⟩

/-- Witness for C9: on a timer whose thread waits for a job, an increment-Job `A` is posted
and then a Job `B` that would add ten; after five steps of the background thread the
counter is 1. -/
theorem timer_Post_drops_second_job_witness :
    (TimerSystem.workerSteps 3 (TimerSystem.init 7 (0 : Nat))).timer.m_ready = true
      ∧ (TimerSystem.workerSteps 5
          (((TimerSystem.workerSteps 3 (TimerSystem.init 7 (0 : Nat))).post 1 incrementer).post 1
            ⟨some (fun counter => CallResult.returns (counter + 10))⟩)).env = 1
      ∧ (TimerSystem.workerSteps 5
          (((TimerSystem.workerSteps 3 (TimerSystem.init 7 (0 : Nat))).post 1 incrementer).post 1
            ⟨some (fun counter => CallResult.returns (counter + 10))⟩)).ran = [incrementer] := by
  have h := (timer_Post_drops_second_job
    (TimerSystem.workerSteps 3 (TimerSystem.init 7 (0 : Nat))) 1 1 incrementer
    ⟨some (fun counter => CallResult.returns (counter + 10))⟩ 5 rfl rfl rfl).2.2.2.2
    rfl (by decide) (by decide)
  exact ⟨rfl, h.2.trans rfl, h.1.trans rfl⟩

end Timer

end regit.async

namespace regit.async

/-! ## The lifecycle flags of the pool -/

section Lifecycle

variable {σ : Type} (W : WorkPolicyT σ)

/-- No event other than `Stop` writes `m_stopping`. -/
theorem step_keeps_stopping_flag (s : PoolSystem σ) (e : Event σ) (he : e ≠ Event.stop) :
    (PoolSystem.step W s e).pool.m_stopping = s.pool.m_stopping := by
  by_cases ha : s.aborted = true
  · rw [step_of_aborted W s ha]
  have ha2 : s.aborted = false := by simpa using ha
  cases e with
  | post work => simp [PoolSystem.step, ha2, GenericThreadPool.Post]
  | start =>
    rw [step_start_eq W s ha2]
    exact (Start_frame s.pool).2.1
  | stop => exact absurd rfl he
  | worker i =>
    show (PoolSystem.workerStep W i s).pool.m_stopping = _
    rcases workerStep_cases W s i with h1 | ⟨_, entry, h1⟩ | ⟨_, _, _, j, rest, hq, h1⟩
    · rw [h1]
    · rw [h1]
    · rw [h1]
      cases W.BeginWork j s.env <;> rfl

/-- Once `m_stopping` is set no event clears it. -/
theorem step_stopping_stays (s : PoolSystem σ) (e : Event σ) (hs : s.pool.m_stopping = true) :
    (PoolSystem.step W s e).pool.m_stopping = true := by
  by_cases ha : s.aborted = true
  · rw [step_of_aborted W s ha]; exact hs
  · exact (step_when_stopping W s e hs (by simpa using ha)).1

theorem run_stopping_stays (es : List (Event σ)) (s : PoolSystem σ)
    (hs : s.pool.m_stopping = true) : (PoolSystem.run W s es).pool.m_stopping = true := by
  induction es generalizing s with
  | nil => exact hs
  | cons e es ih =>
    rw [run_cons]
    exact ih _ (step_stopping_stays W s e hs)

/-- C18: the stopping flag of the pool is monotonic. It is false after construction; in the
state reached by any sequence `hist` of `Post`, `Start`, `Stop` and worker steps, if it is
true then it is true after any further sequence `later`; an event other than `Stop` leaves
it as it is, in every state. -/
theorem stopping_is_monotonic (size : Nat) (env : σ) (hist later : List (Event σ)) :
    (GenericThreadPool.ctorDefault size : GenericThreadPool σ detail.NaiveThreadWrapper).m_stopping
        = false
      ∧ (PoolSystem.init size env).pool.m_stopping = false
      ∧ ((PoolSystem.run W (PoolSystem.init size env) hist).pool.m_stopping = true →
          (PoolSystem.run W (PoolSystem.init size env) (hist ++ later)).pool.m_stopping = true)
      ∧ (∀ (s : PoolSystem σ) (e : Event σ), s.pool.m_stopping = true →
          (PoolSystem.step W s e).pool.m_stopping = true)
      ∧ (∀ (s : PoolSystem σ) (e : Event σ), e ≠ Event.stop →
          (PoolSystem.step W s e).pool.m_stopping = s.pool.m_stopping) := by
  refine ⟨rfl, rfl, ?_, fun s e hs => step_stopping_stays W s e hs,
    fun s e he => step_keeps_stopping_flag W s e he⟩
  intro h
  rw [run_append]
  exact run_stopping_stays W later _ h

/-- Witness for C18: a pool of size 1 that is started and stopped, then sees a post, a late
`Start`, a worker step and a second `Stop`; the flag is still set. -/
theorem stopping_is_monotonic_witness :
    (PoolSystem.run (detail.DefaultWorkPolicy.policy Nat) (PoolSystem.init 1 0)
        [Event.start, Event.stop]).pool.m_stopping = true
      ∧ (PoolSystem.run (detail.DefaultWorkPolicy.policy Nat) (PoolSystem.init 1 0)
        ([Event.start, Event.stop]
          ++ [Event.post incrementer, Event.start, Event.worker 1, Event.stop])).pool.m_stopping
          = true :=
  ⟨rfl, (stopping_is_monotonic (detail.DefaultWorkPolicy.policy Nat) 1 0
    [Event.start, Event.stop]
    [Event.post incrementer, Event.start, Event.worker 1, Event.stop]).2.2.1 rfl⟩

/-- No event changes the size or the factory the pool was constructed with. -/
theorem step_keeps_config (s : PoolSystem σ) (e : Event σ) :
    (PoolSystem.step W s e).pool.m_poolSize = s.pool.m_poolSize
      ∧ (PoolSystem.step W s e).pool.m_threadFactory = s.pool.m_threadFactory := by
  by_cases ha : s.aborted = true
  · rw [step_of_aborted W s ha]; exact ⟨rfl, rfl⟩
  have ha2 : s.aborted = false := by simpa using ha
  cases e with
  | post work => simp [PoolSystem.step, ha2, GenericThreadPool.Post]
  | start =>
    rw [step_start_eq W s ha2]
    refine ⟨(Start_frame s.pool).2.2.2, ?_⟩
    show s.pool.Start.m_threadFactory = _
    unfold GenericThreadPool.Start
    split <;> rfl
  | stop =>
    rw [step_stop_eq W s ha2]
    refine ⟨(Stop_frame s.pool).2.2, ?_⟩
    show s.pool.Stop.m_threadFactory = _
    unfold GenericThreadPool.Stop
    split <;> rfl
  | worker i =>
    show (PoolSystem.workerStep W i s).pool.m_poolSize = _
      ∧ (PoolSystem.workerStep W i s).pool.m_threadFactory = _
    rcases workerStep_cases W s i with h1 | ⟨_, entry, h1⟩ | ⟨_, _, _, j, rest, hq, h1⟩
    · rw [h1]; exact ⟨rfl, rfl⟩
    · rw [h1]; exact ⟨rfl, rfl⟩
    · rw [h1]
      cases W.BeginWork j s.env <;> exact ⟨rfl, rfl⟩

theorem run_keeps_config (es : List (Event σ)) (s : PoolSystem σ) :
    (PoolSystem.run W s es).pool.m_poolSize = s.pool.m_poolSize
      ∧ (PoolSystem.run W s es).pool.m_threadFactory = s.pool.m_threadFactory := by
  induction es generalizing s with
  | nil => exact ⟨rfl, rfl⟩
  | cons e es ih =>
    rw [run_cons]
    obtain ⟨h1, h2⟩ := ih (PoolSystem.step W s e)
    obtain ⟨k1, k2⟩ := step_keeps_config W s e
    exact ⟨h1.trans k1, h2.trans k2⟩

/-- A pool that was never started has `m_init_flag` unset and no entry in `m_threads`, and
stays so under every event other than `Start`. -/
theorem step_never_started (s : PoolSystem σ) (e : Event σ) (he : e ≠ Event.start)
    (hi : s.pool.m_init_flag = false) (ht : s.pool.m_threads = []) :
    (PoolSystem.step W s e).pool.m_init_flag = false
      ∧ (PoolSystem.step W s e).pool.m_threads = [] := by
  by_cases ha : s.aborted = true
  · rw [step_of_aborted W s ha]; exact ⟨hi, ht⟩
  have ha2 : s.aborted = false := by simpa using ha
  cases e with
  | post work => simp [PoolSystem.step, ha2, GenericThreadPool.Post, hi, ht]
  | start => exact absurd rfl he
  | stop =>
    rw [step_stop_eq W s ha2]
    refine ⟨((Stop_frame s.pool).2.1).trans hi, ?_⟩
    show s.pool.Stop.m_threads = []
    unfold GenericThreadPool.Stop
    split
    · exact ht
    · rfl
  | worker i =>
    have hw : s.isWorker i = false := by simp [PoolSystem.isWorker, ht]
    have h1 : PoolSystem.step W s (Event.worker i) = s := workerStep_not_worker W s i hw
    rw [h1]
    exact ⟨hi, ht⟩

theorem run_never_started (es : List (Event σ)) (s : PoolSystem σ)
    (he : ∀ e ∈ es, e ≠ Event.start)
    (hi : s.pool.m_init_flag = false) (ht : s.pool.m_threads = []) :
    (PoolSystem.run W s es).pool.m_init_flag = false
      ∧ (PoolSystem.run W s es).pool.m_threads = [] := by
  induction es generalizing s with
  | nil => exact ⟨hi, ht⟩
  | cons e es ih =>
    rw [run_cons]
    obtain ⟨h1, h2⟩ := step_never_started W s e (he e (List.mem_cons_self _ _)) hi ht
    exact ih _ (fun x hx => he x (List.mem_cons_of_mem _ hx)) h1 h2

/-- A pool that was started and then stopped has both once-flags set and no entry in
`m_threads`, and stays so under every event. -/
theorem step_started_and_stopped (s : PoolSystem σ) (e : Event σ)
    (hi : s.pool.m_init_flag = true) (hd : s.pool.m_deinit_flag = true)
    (ht : s.pool.m_threads = []) :
    (PoolSystem.step W s e).pool.m_init_flag = true
      ∧ (PoolSystem.step W s e).pool.m_deinit_flag = true
      ∧ (PoolSystem.step W s e).pool.m_threads = [] := by
  by_cases ha : s.aborted = true
  · rw [step_of_aborted W s ha]; exact ⟨hi, hd, ht⟩
  have ha2 : s.aborted = false := by simpa using ha
  cases e with
  | post work => simp [PoolSystem.step, ha2, GenericThreadPool.Post, hi, hd, ht]
  | start =>
    rw [step_start_eq W s ha2]
    show s.pool.Start.m_init_flag = true ∧ s.pool.Start.m_deinit_flag = true
      ∧ s.pool.Start.m_threads = []
    rw [Start_of_init_flag s.pool hi]
    exact ⟨hi, hd, ht⟩
  | stop =>
    rw [step_stop_eq W s ha2]
    show s.pool.Stop.m_init_flag = true ∧ s.pool.Stop.m_deinit_flag = true
      ∧ s.pool.Stop.m_threads = []
    rw [Stop_of_deinit_flag s.pool hd]
    exact ⟨hi, hd, ht⟩
  | worker i =>
    have hw : s.isWorker i = false := by simp [PoolSystem.isWorker, ht]
    have h1 : PoolSystem.step W s (Event.worker i) = s := workerStep_not_worker W s i hw
    rw [h1]
    exact ⟨hi, hd, ht⟩

theorem run_started_and_stopped (es : List (Event σ)) (s : PoolSystem σ)
    (hi : s.pool.m_init_flag = true) (hd : s.pool.m_deinit_flag = true)
    (ht : s.pool.m_threads = []) :
    (PoolSystem.run W s es).pool.m_init_flag = true
      ∧ (PoolSystem.run W s es).pool.m_deinit_flag = true
      ∧ (PoolSystem.run W s es).pool.m_threads = [] := by
  induction es generalizing s with
  | nil => exact ⟨hi, hd, ht⟩
  | cons e es ih =>
    rw [run_cons]
    obtain ⟨h1, h2, h3⟩ := step_started_and_stopped W s e hi hd ht
    exact ih _ h1 h2 h3

/-- Once `m_init_flag` is set no event clears it. -/
theorem step_init_flag_stays (s : PoolSystem σ) (e : Event σ)
    (hi : s.pool.m_init_flag = true) : (PoolSystem.step W s e).pool.m_init_flag = true := by
  by_cases ha : s.aborted = true
  · rw [step_of_aborted W s ha]; exact hi
  have ha2 : s.aborted = false := by simpa using ha
  cases e with
  | post work => simp [PoolSystem.step, ha2, GenericThreadPool.Post, hi]
  | start =>
    rw [step_start_eq W s ha2]
    exact Start_init_flag s.pool
  | stop =>
    rw [step_stop_eq W s ha2]
    exact ((Stop_frame s.pool).2.1).trans hi
  | worker i =>
    show (PoolSystem.workerStep W i s).pool.m_init_flag = true
    rcases workerStep_cases W s i with h1 | ⟨_, entry, h1⟩ | ⟨_, _, _, j, rest, hq, h1⟩
    · rw [h1]; exact hi
    · rw [h1]; exact hi
    · rw [h1]
      cases W.BeginWork j s.env <;> exact hi

theorem run_init_flag_stays (es : List (Event σ)) (s : PoolSystem σ)
    (hi : s.pool.m_init_flag = true) : (PoolSystem.run W s es).pool.m_init_flag = true := by
  induction es generalizing s with
  | nil => exact hi
  | cons e es ih =>
    rw [run_cons]
    exact ih _ (step_init_flag_stays W s e hi)

/-- After a sequence of events with a `Start` among them the once-flag of `Start` is set,
unless the process was terminated before. -/
theorem run_started_of_mem (es : List (Event σ)) (s : PoolSystem σ)
    (hm : Event.start ∈ es) :
    (PoolSystem.run W s es).pool.m_init_flag = true
      ∨ (PoolSystem.run W s es).aborted = true := by
  induction es generalizing s with
  | nil => simp at hm
  | cons e es ih =>
    rw [run_cons]
    rcases List.mem_cons.1 hm with h | h
    · subst h
      by_cases ha : s.aborted = true
      · right
        rw [step_of_aborted W s ha, run_of_aborted W s ha]
        exact ha
      · left
        apply run_init_flag_stays
        rw [step_start_eq W s (by simpa using ha)]
        exact Start_init_flag s.pool
    · exact ih _ h

/-- A `Start` on a pool whose once-flag is set, or whose process was terminated, changes
nothing. -/
theorem step_start_again (s : PoolSystem σ)
    (h : s.pool.m_init_flag = true ∨ s.aborted = true) :
    PoolSystem.step W s Event.start = s := by
  by_cases ha : s.aborted = true
  · exact step_of_aborted W s ha _
  · rcases h with h | h
    · rw [step_start_eq W s (by simpa using ha), Start_of_init_flag s.pool h]
    · exact absurd h ha

theorem countP_units (size : Nat) :
    (List.replicate size (default : detail.NaiveThreadWrapper)
        ++ List.replicate size (detail.NaiveThreadWrapper.ctor worker_t.joinPool)).countP
      (fun w => decide (w = detail.NaiveThreadWrapper.ctor worker_t.joinPool)) = size := by
  rw [List.countP_append, List.countP_replicate, List.countP_replicate]
  have h1 : decide ((default : detail.NaiveThreadWrapper)
      = detail.NaiveThreadWrapper.ctor worker_t.joinPool) = false := by decide
  simp [h1]

/-- C19 (as amended): on a live pool with any history `hist`, after `Stop`, any events `mid`
and then `Start`, the pool is not running: `m_stopping` is still set, every worker step
ends its thread without dequeuing, and whatever follows (`later`) no Job is invoked, the
trace and the environment being those at `Stop`. When `Start` was called at any time
before, the late `Start` changes nothing and so creates no execution unit. When the pool
was never started, the late `Start` is its first one and creates the execution units all
the same: `size` entries of the collection are threads from the factory. -/
theorem Start_after_Stop_runs_no_job (size : Nat) (env : σ) (hist mid later : List (Event σ))
    (halive : (PoolSystem.run W (PoolSystem.init size env) hist).aborted = false) :
    (PoolSystem.run W (PoolSystem.init size env)
        (hist ++ [Event.stop] ++ mid ++ [Event.start] ++ later)).pool.m_stopping = true
      ∧ (PoolSystem.run W (PoolSystem.init size env)
          (hist ++ [Event.stop] ++ mid ++ [Event.start] ++ later)).handed
        = (PoolSystem.run W (PoolSystem.init size env) hist).handed
      ∧ (PoolSystem.run W (PoolSystem.init size env)
          (hist ++ [Event.stop] ++ mid ++ [Event.start] ++ later)).env
        = (PoolSystem.run W (PoolSystem.init size env) hist).env
      ∧ (∀ i : Nat,
          (PoolSystem.workerStep W i (PoolSystem.run W (PoolSystem.init size env)
              (hist ++ [Event.stop] ++ mid ++ [Event.start]))).pool.m_jobs
            = (PoolSystem.run W (PoolSystem.init size env)
              (hist ++ [Event.stop] ++ mid ++ [Event.start])).pool.m_jobs
          ∧ (PoolSystem.workerStep W i (PoolSystem.run W (PoolSystem.init size env)
              (hist ++ [Event.stop] ++ mid ++ [Event.start]))).handed
            = (PoolSystem.run W (PoolSystem.init size env)
              (hist ++ [Event.stop] ++ mid ++ [Event.start])).handed
          ∧ (PoolSystem.workerStep W i (PoolSystem.run W (PoolSystem.init size env)
              (hist ++ [Event.stop] ++ mid ++ [Event.start]))).isWorker i = false)
      ∧ (Event.start ∈ hist ++ [Event.stop] ++ mid →
          PoolSystem.run W (PoolSystem.init size env)
              (hist ++ [Event.stop] ++ mid ++ [Event.start])
            = PoolSystem.run W (PoolSystem.init size env) (hist ++ [Event.stop] ++ mid))
      ∧ ((∀ e ∈ hist ++ [Event.stop] ++ mid, e ≠ Event.start) →
          (PoolSystem.run W (PoolSystem.init size env)
            (hist ++ [Event.stop] ++ mid ++ [Event.start])).pool.m_threads.countP
              (fun w => decide (w = detail.NaiveThreadWrapper.ctor worker_t.joinPool))
            = size) := by
  have hinv := run_deinit_stopping W hist (PoolSystem.init size env) (fun h => by cases h)
  have hstop : PoolSystem.run W (PoolSystem.init size env) (hist ++ [Event.stop])
      = { PoolSystem.run W (PoolSystem.init size env) hist with
          pool := (PoolSystem.run W (PoolSystem.init size env) hist).pool.Stop } := by
    rw [run_append]
    exact step_stop_eq W _ halive
  have hs1 : (PoolSystem.run W (PoolSystem.init size env) (hist ++ [Event.stop])).pool.m_stopping
      = true := by
    rw [hstop]; exact Stop_keeps_stopping _ hinv
  have ha1 : (PoolSystem.run W (PoolSystem.init size env) (hist ++ [Event.stop])).aborted
      = false := by
    rw [hstop]; exact halive
  have hh1 : (PoolSystem.run W (PoolSystem.init size env) (hist ++ [Event.stop])).handed
      = (PoolSystem.run W (PoolSystem.init size env) hist).handed := by rw [hstop]
  have he1 : (PoolSystem.run W (PoolSystem.init size env) (hist ++ [Event.stop])).env
      = (PoolSystem.run W (PoolSystem.init size env) hist).env := by rw [hstop]
  have hall : hist ++ [Event.stop] ++ mid ++ [Event.start] ++ later
      = (hist ++ [Event.stop]) ++ (mid ++ [Event.start] ++ later) := by
    simp [List.append_assoc]
  have hto : hist ++ [Event.stop] ++ mid ++ [Event.start]
      = (hist ++ [Event.stop]) ++ (mid ++ [Event.start]) := by
    simp [List.append_assoc]
  obtain ⟨k1, _, k3, k4, _⟩ := run_when_stopping W (mid ++ [Event.start] ++ later) _ hs1 ha1
  obtain ⟨m1, m2, _, _, _⟩ := run_when_stopping W (mid ++ [Event.start]) _ hs1 ha1
  refine ⟨?_, ?_, ?_, ?_, ?_, ?_⟩
  · rw [hall, run_append]; exact k1
  · rw [hall, run_append, k3, hh1]
  · rw [hall, run_append, k4, he1]
  · intro i
    rw [hto, run_append]
    obtain ⟨h1, h2, _, _, _, _, h7⟩ := workerStep_stopping W _ i m1
    exact ⟨h1, h2, h7 m2⟩
  · intro hm
    rw [run_append]
    exact step_start_again W _ (run_started_of_mem W _ _ hm)
  · intro hno
    obtain ⟨n1, n2⟩ := run_never_started W (hist ++ [Event.stop] ++ mid)
      (PoolSystem.init size env) hno rfl rfl
    obtain ⟨c1, c2⟩ := run_keeps_config W (hist ++ [Event.stop] ++ mid)
      (PoolSystem.init size env)
    have ha2 : (PoolSystem.run W (PoolSystem.init size env)
        (hist ++ [Event.stop] ++ mid)).aborted = false := by
      rw [run_append]
      exact (run_when_stopping W mid _ hs1 ha1).2.1
    rw [run_append]
    have hstart := step_start_eq W _ ha2
    have hrun : PoolSystem.run W (PoolSystem.run W (PoolSystem.init size env)
        (hist ++ [Event.stop] ++ mid)) [Event.start]
        = PoolSystem.step W (PoolSystem.run W (PoolSystem.init size env)
          (hist ++ [Event.stop] ++ mid)) Event.start := rfl
    rw [hrun, hstart]
    have hth := Start_threads_of_fresh _ n1 n2
    rw [c1, c2] at hth
    show List.countP _ (PoolSystem.run W (PoolSystem.init size env)
      (hist ++ [Event.stop] ++ mid)).pool.Start.m_threads = size
    rw [hth]
    exact countP_units size

/-- Witness for C19: a pool of size 1 that was never started is stopped with an
increment-Job in its queue and then started; the thread the late `Start` created is
scheduled twice and the counter is still 0. -/
theorem Start_after_Stop_runs_no_job_witness :
    (PoolSystem.run (detail.DefaultWorkPolicy.policy Nat) (PoolSystem.init 1 0)
        [Event.post incrementer]).aborted = false
      ∧ (PoolSystem.run (detail.DefaultWorkPolicy.policy Nat) (PoolSystem.init 1 0)
          ([Event.post incrementer] ++ [Event.stop] ++ [] ++ [Event.start]
            ++ [Event.worker 1, Event.worker 1])).env = 0
      ∧ (PoolSystem.run (detail.DefaultWorkPolicy.policy Nat) (PoolSystem.init 1 0)
          ([Event.post incrementer] ++ [Event.stop] ++ [] ++ [Event.start]
            ++ [Event.worker 1, Event.worker 1])).pool.m_stopping = true := by
  have h := Start_after_Stop_runs_no_job (detail.DefaultWorkPolicy.policy Nat) 1 0
    [Event.post incrementer] [] [Event.worker 1, Event.worker 1] rfl
  exact ⟨rfl, h.2.2.1, h.1⟩

/-- Counterexample for C19 as stated: on a pool of size 1 that was never started, `Stop` and
then `Start`; the late `Start` has created an execution unit, entry 1 of the collection
owns a thread inside the worker loop. -/
theorem late_Start_creates_a_unit :
    (PoolSystem.run (detail.DefaultWorkPolicy.policy Nat) (PoolSystem.init 1 0)
        [Event.stop, Event.start]).pool.m_threads
      = [⟨std_thread.notAThread⟩, ⟨std_thread.running worker_t.joinPool⟩]
    ∧ (PoolSystem.run (detail.DefaultWorkPolicy.policy Nat) (PoolSystem.init 1 0)
        [Event.stop, Event.start]).isWorker 1 = true
    ∧ (PoolSystem.run (detail.DefaultWorkPolicy.policy Nat) (PoolSystem.init 1 0)
        [Event.stop, Event.start]).pool.m_threads ≠ [] := by
  refine ⟨rfl, rfl, ?_⟩
  decide

end Lifecycle

end regit.async

namespace regit.async

/-! ## One Job per accepted `Post` -/

section TimerRuns

variable {σ : Type}

/-- With no Job pending and the thread not about to call one, a step of the background
thread calls nothing, sleeps for nothing and leaves the slot as it is. -/
theorem timer_idle_step (s : TimerSystem σ) (hj : s.timer.m_has_job = false)
    (ht : s.timer.m_thread ≠ TimerThread.armed) :
    s.workerStep.ran = s.ran ∧ s.workerStep.env = s.env ∧ s.workerStep.slept = s.slept
      ∧ s.workerStep.aborted = s.aborted
      ∧ s.workerStep.timer.m_has_job = false
      ∧ s.workerStep.timer.m_thread ≠ TimerThread.armed
      ∧ s.workerStep.timer.m_work = s.timer.m_work
      ∧ s.workerStep.timer.m_interval = s.timer.m_interval := by
  unfold TimerSystem.workerStep
  by_cases ha : s.aborted = true
  · simp [ha, hj, ht]
  have ha2 : s.aborted = false := by simpa using ha
  simp only [ha2]
  cases hth : s.timer.m_thread with
  | entry =>
    by_cases hf : s.timer.m_ready_flag = true <;> simp [hf, hj]
  | loopHead =>
    by_cases hs : s.timer.m_stopping = true <;> simp [hs, hj]
  | checking =>
    by_cases hs : s.timer.m_stopping = true <;> simp [hs, hj]
  | waiting => simp [hj, hth, ha2]
  | armed => exact absurd hth ht
  | finished => simp [hj, hth, ha2]

theorem timer_idle_steps (n : Nat) (s : TimerSystem σ) (hj : s.timer.m_has_job = false)
    (ht : s.timer.m_thread ≠ TimerThread.armed) :
    (TimerSystem.workerSteps n s).ran = s.ran ∧ (TimerSystem.workerSteps n s).env = s.env
      ∧ (TimerSystem.workerSteps n s).slept = s.slept
      ∧ (TimerSystem.workerSteps n s).aborted = s.aborted
      ∧ (TimerSystem.workerSteps n s).timer.m_has_job = false
      ∧ (TimerSystem.workerSteps n s).timer.m_work = s.timer.m_work
      ∧ (TimerSystem.workerSteps n s).timer.m_interval = s.timer.m_interval := by
  induction n generalizing s with
  | zero => exact ⟨rfl, rfl, rfl, rfl, hj, rfl, rfl⟩
  | succ n ih =>
    obtain ⟨h1, h2, h3, h4, h5, h6, h7, h8⟩ := timer_idle_step s hj ht
    obtain ⟨k1, k2, k3, k4, k5, k6, k7⟩ := ih s.workerStep h5 h6
    exact ⟨k1.trans h1, k2.trans h2, k3.trans h3, k4.trans h4, k5, k6.trans h7, k7.trans h8⟩

/-- The timer after an accepted `Post`, its thread having been blocked in the wait: the
thread is back at the predicate. -/
theorem timer_post_wakes (s : TimerSystem σ) (interval : Int) (job : work_t σ)
    (hr : s.timer.m_ready = true) (hj : s.timer.m_has_job = false) (ha : s.aborted = false)
    (hw : s.timer.m_thread = TimerThread.waiting) :
    s.post interval job =
      { s with
        timer := { s.timer with
          m_work := job, m_interval := interval, m_has_job := true,
          m_thread := TimerThread.checking } } := by
  rw [timer_post_of_idle s interval job hr hj ha]
  simp [SimplerTimer.notify_one, hw]

/-- From the predicate of the wait with a Job pending on a timer that is not stopping: the
first step sleeps for the stored interval, the second calls the stored Job. -/
theorem timer_checking_then_armed (p : TimerSystem σ) (hj : p.timer.m_has_job = true)
    (hs : p.timer.m_stopping = false) (ha : p.aborted = false)
    (ht : p.timer.m_thread = TimerThread.checking) :
    p.workerStep =
      { p with
        timer := { p.timer with m_thread := TimerThread.armed }
        slept := p.slept + p.timer.m_interval.toNat } := by
  unfold TimerSystem.workerStep
  simp [ha, ht, hs, hj]

theorem timer_armed_returns (p : TimerSystem σ) (e : σ) (ha : p.aborted = false)
    (ht : p.timer.m_thread = TimerThread.armed)
    (hcall : p.timer.m_work.call p.env = CallResult.returns e) :
    p.workerStep =
      { p with
        timer := { p.timer with m_has_job := false, m_thread := TimerThread.loopHead }
        env := e
        ran := p.ran ++ [p.timer.m_work] } := by
  unfold TimerSystem.workerStep
  simp [ha, ht, hcall]

/-- The steps that follow an accepted `Post` on a timer whose thread was blocked in the
wait, for a Job that returns: sleep, call, then nothing. -/
theorem timer_steps_after_post (s : TimerSystem σ) (interval : Int) (job : work_t σ)
    (e : σ) (n : Nat)
    (hr : s.timer.m_ready = true) (hj : s.timer.m_has_job = false)
    (hs : s.timer.m_stopping = false) (ha : s.aborted = false)
    (hw : s.timer.m_thread = TimerThread.waiting)
    (hcall : job.call s.env = CallResult.returns e) :
    ((TimerSystem.workerSteps 1 (s.post interval job)).slept = s.slept + interval.toNat
        ∧ (TimerSystem.workerSteps 1 (s.post interval job)).ran = s.ran
        ∧ (TimerSystem.workerSteps 1 (s.post interval job)).env = s.env)
      ∧ ((TimerSystem.workerSteps 2 (s.post interval job)).ran = s.ran ++ [job]
        ∧ (TimerSystem.workerSteps 2 (s.post interval job)).env = e
        ∧ (TimerSystem.workerSteps 2 (s.post interval job)).timer.m_has_job = false
        ∧ (TimerSystem.workerSteps 2 (s.post interval job)).slept = s.slept + interval.toNat)
      ∧ ((TimerSystem.workerSteps (2 + n) (s.post interval job)).ran = s.ran ++ [job]
        ∧ (TimerSystem.workerSteps (2 + n) (s.post interval job)).env = e
        ∧ (TimerSystem.workerSteps (2 + n) (s.post interval job)).timer.m_has_job = false
        ∧ (TimerSystem.workerSteps (2 + n) (s.post interval job)).slept
            = s.slept + interval.toNat
        ∧ (TimerSystem.workerSteps (2 + n) (s.post interval job)).aborted = false) := by
  have hp := timer_post_wakes s interval job hr hj ha hw
  have h1 : TimerSystem.workerSteps 1 (s.post interval job) = (s.post interval job).workerStep :=
    rfl
  have h2 : TimerSystem.workerSteps 2 (s.post interval job)
      = (s.post interval job).workerStep.workerStep := rfl
  have e1 := timer_checking_then_armed (s.post interval job)
    (by rw [hp]) (by rw [hp]; exact hs) (by rw [hp]; exact ha) (by rw [hp])
  have e2 := timer_armed_returns (s.post interval job).workerStep e
    (by rw [e1, hp]; exact ha) (by rw [e1]) (by rw [e1, hp]; exact hcall)
  have hstep1 : (s.post interval job).workerStep.slept = s.slept + interval.toNat
      ∧ (s.post interval job).workerStep.ran = s.ran
      ∧ (s.post interval job).workerStep.env = s.env := by
    rw [e1, hp]
    exact ⟨rfl, rfl, rfl⟩
  have hstep2 : (s.post interval job).workerStep.workerStep.ran = s.ran ++ [job]
      ∧ (s.post interval job).workerStep.workerStep.env = e
      ∧ (s.post interval job).workerStep.workerStep.timer.m_has_job = false
      ∧ (s.post interval job).workerStep.workerStep.slept = s.slept + interval.toNat
      ∧ (s.post interval job).workerStep.workerStep.aborted = false
      ∧ (s.post interval job).workerStep.workerStep.timer.m_thread ≠ TimerThread.armed := by
    rw [e2]
    refine ⟨?_, rfl, rfl, hstep1.1, ?_, by simp⟩
    · show (s.post interval job).workerStep.ran
          ++ [(s.post interval job).workerStep.timer.m_work] = _
      rw [hstep1.2.1, e1, hp]
    · show (s.post interval job).workerStep.aborted = false
      rw [e1, hp]; exact ha
  refine ⟨by rw [h1]; exact hstep1, by rw [h2]; exact ⟨hstep2.1, hstep2.2.1, hstep2.2.2.1,
    hstep2.2.2.2.1⟩, ?_⟩
  rw [timer_workerSteps_add, h2]
  obtain ⟨k1, k2, k3, k4, k5, _, _⟩ := timer_idle_steps n _ hstep2.2.2.1 hstep2.2.2.2.2.2
  exact ⟨k1.trans hstep2.1, k2.trans hstep2.2.1, k5, k3.trans hstep2.2.2.2.1,
    k4.trans hstep2.2.2.2.2.1⟩

/-- A `Post` that finds the background thread blocked in the wait triggers exactly one
execution. On a ready timer that is not stopping, has no Job pending and whose background
thread is blocked waiting for one, after `Post(interval, job)` with a Job that returns
normally the first step of the thread waits out the stored interval and calls nothing
yet, the second calls the stored Job, once, and clears `m_has_job`, and every further step
calls nothing and sleeps for nothing. An increment-Job posted once with an interval of one
second on a fresh timer whose thread has blocked takes the counter from 0 to exactly 1. -/
theorem Post_on_blocked_thread_runs_job_once (s : TimerSystem σ) (interval : Int) (job : work_t σ)
    (e : σ) (n : Nat)
    (hr : s.timer.m_ready = true) (hj : s.timer.m_has_job = false)
    (hs : s.timer.m_stopping = false) (ha : s.aborted = false)
    (hw : s.timer.m_thread = TimerThread.waiting)
    (hcall : job.call s.env = CallResult.returns e) :
    ((TimerSystem.workerSteps 1 (s.post interval job)).slept = s.slept + interval.toNat
        ∧ (TimerSystem.workerSteps 1 (s.post interval job)).ran = s.ran
        ∧ (TimerSystem.workerSteps 1 (s.post interval job)).env = s.env)
      ∧ ((TimerSystem.workerSteps 2 (s.post interval job)).ran = s.ran ++ [job]
        ∧ (TimerSystem.workerSteps 2 (s.post interval job)).env = e
        ∧ (TimerSystem.workerSteps 2 (s.post interval job)).timer.m_has_job = false
        ∧ (TimerSystem.workerSteps 2 (s.post interval job)).slept = s.slept + interval.toNat)
      ∧ ((TimerSystem.workerSteps (2 + n) (s.post interval job)).ran = s.ran ++ [job]
        ∧ (TimerSystem.workerSteps (2 + n) (s.post interval job)).env = e
        ∧ (TimerSystem.workerSteps (2 + n) (s.post interval job)).timer.m_has_job = false
        ∧ (TimerSystem.workerSteps (2 + n) (s.post interval job)).slept
            = s.slept + interval.toNat
        ∧ (TimerSystem.workerSteps (2 + n) (s.post interval job)).aborted = false)
      ∧ (∀ (garbage : Int) (m : Nat),
          (TimerSystem.workerSteps (2 + m)
            ((TimerSystem.workerSteps 3 (TimerSystem.init garbage (0 : Nat))).post 1
              incrementer)).env = 1
          ∧ (TimerSystem.workerSteps (2 + m)
            ((TimerSystem.workerSteps 3 (TimerSystem.init garbage (0 : Nat))).post 1
              incrementer)).ran = [incrementer]
          ∧ (TimerSystem.workerSteps (2 + m)
            ((TimerSystem.workerSteps 3 (TimerSystem.init garbage (0 : Nat))).post 1
              incrementer)).slept = 1) := by
  obtain ⟨h1, h2, h3⟩ := timer_steps_after_post s interval job e n hr hj hs ha hw hcall
  refine ⟨h1, h2, h3, ?_⟩
  intro garbage m
  obtain ⟨_, _, k1, k2, _, k4, _⟩ := timer_steps_after_post
    (TimerSystem.workerSteps 3 (TimerSystem.init garbage (0 : Nat))) 1 incrementer 1 m
    rfl rfl rfl rfl rfl rfl
  exact ⟨k2, k1, k4⟩

/-- The scenario of the test with the background thread blocked before the `Post`, on a
timer whose storage for the interval held 7 before; four further steps after the call
change nothing. -/
theorem Post_on_blocked_thread_runs_job_once_instance :
    (TimerSystem.workerSteps 3 (TimerSystem.init 7 (0 : Nat))).timer.m_thread
        = TimerThread.waiting
      ∧ (TimerSystem.workerSteps (2 + 4)
          ((TimerSystem.workerSteps 3 (TimerSystem.init 7 (0 : Nat))).post 1 incrementer)).env
        = 1
      ∧ (TimerSystem.workerSteps (2 + 4)
          ((TimerSystem.workerSteps 3 (TimerSystem.init 7 (0 : Nat))).post 1 incrementer)).slept
        = 1 := by
  have h := (Post_on_blocked_thread_runs_job_once
    (TimerSystem.workerSteps 3 (TimerSystem.init 7 (0 : Nat))) 1 incrementer 1 4
    rfl rfl rfl rfl rfl rfl).2.2.1
  exact ⟨rfl, h.2.1, h.2.2.2.1⟩

end TimerRuns

end regit.async

namespace regit.async

/-! ## Destroying a timer -/

section Teardown

variable {σ : Type}

theorem teardown_run_cons (d : TimerTeardown σ) (e : TeardownEvent) (es : List TeardownEvent) :
    d.run (e :: es) = (d.step e).run es := rfl

/-- A background thread that is blocked in the wait stays there under every step of either
thread: the destructor notifies nothing, and its `join` does not return. -/
theorem teardown_step_stuck (d : TimerTeardown σ) (e : TeardownEvent)
    (hw : d.sys.timer.m_thread = TimerThread.waiting) (hd : d.dtor ≠ DestructorAt.returned) :
    (d.step e).sys.timer.m_thread = TimerThread.waiting
      ∧ (d.step e).dtor ≠ DestructorAt.returned := by
  cases e with
  | worker =>
    refine ⟨?_, hd⟩
    show d.sys.workerStep.timer.m_thread = TimerThread.waiting
    unfold TimerSystem.workerStep
    by_cases ha : d.sys.aborted = true
    · simp [ha, hw]
    · simp [ha, hw]
  | destructor =>
    show (TimerTeardown.destructorStep d).sys.timer.m_thread = TimerThread.waiting
      ∧ (TimerTeardown.destructorStep d).dtor ≠ DestructorAt.returned
    unfold TimerTeardown.destructorStep
    by_cases ha : d.sys.aborted = true
    · simp [ha, hw, hd]
    · cases hdt : d.dtor with
      | spin =>
        by_cases hj : d.sys.timer.m_has_job = true
        · simp [ha, hdt, hj, hw]
        · simp [ha, hdt, hj, hw]
      | join => simp [ha, hdt, hw]
      | returned => exact absurd hdt hd

theorem teardown_run_stuck (es : List TeardownEvent) (d : TimerTeardown σ)
    (hw : d.sys.timer.m_thread = TimerThread.waiting) (hd : d.dtor ≠ DestructorAt.returned) :
    (d.run es).sys.timer.m_thread = TimerThread.waiting
      ∧ (d.run es).dtor ≠ DestructorAt.returned := by
  induction es generalizing d with
  | nil => exact ⟨hw, hd⟩
  | cons e es ih =>
    rw [teardown_run_cons]
    obtain ⟨h1, h2⟩ := teardown_step_stuck d e hw hd
    exact ih _ h1 h2

/-- C12: destruction of a timer whose background thread is blocked waiting for a job does
not complete. On a fresh timer whose thread announced `ready` and went into the wait, with
no Job pending, the destructor leaves its spin loop at once and sets `m_stopping`, but under
every schedule of the two threads the background thread stays blocked in the wait and the
`join` has not returned. When the destructor sets `m_stopping` while the thread is still at
the test of its loop, the thread does observe it and the `join` returns. -/
theorem destructor_blocks_on_waiting_thread :
    (∀ garbage : Int,
        (TimerSystem.workerSteps 3 (TimerSystem.init garbage (0 : Nat))).timer.m_thread
            = TimerThread.waiting
          ∧ (TimerSystem.workerSteps 3 (TimerSystem.init garbage (0 : Nat))).timer.m_has_job
            = false)
      ∧ (∀ garbage : Int,
          ((TimerTeardown.enter (TimerSystem.workerSteps 3 (TimerSystem.init garbage (0 : Nat)))).run
              [TeardownEvent.destructor]).sys.timer.m_stopping = true
          ∧ ((TimerTeardown.enter
              (TimerSystem.workerSteps 3 (TimerSystem.init garbage (0 : Nat)))).run
              [TeardownEvent.destructor]).dtor = DestructorAt.join)
      ∧ (∀ (garbage : Int) (events : List TeardownEvent),
          ((TimerTeardown.enter (TimerSystem.workerSteps 3 (TimerSystem.init garbage (0 : Nat)))).run
              events).sys.timer.m_thread = TimerThread.waiting
          ∧ ((TimerTeardown.enter
              (TimerSystem.workerSteps 3 (TimerSystem.init garbage (0 : Nat)))).run
              events).dtor ≠ DestructorAt.returned)
      ∧ (∀ garbage : Int,
          ((TimerTeardown.enter (TimerSystem.workerSteps 1 (TimerSystem.init garbage (0 : Nat)))).run
              [TeardownEvent.destructor, TeardownEvent.worker, TeardownEvent.destructor]).dtor
            = DestructorAt.returned) := by
  refine ⟨fun _ => ⟨rfl, rfl⟩, fun _ => ⟨rfl, rfl⟩, ?_, fun _ => rfl⟩
  intro garbage events
  exact teardown_run_stuck events _ rfl (fun h => by cases h)

end Teardown

end regit.async

namespace regit.async

/-! ## Which writes happen under the mutex -/

section Locking

end Locking

end regit.async

namespace regit.containers

/-! ## The circular buffer -/

section Buffer

variable {T : Type}

theorem deref_natCast (b : CircularBuffer T) (k : Nat) :
    b.deref (k : Int) = b.mBuffer[k]? := by
  simp [CircularBuffer.deref]

theorem store_natCast (b : CircularBuffer T) (k : Nat) (v : T) (h : k < b.mBuffer.length) :
    b.store (k : Int) v = some { b with mBuffer := b.mBuffer.set k v } := by
  simp [CircularBuffer.store, h]

theorem next_natCast (b : CircularBuffer T) (k : Nat) :
    b.next (k : Int) = ((if k + 1 = b.mCap then 0 else k + 1 : Nat) : Int) := by
  unfold CircularBuffer.next
  split
  · rename_i h
    have : k + 1 = b.mCap := by exact_mod_cast h
    simp [this]
  · rename_i h
    have : ¬ k + 1 = b.mCap := fun h2 => h (by exact_mod_cast h2)
    simp [this]

theorem wrap_lt (c x : Nat) (h : x < 2 * c) : CircularBuffer.wrap c x < c := by
  unfold CircularBuffer.wrap
  split <;> omega

theorem wrap_ne (c s i j : Nat) (hi : i < c) (hj : j < c) (hij : i ≠ j) :
    CircularBuffer.wrap c (s + i) ≠ CircularBuffer.wrap c (s + j) := by
  unfold CircularBuffer.wrap
  split <;> split <;> omega

/-- On a buffer that `empty` sees as empty, `push` writes the object `mStart` points at. -/
theorem push_of_empty (R : ObjectRepr T) (b : CircularBuffer T) (v : T) (s : Nat)
    (hs : b.mStart = (s : Int)) (hlt : s < b.mBuffer.length)
    (he : b.empty R = some true) :
    b.push R v = some { b with mBuffer := b.mBuffer.set s v } := by
  unfold CircularBuffer.push
  rw [he]
  have h := store_natCast b s v hlt
  rw [← hs] at h
  exact h

/-- On a buffer that `empty` sees as not empty, `push` moves `mEnd` one slot on, writes
there, and moves `mStart` on as well when `mEnd` has caught up with it. -/
theorem push_of_not_empty (R : ObjectRepr T) (b : CircularBuffer T) (v : T) (s e : Nat)
    (hs : b.mStart = (s : Int)) (hend : b.mEnd = (e : Int))
    (hlt : (if e + 1 = b.mCap then 0 else e + 1) < b.mBuffer.length)
    (he : b.empty R = some false) :
    b.push R v = some
      { mCap := b.mCap
        mBuffer := b.mBuffer.set (if e + 1 = b.mCap then 0 else e + 1) v
        mStart := if (if e + 1 = b.mCap then 0 else e + 1) = s then
            (((if s + 1 = b.mCap then 0 else s + 1 : Nat)) : Int) else (s : Int)
        mEnd := (((if e + 1 = b.mCap then 0 else e + 1 : Nat)) : Int) } := by
  unfold CircularBuffer.push
  rw [he, hend, next_natCast]
  simp only []
  have hst := store_natCast
    ⟨b.mCap, b.mBuffer, b.mStart, ((if e + 1 = b.mCap then 0 else e + 1 : Nat) : Int)⟩
    (if e + 1 = b.mCap then 0 else e + 1) v hlt
  rw [hst]
  simp only [hs]
  by_cases h : (if e + 1 = b.mCap then 0 else e + 1) = s
  · have h2 : (((if e + 1 = b.mCap then 0 else e + 1 : Nat)) : Int) = (s : Int) := by
      exact_mod_cast h
    rw [if_pos h2, if_pos h]
    congr 2
    exact next_natCast _ s
  · have h2 : ¬ (((if e + 1 = b.mCap then 0 else e + 1 : Nat)) : Int) = (s : Int) := by
      intro h3
      exact h (by exact_mod_cast h3)
    rw [if_neg h2, if_neg h]

/-- What `empty` answers on a buffer that holds `L`: true exactly when `L` is a single
element whose first byte is `INVALID`. -/
theorem empty_of_Holds (R : ObjectRepr T) (b : CircularBuffer T) (L : List T)
    (h : b.Holds L) :
    ∃ x, L[0]? = some x
      ∧ b.empty R = some (decide (L.length = 1) && (R.firstByte x == INVALID)) := by
  obtain ⟨s, hs, hlen, hsc, hl1, hlc, hend, hget⟩ := h
  have h0 : b.mBuffer[s]? = L[0]? := by
    have := hget 0 (by omega)
    simpa [CircularBuffer.wrap, hsc] using this
  obtain ⟨x, hx⟩ : ∃ x, L[0]? = some x := by
    cases L with
    | nil => simp at hl1
    | cons x rest => exact ⟨x, by simp⟩
  refine ⟨x, hx, ?_⟩
  unfold CircularBuffer.empty
  by_cases hl : L.length = 1
  · have he : b.mEnd = (s : Int) := by
      rw [hend]
      simp [CircularBuffer.wrap, hl, hsc]
    rw [hs, he, if_pos rfl, deref_natCast, h0, hx]
    simp [hl]
  · have hne : ¬ b.mStart = b.mEnd := by
      rw [hs, hend]
      intro h2
      have h3 : s = CircularBuffer.wrap b.mCap (s + L.length - 1) := by exact_mod_cast h2
      unfold CircularBuffer.wrap at h3
      split at h3 <;> omega
    rw [if_neg hne]
    simp [hl]

theorem wrap_succ (c x : Nat) (h : x + 1 < 2 * c) :
    (if CircularBuffer.wrap c x + 1 = c then 0 else CircularBuffer.wrap c x + 1)
      = CircularBuffer.wrap c (x + 1) := by
  unfold CircularBuffer.wrap
  split_ifs <;> omega

theorem succ_eq_wrap (c s : Nat) (h : s < c) :
    (if s + 1 = c then 0 else s + 1) = CircularBuffer.wrap c (s + 1) := by
  unfold CircularBuffer.wrap
  split_ifs <;> omega

theorem wrap_full (c s : Nat) : CircularBuffer.wrap c (s + c) = s := by
  unfold CircularBuffer.wrap
  split_ifs <;> omega

theorem wrap_of_lt (c x : Nat) (h : x < c) : CircularBuffer.wrap c x = x := by
  simp [CircularBuffer.wrap, h]

theorem wrap_back (c s : Nat) (hs : s < c) :
    CircularBuffer.wrap c (CircularBuffer.wrap c (s + 1) + c - 1) = s := by
  unfold CircularBuffer.wrap
  split_ifs <;> omega

theorem wrap_succ_ne (c s : Nat) (hs : s < c) (hc : 2 ≤ c) :
    CircularBuffer.wrap c (s + 1) ≠ s := by
  unfold CircularBuffer.wrap
  split_ifs <;> omega

theorem wrap_shift (c s i : Nat) (hs : s < c) (hi : i + 1 < c) :
    CircularBuffer.wrap c (CircularBuffer.wrap c (s + 1) + i)
      = CircularBuffer.wrap c (s + (i + 1)) := by
  unfold CircularBuffer.wrap
  split_ifs <;> omega

theorem empty_of_ne (R : ObjectRepr T) (b : CircularBuffer T) (h : b.mStart ≠ b.mEnd) :
    b.empty R = some false := by
  simp [CircularBuffer.empty, h]

/-- The step of the buffer: on a buffer that holds `L` and that `empty` does not mistake for
an empty one (or whose capacity is 1, where the mistake does no harm), `push` has a result,
which holds `L` followed by the new value, cut to the newest `mCap` elements. -/
theorem push_Holds (R : ObjectRepr T) (b : CircularBuffer T) (L : List T) (v : T)
    (h : b.Holds L) (hne : b.mCap = 1 ∨ b.empty R = some false) :
    ∃ b2, b.push R v = some b2
      ∧ b2.Holds ((L ++ [v]).drop (L.length + 1 - b.mCap))
      ∧ b2.mCap = b.mCap
      ∧ (b2.mCap = 1 ∨ b2.empty R = some false) := by
  obtain ⟨x, hx, hempty⟩ := empty_of_Holds R b L h
  obtain ⟨s, hs, hlen, hsc, hl1, hlc, hend, hget⟩ := h
  by_cases hc1 : b.mCap = 1
  · -- capacity 1: both branches of `push` write slot 0
    have hs0 : s = 0 := by omega
    have hl : L.length = 1 := by omega
    subst hs0
    have hend0 : b.mEnd = ((0 : Nat) : Int) := by
      rw [hend]; simp [CircularBuffer.wrap, hl, hc1]
    have hdrop : (L ++ [v]).drop (L.length + 1 - b.mCap) = [v] := by
      obtain ⟨a, ha⟩ := List.length_eq_one.1 hl
      subst ha
      simp [hc1]
    rw [hdrop]
    have hres : b.push R v = some ⟨b.mCap, b.mBuffer.set 0 v, ((0 : Nat) : Int),
        ((0 : Nat) : Int)⟩ := by
      cases hb : (decide (L.length = 1) && (R.firstByte x == INVALID)) with
      | true =>
        rw [hb] at hempty
        rw [push_of_empty R b v 0 hs (by omega) hempty]
        simp [hs, hend0]
      | false =>
        rw [hb] at hempty
        rw [push_of_not_empty R b v 0 0 hs hend0 (by simp [hc1]; omega) hempty]
        simp [hc1]
    refine ⟨_, hres, ⟨0, rfl, ?_, ?_, ?_, ?_, ?_, ?_⟩, rfl, Or.inl hc1⟩
    · simp [hlen]
    · dsimp only; omega
    · simp
    · dsimp only; simp [hc1]
    · dsimp only; simp [CircularBuffer.wrap, hc1]
    · intro i hi
      have hi0 : i = 0 := by simpa using hi
      subst hi0
      dsimp only
      rw [wrap_of_lt _ _ (by omega), List.getElem?_set_self (by omega)]
      rfl
  · -- capacity at least 2
    have hc2 : 2 ≤ b.mCap := by omega
    have hfalse : b.empty R = some false := by
      rcases hne with h1 | h1
      · exact absurd h1 hc1
      · exact h1
    have hE : (if CircularBuffer.wrap b.mCap (s + L.length - 1) + 1 = b.mCap then 0
        else CircularBuffer.wrap b.mCap (s + L.length - 1) + 1)
        = CircularBuffer.wrap b.mCap (s + L.length) := by
      rw [wrap_succ _ _ (by omega)]
      congr 1
      omega
    have hElt : CircularBuffer.wrap b.mCap (s + L.length) < b.mCap := wrap_lt _ _ (by omega)
    have hres := push_of_not_empty R b v s (CircularBuffer.wrap b.mCap (s + L.length - 1))
      hs hend (by rw [hE, hlen]; exact hElt) hfalse
    rw [hE, succ_eq_wrap _ _ hsc] at hres
    by_cases hfull : L.length = b.mCap
    · -- full: the oldest element is overwritten
      have hW : CircularBuffer.wrap b.mCap (s + L.length) = s := by
        rw [hfull]; exact wrap_full _ _
      rw [hW, if_pos rfl] at hres
      have hdrop : (L ++ [v]).drop (L.length + 1 - b.mCap) = (L ++ [v]).drop 1 := by
        congr 1
        omega
      have hlen2 : ((L ++ [v]).drop 1).length = b.mCap := by
        simp only [List.length_drop, List.length_append, List.length_singleton]
        omega
      rw [hdrop]
      refine ⟨_, hres, ⟨CircularBuffer.wrap b.mCap (s + 1), rfl, ?_, ?_, ?_, ?_, ?_, ?_⟩,
        rfl, Or.inr ?_⟩
      · simp [hlen]
      · exact wrap_lt _ _ (by omega)
      · rw [hlen2]; omega
      · rw [hlen2]
      · dsimp only
        rw [hlen2, wrap_back _ _ hsc]
      · intro i hi
        rw [hlen2] at hi
        dsimp only
        rw [List.getElem?_drop]
        by_cases hlast : i + 1 = b.mCap
        · have hw : CircularBuffer.wrap b.mCap (CircularBuffer.wrap b.mCap (s + 1) + i)
              = s := by
            unfold CircularBuffer.wrap
            split_ifs <;> omega
          rw [hw, List.getElem?_set_self (by omega),
            List.getElem?_append_right (by omega)]
          have : 1 + i - L.length = 0 := by omega
          simp [this]
        · have hne3 : s ≠ CircularBuffer.wrap b.mCap (s + (i + 1)) := by
            unfold CircularBuffer.wrap
            split_ifs <;> omega
          rw [wrap_shift _ _ _ hsc (by omega), List.getElem?_set_ne hne3,
            hget (i + 1) (by omega), List.getElem?_append_left (by omega)]
          congr 1
          omega
      · apply empty_of_ne
        dsimp only
        intro h2
        exact wrap_succ_ne _ _ hsc hc2 (by exact_mod_cast h2)
    · -- not full: the new value is appended
      have hW : CircularBuffer.wrap b.mCap (s + L.length) ≠ s := by
        have := wrap_ne b.mCap s L.length 0 (by omega) (by omega) (by omega)
        simpa [wrap_of_lt _ _ hsc] using this
      rw [if_neg hW] at hres
      have hdrop : (L ++ [v]).drop (L.length + 1 - b.mCap) = L ++ [v] := by
        have : L.length + 1 - b.mCap = 0 := by omega
        rw [this]
        rfl
      rw [hdrop]
      refine ⟨_, hres, ⟨s, rfl, ?_, hsc, ?_, ?_, ?_, ?_⟩, rfl, Or.inr ?_⟩
      · simp [hlen]
      · simp
      · simp only [List.length_append, List.length_singleton]; omega
      · dsimp only
        simp only [List.length_append, List.length_singleton]
        congr 2
      · intro i hi
        simp only [List.length_append, List.length_singleton] at hi
        dsimp only
        by_cases hil : i < L.length
        · rw [List.getElem?_set_ne (wrap_ne _ s L.length i (by omega) (by omega) (by omega)),
            hget i hil, List.getElem?_append_left hil]
        · have hi2 : i = L.length := by omega
          subst hi2
          rw [List.getElem?_set_self (by omega), List.getElem?_append_right (le_refl _)]
          simp
      · apply empty_of_ne
        dsimp only
        intro h2
        exact hW (by exact_mod_cast h2.symm)

theorem emplace_eq_push (R : ObjectRepr T) (b : CircularBuffer T) (v : T) :
    b.emplace R v = b.push R v := rfl

/-- The first `push` on a fresh buffer of capacity at least 1 writes slot 0. -/
theorem push_on_fresh (R : ObjectRepr T) (c : Nat) (hc : 1 ≤ c) (v : T) :
    ∃ b1, (CircularBuffer.ctor R c).push R v = some b1 ∧ b1.Holds [v] ∧ b1.mCap = c
      ∧ (R.firstByte v ≠ INVALID → b1.empty R = some false) := by
  have hempty : (CircularBuffer.ctor R c).empty R = some true := by
    unfold CircularBuffer.empty CircularBuffer.ctor
    simp only [if_true]
    have : (0 : Int) = ((0 : Nat) : Int) := rfl
    rw [this, deref_natCast]
    simp [List.getElem?_replicate, hc, R.firstByte_filled, INVALID]
    omega
  have hres := push_of_empty R (CircularBuffer.ctor R c) v 0 rfl
    (by simp [CircularBuffer.ctor]; omega) hempty
  refine ⟨_, hres, ⟨0, rfl, ?_, ?_, ?_, ?_, ?_, ?_⟩, rfl, ?_⟩
  · simp [CircularBuffer.ctor]
  · simp [CircularBuffer.ctor]; omega
  · simp
  · simp [CircularBuffer.ctor]; omega
  · simp [CircularBuffer.ctor, CircularBuffer.wrap]
  · intro i hi
    have hi0 : i = 0 := by simpa using hi
    subst hi0
    dsimp only
    rw [wrap_of_lt _ _ (by simp [CircularBuffer.ctor]; omega),
      List.getElem?_set_self (by simp [CircularBuffer.ctor]; omega)]
    rfl
  · intro hv
    unfold CircularBuffer.empty
    dsimp only
    have h0 : (CircularBuffer.ctor R c).mStart = ((0 : Nat) : Int) := rfl
    have h1 : (CircularBuffer.ctor R c).mEnd = ((0 : Nat) : Int) := rfl
    rw [h0, h1, if_pos rfl, deref_natCast]
    dsimp only
    rw [List.getElem?_set_self (by simp [CircularBuffer.ctor]; omega)]
    simp [hv]

theorem drop_append_drop (X Y : List T) (a b : Nat) (h : a ≤ X.length) :
    (X.drop a ++ Y).drop b = (X ++ Y).drop (a + b) := by
  rw [← List.drop_append_of_le_length h, List.drop_drop]

/-- A sequence of `push` and `emplace` calls on a buffer that holds `L`: the result holds
`L` followed by the values of the calls, cut to the newest `mCap` elements. -/
theorem pushes_Holds (R : ObjectRepr T) (ops : List (Op T)) (b : CircularBuffer T)
    (L : List T) (h : b.Holds L) (hne : b.mCap = 1 ∨ b.empty R = some false)
    (hops : ∀ op ∈ ops, op.isPop = false) :
    ∃ b2, b.applyAll R ops = some b2
      ∧ b2.Holds ((L ++ Op.values ops).drop (L.length + (Op.values ops).length - b.mCap))
      ∧ b2.mCap = b.mCap := by
  induction ops generalizing b L with
  | nil =>
    refine ⟨b, rfl, ?_, rfl⟩
    obtain ⟨s, _, _, _, _, hlc, _, _⟩ := id h
    have : L.length + (Op.values ([] : List (Op T))).length - b.mCap = 0 := by
      simp [Op.values]; omega
    rw [this]
    simpa [Op.values] using h
  | cons op ops ih =>
    have hrest : ∀ o ∈ ops, o.isPop = false := fun o ho => hops o (List.mem_cons_of_mem _ ho)
    have key : ∀ v, b.apply R op = b.push R v → Op.values (op :: ops) = v :: Op.values ops →
        ∃ b2, b.applyAll R (op :: ops) = some b2
          ∧ b2.Holds ((L ++ Op.values (op :: ops)).drop
              (L.length + (Op.values (op :: ops)).length - b.mCap))
          ∧ b2.mCap = b.mCap := by
      intro v hap hval
      obtain ⟨b1, h1, h2, h3, h4⟩ := push_Holds R b L v h hne
      obtain ⟨b2, k1, k2, k3⟩ := ih b1 _ h2 h4 hrest
      refine ⟨b2, ?_, ?_, k3.trans h3⟩
      · show (match b.apply R op with
          | none => none
          | some b1 => CircularBuffer.applyAll R b1 ops) = some b2
        rw [hap, h1]
        exact k1
      · obtain ⟨s, _, _, _, _, hlc, _, _⟩ := id h
        rw [hval]
        rw [drop_append_drop _ _ _ _ (by simp)] at k2
        have e1 : L ++ [v] ++ Op.values ops = L ++ v :: Op.values ops := by simp
        rw [e1, h3] at k2
        have e2 : L.length + 1 - b.mCap
            + (((L ++ [v]).drop (L.length + 1 - b.mCap)).length + (Op.values ops).length
              - b.mCap)
            = L.length + (v :: Op.values ops).length - b.mCap := by
          simp only [List.length_drop, List.length_append, List.length_singleton,
            List.length_cons, List.length_nil]
          omega
        rw [e2] at k2
        exact k2
    cases op with
    | push v => exact key v rfl rfl
    | emplace v => exact key v rfl rfl
    | pop =>
      have := hops Op.pop (List.mem_cons_self _ _)
      simp [Op.isPop] at this

theorem wrap_eq_mod (c s i : Nat) (hs : s < c) (hi : i < c) :
    CircularBuffer.wrap c (s + i) = (s + i) % c := by
  unfold CircularBuffer.wrap
  split
  · rename_i h
    exact (Nat.mod_eq_of_lt h).symm
  · rename_i h
    rw [Nat.mod_eq_sub_mod (by omega), Nat.mod_eq_of_lt (by omega)]

/-- Inside the capacity, on a well-formed buffer, `operator[]` reads the slot `index`
objects after `mStart`, wrapping at the end of the block. -/
theorem subscript_of_wf (b : CircularBuffer T) (s i : Nat) (hs : b.mStart = (s : Int))
    (hsc : s < b.mCap) (hi : i < b.mCap) (hi32 : i < 2 ^ 32) :
    b.subscript i =
      match b.mBuffer[CircularBuffer.wrap b.mCap (s + i)]? with
      | some v => Fetch.value v
      | none => Fetch.undefined := by
  unfold CircularBuffer.subscript
  rw [if_neg (by omega)]
  simp only [hs]
  have hp : (if ((s : Int) + (i : Int) - (b.mCap : Int)) < 0 then (s : Int) + (i : Int)
      else ((s : Int) + (i : Int) - (b.mCap : Int)) % 2 ^ 32)
      = ((CircularBuffer.wrap b.mCap (s + i) : Nat) : Int) := by
    unfold CircularBuffer.wrap
    norm_num at hi32 ⊢
    split_ifs <;> omega
  rw [hp, deref_natCast]

theorem at_of_Holds (b : CircularBuffer T) (L : List T) (h : b.Holds L) (i : Nat)
    (hi : i < L.length) (hi32 : i < 2 ^ 32) :
    ∃ x, L[i]? = some x ∧ b.at i = Fetch.value x := by
  obtain ⟨s, hs, hlen, hsc, hl1, hlc, hend, hget⟩ := h
  obtain ⟨x, hx⟩ : ∃ x, L[i]? = some x := ⟨_, List.getElem?_eq_getElem hi⟩
  refine ⟨x, hx, ?_⟩
  show b.subscript i = _
  rw [subscript_of_wf b s i hs hsc (by omega) hi32, hget i hi, hx]

theorem front_of_Holds (b : CircularBuffer T) (L : List T) (h : b.Holds L) :
    b.front = L[0]? := by
  obtain ⟨s, hs, hlen, hsc, hl1, hlc, hend, hget⟩ := h
  unfold CircularBuffer.front
  rw [hs, deref_natCast, ← hget 0 (by omega), wrap_of_lt _ _ (by omega)]
  rfl

theorem back_of_Holds (b : CircularBuffer T) (L : List T) (h : b.Holds L) :
    b.back = L[L.length - 1]? := by
  obtain ⟨s, hs, hlen, hsc, hl1, hlc, hend, hget⟩ := h
  unfold CircularBuffer.back
  rw [hend, deref_natCast, ← hget (L.length - 1) (by omega)]
  congr 2
  omega

theorem ops_nil_of_no_values (ops : List (Op T)) (hops : ∀ op ∈ ops, op.isPop = false)
    (hv : Op.values ops = []) : ops = [] := by
  cases ops with
  | nil => rfl
  | cons op rest =>
    cases op with
    | push v => simp [Op.values] at hv
    | emplace v => simp [Op.values] at hv
    | pop =>
      have := hops Op.pop (List.mem_cons_self _ _)
      simp [Op.isPop] at this

/-- The buffer after a sequence of `push` and `emplace` calls on a fresh buffer. -/
theorem fresh_pushes_Holds (R : ObjectRepr T) (c : Nat) (ops : List (Op T)) (v1 : T)
    (vs : List T) (hc : 1 ≤ c) (hops : ∀ op ∈ ops, op.isPop = false)
    (hvals : Op.values ops = v1 :: vs)
    (hfirst : c = 1 ∨ vs = [] ∨ R.firstByte v1 ≠ INVALID) :
    ∃ b, (CircularBuffer.ctor R c).applyAll R ops = some b
      ∧ b.Holds ((v1 :: vs).drop (vs.length + 1 - c)) ∧ b.mCap = c := by
  have key : ∀ (op : Op T) (rest : List (Op T)), ops = op :: rest →
      (CircularBuffer.ctor R c).apply R op = (CircularBuffer.ctor R c).push R v1 →
      Op.values rest = vs →
      ∃ b, (CircularBuffer.ctor R c).applyAll R ops = some b
        ∧ b.Holds ((v1 :: vs).drop (vs.length + 1 - c)) ∧ b.mCap = c := by
    intro op rest hops2 hap hrest
    have hr : ∀ o ∈ rest, o.isPop = false := fun o ho =>
      hops o (by rw [hops2]; exact List.mem_cons_of_mem _ ho)
    obtain ⟨b1, h1, h2, h3, h4⟩ := push_on_fresh R c hc v1
    have hstep : ∀ b2, b1.applyAll R rest = some b2 →
        (CircularBuffer.ctor R c).applyAll R ops = some b2 := by
      intro b2 hb2
      rw [hops2]
      show (match (CircularBuffer.ctor R c).apply R op with
        | none => none
        | some b1 => CircularBuffer.applyAll R b1 rest) = some b2
      rw [hap, h1]
      exact hb2
    by_cases hvs : vs = []
    · have hnil := ops_nil_of_no_values rest hr (hrest.trans hvs)
      refine ⟨b1, hstep b1 (by rw [hnil]; rfl), ?_, h3⟩
      subst hvs
      have : ([] : List T).length + 1 - c = 0 := by simp; omega
      rw [this]
      exact h2
    · have hne : b1.mCap = 1 ∨ b1.empty R = some false := by
        rcases hfirst with h5 | h5 | h5
        · exact Or.inl (h3.trans h5)
        · exact absurd h5 hvs
        · exact Or.inr (h4 h5)
      obtain ⟨b2, k1, k2, k3⟩ := pushes_Holds R rest b1 [v1] h2 hne hr
      refine ⟨b2, hstep b2 k1, ?_, k3.trans h3⟩
      rw [hrest, h3] at k2
      have e : [v1].length + vs.length = vs.length + 1 := by simp; omega
      rw [e] at k2
      exact k2
  cases ops with
  | nil => simp [Op.values] at hvals
  | cons op rest =>
    cases op with
    | push v =>
      simp only [Op.values, List.cons.injEq] at hvals
      obtain ⟨hv, hr⟩ := hvals
      subst hv
      exact key _ rest rfl rfl hr
    | emplace v =>
      simp only [Op.values, List.cons.injEq] at hvals
      obtain ⟨hv, hr⟩ := hvals
      subst hv
      exact key _ rest rfl rfl hr
    | pop =>
      have := hops Op.pop (List.mem_cons_self _ _)
      simp [Op.isPop] at this

/-- C14 (as amended): the buffer keeps the newest elements and overwrites the oldest when
full. For every capacity `c >= 1` and every sequence of `push` and `emplace` calls with
values `v1 :: vs` (`n` of them) on a fresh buffer, provided `c = 1` or `n = 1` or the first
byte of `v1` is not `0xCC`: with `m = min n c`, `at(i)` returns the value number
`n - m + i` (counted from 0) for every `i < m`, `front()` returns the value number `n - m`
and `back()` the last value. `emplace` has the effect of `push`. With capacity 5, pushing
-1, 1, 2, 3, 4, 5, 6, 7, popping three times and pushing -1, 1, 2 leaves the storage
-1, 1, 2, 3, 4. -/
theorem push_keeps_the_newest (R : ObjectRepr T) (c : Nat) (ops : List (Op T)) (v1 : T)
    (vs : List T) (hc : 1 ≤ c) (hops : ∀ op ∈ ops, op.isPop = false)
    (hvals : Op.values ops = v1 :: vs)
    (hfirst : c = 1 ∨ vs = [] ∨ R.firstByte v1 ≠ INVALID) :
    (∃ b, (CircularBuffer.ctor R c).applyAll R ops = some b
      ∧ b.capacity = c
      ∧ (∀ i, i < min (vs.length + 1) c → i < 2 ^ 32 →
          ∃ x, (v1 :: vs)[vs.length + 1 - min (vs.length + 1) c + i]? = some x
            ∧ b.at i = Fetch.value x)
      ∧ b.front = (v1 :: vs)[vs.length + 1 - min (vs.length + 1) c]?
      ∧ b.back = (v1 :: vs)[vs.length]?)
    ∧ (∀ (b : CircularBuffer T) (v : T), b.emplace R v = b.push R v)
    ∧ ((CircularBuffer.ctor intRepr 5).applyAll intRepr
        [Op.push (-1), Op.emplace 1, Op.push 2, Op.emplace 3, Op.emplace 4, Op.emplace 5,
          Op.emplace 6, Op.emplace 7, Op.pop, Op.pop, Op.pop, Op.emplace (-1), Op.push 1,
          Op.emplace 2]).map CircularBuffer.data = some [-1, 1, 2, 3, 4] := by
  refine ⟨?_, fun b v => rfl, by decide⟩
  obtain ⟨b, h1, h2, h3⟩ := fresh_pushes_Holds R c ops v1 vs hc hops hvals hfirst
  have hlen : ((v1 :: vs).drop (vs.length + 1 - c)).length = min (vs.length + 1) c := by
    simp only [List.length_drop, List.length_cons]
    omega
  have hoff : vs.length + 1 - c = vs.length + 1 - min (vs.length + 1) c := by omega
  refine ⟨b, h1, h3, ?_, ?_, ?_⟩
  · intro i hi hi32
    obtain ⟨x, hx, hat⟩ := at_of_Holds b _ h2 i (by rw [hlen]; exact hi) hi32
    rw [List.getElem?_drop, hoff] at hx
    exact ⟨x, hx, hat⟩
  · rw [front_of_Holds b _ h2, List.getElem?_drop, hoff]
    rfl
  · rw [back_of_Holds b _ h2, List.getElem?_drop, hlen]
    congr 1
    omega

/-- Witness for C14: four values pushed and emplaced on a fresh `int` buffer of capacity 3;
the buffer holds the last three. -/
theorem push_keeps_the_newest_witness :
    ∃ b, (CircularBuffer.ctor intRepr 3).applyAll intRepr
        [Op.push 1, Op.emplace 2, Op.push 3, Op.push 4] = some b
      ∧ b.at 0 = Fetch.value 2 ∧ b.at 2 = Fetch.value 4
      ∧ b.front = some 2 ∧ b.back = some 4 := by
  obtain ⟨⟨b, h1, _, h3, h4, h5⟩, _, _⟩ := push_keeps_the_newest intRepr 3
    [Op.push 1, Op.emplace 2, Op.push 3, Op.push 4] 1 [2, 3, 4] (by decide)
    (by simp [Op.isPop]) rfl (Or.inr (Or.inr (by decide)))
  obtain ⟨x0, hx0, hat0⟩ := h3 0 (by decide) (by norm_num)
  obtain ⟨x2, hx2, hat2⟩ := h3 2 (by decide) (by norm_num)
  have e0 : x0 = 2 := by simpa using hx0.symm
  have e2 : x2 = 4 := by simpa using hx2.symm
  subst e0 e2
  exact ⟨b, h1, hat0, hat2, h4.trans (by simp), h5.trans (by simp)⟩

/-- Counterexample for C14 as stated: on a fresh `int` buffer of capacity 2 the value 204,
whose first byte is `0xCC`, is pushed and then 5. The buffer still looks empty to the second
`push`, which overwrites the 204: `at(0)` and `front()` return 5, not the first value, and
`at(1)` returns the fill pattern, not the second value. -/
theorem sentinel_first_value_is_lost :
    ((CircularBuffer.ctor intRepr 2).applyAll intRepr [Op.push 204, Op.push 5]).map
        CircularBuffer.data = some [5, -858993460]
      ∧ ((CircularBuffer.ctor intRepr 2).applyAll intRepr [Op.push 204, Op.push 5]).map
        CircularBuffer.front = some (some 5)
      ∧ ((CircularBuffer.ctor intRepr 2).applyAll intRepr [Op.push 204, Op.push 5]).map
        CircularBuffer.back = some (some 5)
      ∧ ((CircularBuffer.ctor intRepr 2).applyAll intRepr [Op.push 204, Op.push 5]).map
        (fun b => b.at 0) = some (Fetch.value 5)
      ∧ ((CircularBuffer.ctor intRepr 2).applyAll intRepr [Op.push 204, Op.push 5]).map
        (fun b => b.at 1) = some (Fetch.value (-858993460)) := by
  refine ⟨by decide, by decide, by decide, rfl, rfl⟩

/-- C15: `operator[]` and `at` throw `std::out_of_range` exactly when the index is at least
the capacity, on every buffer; they only read the buffer. On a well-formed buffer (the block
has `mCap` objects and `mStart` points into it) and for an index below the capacity (an
`unsigned`), they return the element stored at slot `(start offset + index) mod capacity`.
A buffer built from 1, .., 10 throws on index 999 and returns the element on index 9. -/
theorem subscript_throws_iff (b : CircularBuffer T) (s i : Nat)
    (hs : b.mStart = (s : Int)) (hlen : b.mBuffer.length = b.mCap) (hsc : s < b.mCap)
    (hi32 : i < 2 ^ 32) :
    (∀ (a : CircularBuffer T) (j : Nat), (a.subscript j = Fetch.out_of_range ↔ a.mCap ≤ j)
        ∧ a.at j = a.subscript j)
      ∧ (b.subscript i = Fetch.out_of_range ↔ b.mCap ≤ i)
      ∧ (i < b.mCap → ∃ x, b.mBuffer[(s + i) % b.mCap]? = some x
          ∧ b.subscript i = Fetch.value x ∧ b.at i = Fetch.value x)
      ∧ (CircularBuffer.rangeCtor [(1 : Int), 2, 3, 4, 5, 6, 7, 8, 9, 10]).subscript 999
          = Fetch.out_of_range
      ∧ (CircularBuffer.rangeCtor [(1 : Int), 2, 3, 4, 5, 6, 7, 8, 9, 10]).subscript 9
          = Fetch.value 10 := by
  have hall : ∀ (a : CircularBuffer T) (j : Nat),
      (a.subscript j = Fetch.out_of_range ↔ a.mCap ≤ j) := by
    intro a j
    unfold CircularBuffer.subscript
    by_cases hj : j ≥ a.mCap
    · simp [hj]
    · rw [if_neg hj]
      constructor
      · intro h
        dsimp only at h
        split at h <;> cases h
      · intro h
        exact absurd h (by omega)
  refine ⟨fun a j => ⟨hall a j, rfl⟩, hall b i, ?_, rfl, rfl⟩
  intro hi
  have hx : (s + i) % b.mCap < b.mBuffer.length := by
    rw [hlen]; exact Nat.mod_lt _ (by omega)
  refine ⟨b.mBuffer[(s + i) % b.mCap], List.getElem?_eq_getElem hx, ?_⟩
  have hsub := subscript_of_wf b s i hs hsc hi hi32
  rw [wrap_eq_mod _ _ _ hsc hi, List.getElem?_eq_getElem hx] at hsub
  exact ⟨hsub, hsub⟩

/-- Witness for C15: the buffer of the test, built from 1, .., 10, at index 9. -/
theorem subscript_throws_iff_witness :
    (CircularBuffer.rangeCtor [(1 : Int), 2, 3, 4, 5, 6, 7, 8, 9, 10]).mCap = 10
      ∧ ((CircularBuffer.rangeCtor [(1 : Int), 2, 3, 4, 5, 6, 7, 8, 9, 10]).subscript 999
          = Fetch.out_of_range ↔
        (CircularBuffer.rangeCtor [(1 : Int), 2, 3, 4, 5, 6, 7, 8, 9, 10]).mCap ≤ 999)
      ∧ ∃ x, (CircularBuffer.rangeCtor [(1 : Int), 2, 3, 4, 5, 6, 7, 8, 9, 10]).mBuffer[
            (0 + 9) % 10]? = some x
          ∧ (CircularBuffer.rangeCtor [(1 : Int), 2, 3, 4, 5, 6, 7, 8, 9, 10]).at 9
            = Fetch.value x := by
  have h := subscript_throws_iff
    (CircularBuffer.rangeCtor [(1 : Int), 2, 3, 4, 5, 6, 7, 8, 9, 10]) 0 9 rfl rfl
    (by decide) (by norm_num)
  obtain ⟨x, hx, _, hat⟩ := h.2.2.1 (by decide)
  exact ⟨rfl, (h.1 _ 999).1, x, hx, hat⟩

/-- The buffer the range constructor builds from a non-empty list holds that list. -/
theorem rangeCtor_Holds (x : T) (xs : List T) :
    (CircularBuffer.rangeCtor (x :: xs)).Holds (x :: xs) := by
  refine ⟨0, rfl, rfl, by simp [CircularBuffer.rangeCtor], by simp, by simp [CircularBuffer.rangeCtor],
    ?_, ?_⟩
  · simp only [CircularBuffer.rangeCtor, List.length_cons]
    rw [wrap_of_lt _ _ (by omega)]
    push_cast
    omega
  · intro i hi
    simp only [CircularBuffer.rangeCtor]
    rw [wrap_of_lt _ _ (by simpa using hi)]
    simp

theorem copyCtor_of_wf (b : CircularBuffer T) (h : b.mBuffer.length = b.mCap) :
    CircularBuffer.copyCtor b = b := by
  obtain ⟨c, buf, st, en⟩ := b
  dsimp only at h
  subst h
  simp [CircularBuffer.copyCtor]

theorem constructedFrom_of_wf (kinds : List Bool) (b : CircularBuffer T)
    (h : b.mBuffer.length = b.mCap) : b.constructedFrom kinds = b := by
  induction kinds with
  | nil => rfl
  | cons k rest ih =>
    cases k with
    | true =>
      show (CircularBuffer.copyCtor b).constructedFrom rest = b
      rw [copyCtor_of_wf b h]
      exact ih
    | false => exact ih

theorem size_rangeCtor_single (R : ObjectRepr T) (x : T) :
    (CircularBuffer.rangeCtor [x]).size R
      = some (if R.firstByte x != INVALID then 1 else 0) := by
  simp [CircularBuffer.size, CircularBuffer.rangeCtor, CircularBuffer.deref]

theorem size_rangeCtor_many (R : ObjectRepr T) (x y : T) (ys : List T)
    (hn : ys.length + 2 < 2 ^ 64) :
    (CircularBuffer.rangeCtor (x :: y :: ys)).size R = some (ys.length + 2) := by
  unfold CircularBuffer.size
  have h1 : ¬ ((CircularBuffer.rangeCtor (x :: y :: ys)).mStart
      - (CircularBuffer.rangeCtor (x :: y :: ys)).mEnd = 0) := by
    simp only [CircularBuffer.rangeCtor, List.length_cons]
    push_cast
    omega
  have h2 : (CircularBuffer.rangeCtor (x :: y :: ys)).mStart
      - (CircularBuffer.rangeCtor (x :: y :: ys)).mEnd < 0 := by
    simp only [CircularBuffer.rangeCtor, List.length_cons]
    push_cast
    omega
  rw [if_neg h1, if_pos h2]
  simp only [CircularBuffer.rangeCtor, List.length_cons]
  congr 1
  norm_num at hn ⊢
  omega

/-- C16 (as amended): for every non-empty list `x :: xs` of `n` elements, the buffer the
range constructor or the initializer-list constructor builds from it, and every buffer
obtained from that one by a chain of copy and move constructions, has `capacity()` equal
to `n`, `at(i)` equal to element `i` for every `i < n`, `front()` the first element and
`back()` the last. Its `size()` is `n` when `n >= 2` or the first byte of the single
element is not `0xCC`; for a single element whose first byte is `0xCC` it is 0. -/
theorem constructed_buffer_holds_the_list (R : ObjectRepr T) (x : T) (xs : List T)
    (kinds : List Bool) (hn : xs.length + 1 < 2 ^ 64) :
    CircularBuffer.initCtor (x :: xs) = CircularBuffer.rangeCtor (x :: xs)
      ∧ ((CircularBuffer.rangeCtor (x :: xs)).constructedFrom kinds).capacity = xs.length + 1
      ∧ (∀ i, i < xs.length + 1 → i < 2 ^ 32 →
          ∃ v, (x :: xs)[i]? = some v
            ∧ ((CircularBuffer.rangeCtor (x :: xs)).constructedFrom kinds).at i = Fetch.value v)
      ∧ ((CircularBuffer.rangeCtor (x :: xs)).constructedFrom kinds).front = some x
      ∧ ((CircularBuffer.rangeCtor (x :: xs)).constructedFrom kinds).back
          = (x :: xs)[xs.length]?
      ∧ (xs ≠ [] ∨ R.firstByte x ≠ INVALID →
          ((CircularBuffer.rangeCtor (x :: xs)).constructedFrom kinds).size R
            = some (xs.length + 1))
      ∧ (xs = [] → R.firstByte x = INVALID →
          ((CircularBuffer.rangeCtor (x :: xs)).constructedFrom kinds).size R = some 0) := by
  have hc := constructedFrom_of_wf kinds (CircularBuffer.rangeCtor (x :: xs)) rfl
  have hH := rangeCtor_Holds x xs
  rw [hc]
  refine ⟨rfl, rfl, ?_, ?_, ?_, ?_, ?_⟩
  · intro i hi hi32
    exact at_of_Holds _ _ hH i (by simpa using hi) hi32
  · rw [front_of_Holds _ _ hH]
    simp
  · rw [back_of_Holds _ _ hH]
    simp
  · intro h
    cases xs with
    | nil =>
      rcases h with h | h
      · exact absurd rfl h
      · rw [size_rangeCtor_single]
        simp [h]
    | cons y ys =>
      rw [size_rangeCtor_many R x y ys (by simpa using hn)]
      simp
  · intro hx hb
    subst hx
    rw [size_rangeCtor_single]
    simp [hb]

/-- Witness for C16: the buffers of the test, built from 1, 2, 3, 4, 5, copied and then
moved. -/
theorem constructed_buffer_holds_the_list_witness :
    ((CircularBuffer.rangeCtor [(1 : Int), 2, 3, 4, 5]).constructedFrom [true, false]).size
        intRepr = some 5
      ∧ ((CircularBuffer.rangeCtor [(1 : Int), 2, 3, 4, 5]).constructedFrom
          [true, false]).capacity = 5
      ∧ ((CircularBuffer.rangeCtor [(1 : Int), 2, 3, 4, 5]).constructedFrom
          [true, false]).back = some 5 := by
  have h := constructed_buffer_holds_the_list intRepr (1 : Int) [2, 3, 4, 5] [true, false]
    (by norm_num)
  exact ⟨h.2.2.2.2.2.1 (Or.inl (by simp)), h.2.1, h.2.2.2.2.1⟩

/-- Counterexample for C16 as stated: the `int` buffer built from the one-element list
`[204]`, whose element starts with the byte `0xCC`, has capacity 1 and `size()` 0, and so
has the `unsigned char` buffer built from `[0xCC]`. -/
theorem sentinel_single_element_has_size_zero :
    (CircularBuffer.rangeCtor [(204 : Int)]).size intRepr = some 0
      ∧ (CircularBuffer.rangeCtor [(204 : Int)]).capacity = 1
      ∧ (CircularBuffer.rangeCtor [(204 : Nat)]).size ucharRepr = some 0
      ∧ (CircularBuffer.copyCtor (CircularBuffer.rangeCtor [(204 : Int)])).size intRepr
          = some 0 := by
  decide

/-- C17: the copy assignment takes the capacity and the block of the source but computes
`mStart` and `mEnd` from the offsets of the target, negated (`mBuffer - mStart`), where the
copy constructor takes the offsets of the source. A default-constructed `int` buffer
assigned from the buffer built from 1, 2, 3, 4, 5 has capacity 5 and reads 5 at index 4,
but its `size()` is 1 where the source has 5, and its `back()` is 1 where the source has 5;
the copy constructor gives size 5. A target whose `mStart` was at slot 1 has it one
object before the block afterwards, where `front()` has no defined result. -/
theorem copy_assignment_keeps_own_offsets :
    (∀ this rhs : CircularBuffer Int,
        (CircularBuffer.copyAssign this rhs).mStart = -this.mStart
          ∧ (CircularBuffer.copyAssign this rhs).mEnd = -this.mEnd
          ∧ (CircularBuffer.copyAssign this rhs).capacity = rhs.capacity
          ∧ (CircularBuffer.copyCtor rhs).mStart = rhs.mStart
          ∧ (CircularBuffer.copyCtor rhs).mEnd = rhs.mEnd)
      ∧ (CircularBuffer.copyAssign (CircularBuffer.ctor intRepr 1)
          (CircularBuffer.rangeCtor [1, 2, 3, 4, 5])).capacity = 5
      ∧ (CircularBuffer.copyAssign (CircularBuffer.ctor intRepr 1)
          (CircularBuffer.rangeCtor [1, 2, 3, 4, 5])).subscript 4 = Fetch.value 5
      ∧ (CircularBuffer.copyAssign (CircularBuffer.ctor intRepr 1)
          (CircularBuffer.rangeCtor [1, 2, 3, 4, 5])).size intRepr = some 1
      ∧ (CircularBuffer.rangeCtor [(1 : Int), 2, 3, 4, 5]).size intRepr = some 5
      ∧ (CircularBuffer.copyAssign (CircularBuffer.ctor intRepr 1)
          (CircularBuffer.rangeCtor [1, 2, 3, 4, 5])).back = some 1
      ∧ (CircularBuffer.rangeCtor [(1 : Int), 2, 3, 4, 5]).back = some 5
      ∧ (CircularBuffer.copyCtor (CircularBuffer.rangeCtor [(1 : Int), 2, 3, 4, 5])).size
          intRepr = some 5
      ∧ ((CircularBuffer.ctor intRepr 2).applyAll intRepr
          [Op.push 1, Op.push 2, Op.push 3]).map
          (fun a => (a.mStart,
            (CircularBuffer.copyAssign a (CircularBuffer.rangeCtor [1, 2, 3, 4, 5])).mStart,
            (CircularBuffer.copyAssign a (CircularBuffer.rangeCtor [1, 2, 3, 4, 5])).front))
          = some (1, -1, none) := by
  refine ⟨fun this rhs => ⟨by simp [CircularBuffer.copyAssign],
    by simp [CircularBuffer.copyAssign], rfl, rfl, rfl⟩, rfl, rfl, by decide, by decide,
    by decide, by decide, by decide, by decide⟩

end Buffer

end regit.containers

namespace regit.async

/-! ## The ready flag of the timer -/

section Ready

variable {σ : Type}

theorem life_cons (d : TimerTeardown σ) (e : TimerEvent σ) (es : List (TimerEvent σ)) :
    d.life (e :: es) = (d.event e).life es := rfl

theorem life_append (d : TimerTeardown σ) (es fs : List (TimerEvent σ)) :
    d.life (es ++ fs) = (d.life es).life fs := by
  simp [TimerTeardown.life, List.foldl_append]

/-- A call of `Post` writes neither `m_ready` nor the once-flag and does not move the
background thread to or from the head of `WorkerFunc`. -/
theorem post_keeps_ready (s : TimerSystem σ) (interval : Int) (work : work_t σ) :
    (s.post interval work).timer.m_ready = s.timer.m_ready
      ∧ (s.post interval work).timer.m_ready_flag = s.timer.m_ready_flag
      ∧ ((s.post interval work).timer.m_thread = TimerThread.entry
          ↔ s.timer.m_thread = TimerThread.entry) := by
  unfold TimerSystem.post SimplerTimer.Post SimplerTimer.notify_one
  by_cases ha : s.aborted = true
  · simp [ha]
  · by_cases hr : s.timer.m_ready = true
    · by_cases hj : s.timer.m_has_job = true
      · simp [ha, hr, hj]
      · by_cases hw : s.timer.m_thread = TimerThread.waiting
        · simp [ha, hr, hj, hw]
        · simp [ha, hr, hj, hw]
    · simp [ha, hr]

/-- A step of the destructor writes neither `m_ready` nor the once-flag and does not move
the background thread. -/
theorem destructorStep_keeps_ready (d : TimerTeardown σ) :
    (TimerTeardown.destructorStep d).sys.timer.m_ready = d.sys.timer.m_ready
      ∧ (TimerTeardown.destructorStep d).sys.timer.m_ready_flag = d.sys.timer.m_ready_flag
      ∧ (TimerTeardown.destructorStep d).sys.timer.m_thread = d.sys.timer.m_thread := by
  unfold TimerTeardown.destructorStep
  by_cases ha : d.sys.aborted = true
  · simp [ha]
  · cases hdt : d.dtor with
    | spin =>
      by_cases hj : d.sys.timer.m_has_job = true
      · simp [ha, hj]
      · simp [ha, hj]
    | join =>
      by_cases hf : d.sys.timer.m_thread = TimerThread.finished
      · simp [ha, hf]
      · simp [ha, hf]
    | returned => simp [ha]

/-- A step of the background thread from anywhere past the head of `WorkerFunc` writes
neither `m_ready` nor the once-flag and does not get back to the head. -/
theorem workerStep_past_entry (s : TimerSystem σ)
    (ht : s.timer.m_thread ≠ TimerThread.entry) :
    s.workerStep.timer.m_ready = s.timer.m_ready
      ∧ s.workerStep.timer.m_ready_flag = s.timer.m_ready_flag
      ∧ s.workerStep.timer.m_thread ≠ TimerThread.entry := by
  unfold TimerSystem.workerStep
  by_cases ha : s.aborted = true
  · simp [ha, ht]
  · cases hth : s.timer.m_thread with
    | entry => exact absurd hth ht
    | loopHead =>
      by_cases hs : s.timer.m_stopping = true
      · simp [ha, hs]
      · simp [ha, hs]
    | checking =>
      by_cases hs : s.timer.m_stopping = true
      · simp [ha, hs]
      · by_cases hj : s.timer.m_has_job = true
        · simp [ha, hs, hj]
        · simp [ha, hs, hj]
    | waiting => simp [ha, hth]
    | armed =>
      cases hc : s.timer.m_work.call s.env with
      | returns e => simp [ha, hc]
      | throws what e => simp [ha, hc, hth]
    | finished => simp [ha, hth]

/-- The step of the background thread at the head of `WorkerFunc`: with the once-flag
unset it sets `m_ready` and goes to the test of the loop. -/
theorem workerStep_at_entry (s : TimerSystem σ) (ht : s.timer.m_thread = TimerThread.entry)
    (ha : s.aborted = false) (hf : s.timer.m_ready_flag = false) :
    s.workerStep.timer.m_ready = true
      ∧ s.workerStep.timer.m_ready_flag = true
      ∧ s.workerStep.timer.m_thread = TimerThread.loopHead := by
  unfold TimerSystem.workerStep
  simp [ha, ht, hf]

/-- A step of the background thread never resets `m_ready`. -/
theorem workerStep_ready_stays (s : TimerSystem σ) (hr : s.timer.m_ready = true) :
    s.workerStep.timer.m_ready = true := by
  by_cases ht : s.timer.m_thread = TimerThread.entry
  · unfold TimerSystem.workerStep
    by_cases ha : s.aborted = true
    · simp [ha, hr]
    · by_cases hf : s.timer.m_ready_flag = true
      · simp [ha, ht, hf, hr]
      · simp [ha, ht, hf]
  · rw [(workerStep_past_entry s ht).1, hr]

/-- No event resets `m_ready`. -/
theorem event_ready_stays (d : TimerTeardown σ) (e : TimerEvent σ)
    (hr : d.sys.timer.m_ready = true) : (d.event e).sys.timer.m_ready = true := by
  cases e with
  | post interval work =>
    show (d.sys.post interval work).timer.m_ready = true
    rw [(post_keeps_ready d.sys interval work).1, hr]
  | worker => exact workerStep_ready_stays d.sys hr
  | destructor =>
    show (TimerTeardown.destructorStep d).sys.timer.m_ready = true
    rw [(destructorStep_keeps_ready d).1, hr]

/-- Once the background thread is past the head of `WorkerFunc` no event writes `m_ready`
and the thread does not get back there. -/
theorem event_past_entry (d : TimerTeardown σ) (e : TimerEvent σ)
    (ht : d.sys.timer.m_thread ≠ TimerThread.entry) :
    (d.event e).sys.timer.m_ready = d.sys.timer.m_ready
      ∧ (d.event e).sys.timer.m_thread ≠ TimerThread.entry := by
  cases e with
  | post interval work =>
    refine ⟨(post_keeps_ready d.sys interval work).1, ?_⟩
    show (d.sys.post interval work).timer.m_thread ≠ TimerThread.entry
    rw [Ne, (post_keeps_ready d.sys interval work).2.2]
    exact ht
  | worker =>
    exact ⟨(workerStep_past_entry d.sys ht).1, (workerStep_past_entry d.sys ht).2.2⟩
  | destructor =>
    refine ⟨(destructorStep_keeps_ready d).1, ?_⟩
    show (TimerTeardown.destructorStep d).sys.timer.m_thread ≠ TimerThread.entry
    rw [(destructorStep_keeps_ready d).2.2]
    exact ht

/-- The only event that changes `m_ready` is a step of the background thread from the head
of `WorkerFunc`. -/
theorem event_writes_ready (d : TimerTeardown σ) (e : TimerEvent σ)
    (hne : (d.event e).sys.timer.m_ready ≠ d.sys.timer.m_ready) :
    e = TimerEvent.worker ∧ d.sys.timer.m_thread = TimerThread.entry := by
  cases e with
  | post interval work => exact absurd (post_keeps_ready d.sys interval work).1 hne
  | worker =>
    refine ⟨rfl, ?_⟩
    by_contra ht
    exact hne (workerStep_past_entry d.sys ht).1
  | destructor => exact absurd (destructorStep_keeps_ready d).1 hne

theorem event_ReadyInv (d : TimerTeardown σ) (e : TimerEvent σ)
    (h : ReadyInv d.sys.timer) : ReadyInv (d.event e).sys.timer := by
  by_cases ht : d.sys.timer.m_thread = TimerThread.entry
  · obtain ⟨hr, hf⟩ := h.1 ht
    cases e with
    | post interval work =>
      obtain ⟨h1, h2, h3⟩ := post_keeps_ready d.sys interval work
      refine ⟨fun _ => ?_, fun hn => absurd (h3.2 ht) hn⟩
      show (d.sys.post interval work).timer.m_ready = false
        ∧ (d.sys.post interval work).timer.m_ready_flag = false
      rw [h1, h2]
      exact ⟨hr, hf⟩
    | worker =>
      by_cases ha : d.sys.aborted = true
      · have hsame : d.sys.workerStep = d.sys := by
          unfold TimerSystem.workerStep
          simp [ha]
        show ReadyInv d.sys.workerStep.timer
        rw [hsame]
        exact h
      · have ha2 : d.sys.aborted = false := by simpa using ha
        obtain ⟨h1, _, h3⟩ := workerStep_at_entry d.sys ht ha2 hf
        refine ⟨fun he => ?_, fun _ => h1⟩
        have he2 : d.sys.workerStep.timer.m_thread = TimerThread.entry := he
        rw [h3] at he2
        cases he2
    | destructor =>
      obtain ⟨h1, h2, h3⟩ := destructorStep_keeps_ready d
      refine ⟨fun _ => ?_, fun hn => ?_⟩
      · show (TimerTeardown.destructorStep d).sys.timer.m_ready = false
          ∧ (TimerTeardown.destructorStep d).sys.timer.m_ready_flag = false
        rw [h1, h2]
        exact ⟨hr, hf⟩
      · exact absurd (h3.trans ht) hn
  · obtain ⟨h1, h2⟩ := event_past_entry d e ht
    refine ⟨fun he => absurd he h2, fun _ => ?_⟩
    rw [h1]
    exact h.2 ht

theorem life_ReadyInv (es : List (TimerEvent σ)) (d : TimerTeardown σ)
    (h : ReadyInv d.sys.timer) : ReadyInv (d.life es).sys.timer := by
  induction es generalizing d with
  | nil => exact h
  | cons e es ih =>
    rw [life_cons]
    exact ih _ (event_ReadyInv d e h)

theorem life_ready_stays (es : List (TimerEvent σ)) (d : TimerTeardown σ)
    (hr : d.sys.timer.m_ready = true) : (d.life es).sys.timer.m_ready = true := by
  induction es generalizing d with
  | nil => exact hr
  | cons e es ih =>
    rw [life_cons]
    exact ih _ (event_ready_stays d e hr)

/-- C21: the ready flag of the timer. It is false after construction. The first step of
the background thread sets it and takes the thread to the test of its loop, so in every
state reached from construction by calls of `Post`, steps of the background thread and
steps of the destructor the flag is set exactly when the thread is past the head of
`WorkerFunc`; in particular it is set whenever the thread is blocked in the wait. No event
resets it: once set it is set after every further sequence of events. The only event that
changes it is the step of the background thread from the head of `WorkerFunc`, where the
thread never stands again. While the flag is false `Post` does not get past its spin loop
and changes nothing. -/
theorem ready_set_once_before_waiting (garbage : Int) (env : σ)
    (events later : List (TimerEvent σ)) :
    (SimplerTimer.ctor garbage : SimplerTimer σ).m_ready = false
      ∧ (TimerSystem.init garbage env).workerStep.timer.m_ready = true
      ∧ (TimerSystem.init garbage env).workerStep.timer.m_thread = TimerThread.loopHead
      ∧ (((TimerTeardown.enter (TimerSystem.init garbage env)).life events).sys.timer.m_ready
            = true
          ↔ ((TimerTeardown.enter (TimerSystem.init garbage env)).life events).sys.timer.m_thread
            ≠ TimerThread.entry)
      ∧ (((TimerTeardown.enter (TimerSystem.init garbage env)).life events).sys.timer.m_thread
            = TimerThread.waiting →
          ((TimerTeardown.enter (TimerSystem.init garbage env)).life events).sys.timer.m_ready
            = true)
      ∧ (((TimerTeardown.enter (TimerSystem.init garbage env)).life events).sys.timer.m_ready
            = true →
          ((TimerTeardown.enter (TimerSystem.init garbage env)).life
            (events ++ later)).sys.timer.m_ready = true)
      ∧ (∀ (d : TimerTeardown σ) (e : TimerEvent σ), d.sys.timer.m_ready = true →
          (d.event e).sys.timer.m_ready = true)
      ∧ (∀ (d : TimerTeardown σ) (e : TimerEvent σ),
          (d.event e).sys.timer.m_ready ≠ d.sys.timer.m_ready →
          e = TimerEvent.worker ∧ d.sys.timer.m_thread = TimerThread.entry)
      ∧ (∀ (d : TimerTeardown σ) (e : TimerEvent σ),
          d.sys.timer.m_thread ≠ TimerThread.entry →
          (d.event e).sys.timer.m_thread ≠ TimerThread.entry)
      ∧ (∀ (t : SimplerTimer σ) (interval : Int) (work : work_t σ), t.m_ready = false →
          t.Post interval work = none)
      ∧ (∀ (s : TimerSystem σ) (interval : Int) (work : work_t σ), s.timer.m_ready = false →
          s.post interval work = s) := by
  have hinit : ReadyInv (TimerTeardown.enter (TimerSystem.init garbage env)).sys.timer :=
    ⟨fun _ => ⟨rfl, rfl⟩, fun h => absurd rfl h⟩
  have hinv := life_ReadyInv events _ hinit
  refine ⟨rfl, rfl, rfl, ⟨fun hr he => ?_, fun hne => hinv.2 hne⟩, fun hw => ?_, fun hr => ?_,
    fun d e hr => event_ready_stays d e hr, fun d e hne => event_writes_ready d e hne,
    fun d e ht => (event_past_entry d e ht).2, fun t interval work hr => ?_,
    fun s interval work hr => ?_⟩
  · rw [(hinv.1 he).1] at hr
    cases hr
  · apply hinv.2
    rw [hw]
    decide
  · rw [life_append]
    exact life_ready_stays later _ hr
  · simp [SimplerTimer.Post, hr]
  · unfold TimerSystem.post
    by_cases ha : s.aborted = true
    · simp [ha]
    · simp [ha, SimplerTimer.Post, hr]

/-- Witness for C21: on a timer whose background thread has taken its first step, a `Post`
of the increment-Job leaves the flag set; on a fresh timer the same `Post` changes
nothing. -/
theorem ready_set_once_before_waiting_witness :
    ((TimerTeardown.enter (TimerSystem.init 7 (0 : Nat)).workerStep).event
        (TimerEvent.post 1 incrementer)).sys.timer.m_ready = true
      ∧ (TimerSystem.init 7 (0 : Nat)).post 1 incrementer = TimerSystem.init 7 (0 : Nat) :=
  ⟨(ready_set_once_before_waiting 7 (0 : Nat) [] []).2.2.2.2.2.2.1
      (TimerTeardown.enter (TimerSystem.init 7 (0 : Nat)).workerStep)
      (TimerEvent.post 1 incrementer) rfl,
    (ready_set_once_before_waiting 7 (0 : Nat) [] []).2.2.2.2.2.2.2.2.2.2
      (TimerSystem.init 7 (0 : Nat)) 1 incrementer rfl⟩

end Ready

end regit.async

namespace regit.async

/-! ## A `Post` inside the wait of the background thread -/

section WaitRace

variable {σ : Type}

theorem race_run_cons (d : TimerRace σ) (e : RaceEvent σ) (es : List (RaceEvent σ)) :
    d.run (e :: es) = (d.step e).run es := rfl

theorem race_run_append (d : TimerRace σ) (es fs : List (RaceEvent σ)) :
    d.run (es ++ fs) = (d.run es).run fs := by
  simp [TimerRace.run, List.foldl_append]

/-- A wait that nothing interrupts is the step of `TimerSystem.workerStep`: outside the
evaluation of a false predicate one step, and there the evaluation followed by the
blocking. -/
theorem uninterrupted_wait (s : TimerSystem σ) :
    ((s.aborted = false ∧ s.timer.m_thread = TimerThread.checking
        ∧ (s.timer.m_stopping || s.timer.m_has_job) = false) →
      (TimerRace.ofSystem s).workerStep.beforeBlock = true
        ∧ (TimerRace.ofSystem s).workerStep.sys = s
        ∧ (TimerRace.ofSystem s).workerStep.workerStep = TimerRace.ofSystem s.workerStep)
    ∧ (¬ (s.aborted = false ∧ s.timer.m_thread = TimerThread.checking
        ∧ (s.timer.m_stopping || s.timer.m_has_job) = false) →
      (TimerRace.ofSystem s).workerStep = TimerRace.ofSystem s.workerStep) := by
  constructor
  · rintro ⟨ha, ht, hp⟩
    have h1 : (TimerRace.ofSystem s).workerStep = ⟨s, true⟩ := by
      simp [TimerRace.workerStep, TimerRace.ofSystem, ha, ht, hp]
    rw [h1]
    refine ⟨rfl, rfl, ?_⟩
    simp [TimerRace.workerStep, TimerRace.ofSystem, TimerSystem.workerStep, ha, ht, hp]
  · intro hn
    by_cases ha : s.aborted = true
    · simp [TimerRace.workerStep, TimerRace.ofSystem, ha, timer_workerStep_of_aborted s ha]
    · have ha2 : s.aborted = false := by simpa using ha
      have hn2 : ¬ (s.timer.m_thread = TimerThread.checking
          ∧ (s.timer.m_stopping || s.timer.m_has_job) = false) := fun h => hn ⟨ha2, h⟩
      simp only [TimerRace.workerStep, TimerRace.ofSystem, ha2, if_neg hn2]
      simp

/-- A background thread that is blocked in the wait while `m_has_job` is set stays there:
its own steps change nothing, and every `Post` finds `m_has_job` set and returns. -/
theorem race_step_lost (d : TimerRace σ) (e : RaceEvent σ)
    (hw : d.sys.timer.m_thread = TimerThread.waiting) (hb : d.beforeBlock = false)
    (hr : d.sys.timer.m_ready = true) (hj : d.sys.timer.m_has_job = true) :
    d.step e = d := by
  cases e with
  | post interval work =>
    show ({ d with sys := d.sys.post interval work } : TimerRace σ) = d
    have h1 : d.sys.post interval work = d.sys := by
      unfold TimerSystem.post
      rw [timer_Post_of_pending d.sys.timer interval work hr hj]
      split <;> rfl
    rw [h1]
  | worker =>
    show d.workerStep = d
    unfold TimerRace.workerStep
    by_cases ha : d.sys.aborted = true
    · simp [ha]
    · have hstep : d.sys.workerStep = d.sys := by
        unfold TimerSystem.workerStep
        simp [ha, hw]
      obtain ⟨sys, bb⟩ := d
      have hb2 : bb = false := hb
      subst hb2
      have hw2 : sys.timer.m_thread = TimerThread.waiting := hw
      have hstep2 : sys.workerStep = sys := hstep
      have ha2 : sys.aborted = false := by simpa using ha
      simp [ha2, hw2, hstep2]

theorem race_run_lost (es : List (RaceEvent σ)) (d : TimerRace σ)
    (hw : d.sys.timer.m_thread = TimerThread.waiting) (hb : d.beforeBlock = false)
    (hr : d.sys.timer.m_ready = true) (hj : d.sys.timer.m_has_job = true) :
    d.run es = d := by
  induction es with
  | nil => rfl
  | cons e es ih => rw [race_run_cons, race_step_lost d e hw hb hr hj, ih]

/-- C11: an accepted `Post` does not always trigger an execution. A timer is constructed
with a counter at 0; its background thread sets `m_ready`, passes the test of the loop and
evaluates the predicate of the wait, which is false: the timer is ready, not stopping and
has no Job. The client's `Post` of the increment-Job with an interval of one second is
accepted: the Job and the interval are stored, `m_has_job` is set, and `notify_one` finds
no thread in the wait set. The background thread then blocks, and whatever the two threads
do afterwards the Job is never called: the counter is 0, nothing was slept, `m_has_job`
stays set and the thread stays in the wait. When the thread has blocked before the same
`Post`, two further steps call the Job and the counter is 1. -/
theorem Post_before_block_is_never_run (garbage : Int) (later : List (RaceEvent Nat)) :
    (((TimerRace.ofSystem (TimerSystem.init garbage (0 : Nat))).run
          [RaceEvent.worker, RaceEvent.worker, RaceEvent.worker]).beforeBlock = true
        ∧ ((TimerRace.ofSystem (TimerSystem.init garbage (0 : Nat))).run
          [RaceEvent.worker, RaceEvent.worker, RaceEvent.worker]).sys.timer.m_ready = true
        ∧ ((TimerRace.ofSystem (TimerSystem.init garbage (0 : Nat))).run
          [RaceEvent.worker, RaceEvent.worker, RaceEvent.worker]).sys.timer.m_has_job = false
        ∧ ((TimerRace.ofSystem (TimerSystem.init garbage (0 : Nat))).run
          [RaceEvent.worker, RaceEvent.worker, RaceEvent.worker]).sys.timer.m_stopping
            = false)
      ∧ (((TimerRace.ofSystem (TimerSystem.init garbage (0 : Nat))).run
          [RaceEvent.worker, RaceEvent.worker, RaceEvent.worker,
            RaceEvent.post 1 incrementer]).sys.timer.m_has_job = true
        ∧ ((TimerRace.ofSystem (TimerSystem.init garbage (0 : Nat))).run
          [RaceEvent.worker, RaceEvent.worker, RaceEvent.worker,
            RaceEvent.post 1 incrementer]).sys.timer.m_work = incrementer
        ∧ ((TimerRace.ofSystem (TimerSystem.init garbage (0 : Nat))).run
          [RaceEvent.worker, RaceEvent.worker, RaceEvent.worker,
            RaceEvent.post 1 incrementer]).sys.timer.m_interval = 1)
      ∧ (((TimerRace.ofSystem (TimerSystem.init garbage (0 : Nat))).run
          ([RaceEvent.worker, RaceEvent.worker, RaceEvent.worker,
            RaceEvent.post 1 incrementer, RaceEvent.worker] ++ later)).sys.env = 0
        ∧ ((TimerRace.ofSystem (TimerSystem.init garbage (0 : Nat))).run
          ([RaceEvent.worker, RaceEvent.worker, RaceEvent.worker,
            RaceEvent.post 1 incrementer, RaceEvent.worker] ++ later)).sys.ran = []
        ∧ ((TimerRace.ofSystem (TimerSystem.init garbage (0 : Nat))).run
          ([RaceEvent.worker, RaceEvent.worker, RaceEvent.worker,
            RaceEvent.post 1 incrementer, RaceEvent.worker] ++ later)).sys.slept = 0
        ∧ ((TimerRace.ofSystem (TimerSystem.init garbage (0 : Nat))).run
          ([RaceEvent.worker, RaceEvent.worker, RaceEvent.worker,
            RaceEvent.post 1 incrementer, RaceEvent.worker] ++ later)).sys.timer.m_has_job
            = true
        ∧ ((TimerRace.ofSystem (TimerSystem.init garbage (0 : Nat))).run
          ([RaceEvent.worker, RaceEvent.worker, RaceEvent.worker,
            RaceEvent.post 1 incrementer, RaceEvent.worker] ++ later)).sys.timer.m_thread
            = TimerThread.waiting
        ∧ ((TimerRace.ofSystem (TimerSystem.init garbage (0 : Nat))).run
          ([RaceEvent.worker, RaceEvent.worker, RaceEvent.worker,
            RaceEvent.post 1 incrementer, RaceEvent.worker] ++ later)).sys.aborted = false)
      ∧ (((TimerRace.ofSystem (TimerSystem.init garbage (0 : Nat))).run
          [RaceEvent.worker, RaceEvent.worker, RaceEvent.worker, RaceEvent.worker,
            RaceEvent.post 1 incrementer, RaceEvent.worker, RaceEvent.worker]).sys.env = 1
        ∧ ((TimerRace.ofSystem (TimerSystem.init garbage (0 : Nat))).run
          [RaceEvent.worker, RaceEvent.worker, RaceEvent.worker, RaceEvent.worker,
            RaceEvent.post 1 incrementer, RaceEvent.worker, RaceEvent.worker]).sys.ran
            = [incrementer]) := by
  have h5 : (TimerRace.ofSystem (TimerSystem.init garbage (0 : Nat))).run
      [RaceEvent.worker, RaceEvent.worker, RaceEvent.worker, RaceEvent.post 1 incrementer,
        RaceEvent.worker]
      = ⟨⟨⟨false, true, true, 1, TimerThread.waiting, incrementer, true⟩, 0, [], 0, false⟩,
          false⟩ := rfl
  refine ⟨⟨rfl, rfl, rfl, rfl⟩, ⟨rfl, rfl, rfl⟩, ?_, ?_, ?_⟩
  · rw [race_run_append, h5, race_run_lost later _ rfl rfl rfl rfl]
    exact ⟨rfl, rfl, rfl, rfl, rfl, rfl⟩
  · simp [TimerRace.run, TimerRace.step, TimerRace.workerStep, TimerRace.ofSystem,
      TimerSystem.workerStep, TimerSystem.init, TimerSystem.post, SimplerTimer.Post,
      SimplerTimer.notify_one, SimplerTimer.ctor, incrementer, work_t.call]
  · simp [TimerRace.run, TimerRace.step, TimerRace.workerStep, TimerRace.ofSystem,
      TimerSystem.workerStep, TimerSystem.init, TimerSystem.post, SimplerTimer.Post,
      SimplerTimer.notify_one, SimplerTimer.ctor, incrementer, work_t.call]

end WaitRace

end regit.async

namespace regit.containers

/-! ## Counting the elements held -/

section Counting

variable {T : Type}

theorem wrap_cases (c x : Nat) :
    (x < c ∧ CircularBuffer.wrap c x = x) ∨ (c ≤ x ∧ CircularBuffer.wrap c x = x - c) := by
  unfold CircularBuffer.wrap
  split_ifs <;> omega

theorem mod_toNat_of_lt (z : Int) (n : Nat) (h0 : 0 ≤ z) (h1 : z < 18446744073709551616)
    (hn : z = (n : Int)) : (z % 2 ^ 64).toNat = n := by
  have h2 : z < 2 ^ 64 := by norm_num; exact h1
  rw [Int.emod_eq_of_lt h0 h2, hn]
  simp

/-- What `size()` returns on a buffer that holds the elements `L` and does not look empty:
their number, unless the stored range wraps around the end of the block without filling it,
where it returns one less. -/
theorem size_of_Holds (R : ObjectRepr T) (b : CircularBuffer T) (L : List T) (h : b.Holds L)
    (hc64 : b.mCap < 2 ^ 64) (he : b.empty R = some false) :
    b.size R
      = some (if b.mStart ≤ b.mEnd ∨ L.length = b.mCap then L.length else L.length - 1) := by
  obtain ⟨s, hs, hlen, hsc, hl1, hlc, hend, hget⟩ := h
  unfold CircularBuffer.size
  unfold CircularBuffer.empty at he
  have hw := wrap_cases b.mCap (s + L.length - 1)
  generalize CircularBuffer.wrap b.mCap (s + L.length - 1) = e at hend hw
  have h64 : b.mCap < 18446744073709551616 := by
    norm_num at hc64
    exact hc64
  clear hc64
  rw [hs, hend] at he ⊢
  by_cases h1 : (s : Int) - (e : Int) = 0
  · have hse : (s : Int) = (e : Int) := by omega
    rw [if_pos h1]
    rw [if_pos hse] at he
    cases hd : b.deref (s : Int) with
    | none => rw [hd] at he; simp at he
    | some v =>
      rw [hd] at he
      have hv : ¬ R.firstByte v = INVALID := by simpa using he
      have hl : L.length = 1 := by omega
      have hle : (s : Int) ≤ (e : Int) := by omega
      simp [hv, hl, hle]
  · rw [if_neg h1]
    by_cases h2 : (s : Int) - (e : Int) < 0
    · rw [if_pos h2]
      have hle : (s : Int) ≤ (e : Int) := by omega
      rw [if_pos (Or.inl hle)]
      congr 1
      apply mod_toNat_of_lt
      · omega
      · omega
      · omega
    · rw [if_neg h2]
      have hnle : ¬ (s : Int) ≤ (e : Int) := by omega
      by_cases h3 : (s : Int) - 1 = (e : Int)
      · rw [if_pos h3]
        have hl : L.length = b.mCap := by omega
        rw [if_pos (Or.inr hl), hl]
      · rw [if_neg h3]
        have hl : ¬ L.length = b.mCap := by omega
        rw [if_neg (by tauto)]
        congr 1
        apply mod_toNat_of_lt
        · omega
        · omega
        · omega

theorem empty_of_Vacant (R : ObjectRepr T) (b : CircularBuffer T) (h : b.Vacant R) :
    b.empty R = some true := by
  obtain ⟨s, hs, he, _, _, x, hx, hb⟩ := h
  unfold CircularBuffer.empty
  rw [hs, he, if_pos rfl, deref_natCast, hx]
  simp [hb]

theorem size_of_Vacant (R : ObjectRepr T) (b : CircularBuffer T) (h : b.Vacant R) :
    b.size R = some 0 := by
  obtain ⟨s, hs, he, _, _, x, hx, hb⟩ := h
  unfold CircularBuffer.size
  rw [hs, he, if_pos (sub_self _), deref_natCast, hx]
  simp [hb]

/-- A fresh buffer of capacity at least 1 holds nothing. -/
theorem ctor_Vacant (R : ObjectRepr T) (c : Nat) (hc : 1 ≤ c) :
    (CircularBuffer.ctor R c).Vacant R := by
  refine ⟨0, rfl, rfl, by simp [CircularBuffer.ctor], hc, R.filled, ?_, R.firstByte_filled⟩
  simp only [CircularBuffer.ctor]
  rw [List.getElem?_replicate]
  simp
  omega

/-- A `push` on a buffer that holds nothing writes the object `mStart` points at and moves
neither pointer. -/
theorem push_Vacant (R : ObjectRepr T) (b : CircularBuffer T) (v : T) (h : b.Vacant R) :
    ∃ b1, b.push R v = some b1 ∧ b1.Holds [v] ∧ b1.mCap = b.mCap ∧ b1.mStart = b.mStart
      ∧ b1.mEnd = b.mEnd
      ∧ (R.firstByte v ≠ INVALID → b1.empty R = some false)
      ∧ (R.firstByte v = INVALID → b1.Vacant R) := by
  have hempty := empty_of_Vacant R b h
  obtain ⟨s, hs, he, hlen, hsc, x, hx, hb⟩ := h
  refine ⟨_, push_of_empty R b v s hs (by omega) hempty, ⟨s, hs, ?_, hsc, ?_, ?_, ?_, ?_⟩,
    rfl, rfl, rfl, fun hv => ?_, fun hv => ⟨s, hs, he, ?_, hsc, v, ?_, hv⟩⟩
  · simp [hlen]
  · simp
  · simp only [List.length_singleton]; omega
  · dsimp only
    rw [he]
    simp [wrap_of_lt _ _ hsc]
  · intro i hi
    have hi0 : i = 0 := by simpa using hi
    subst hi0
    dsimp only
    rw [Nat.add_zero, wrap_of_lt _ _ hsc, List.getElem?_set_self (by omega)]
    rfl
  · unfold CircularBuffer.empty
    dsimp only
    rw [hs, he, if_pos rfl, deref_natCast]
    dsimp only
    rw [List.getElem?_set_self (by omega)]
    simp [hv]
  · simp [hlen]
  · dsimp only
    rw [List.getElem?_set_self (by omega)]

/-- A `pop` on a buffer that holds nothing fills the object `mStart` points at and moves
neither pointer. -/
theorem pop_Vacant (R : ObjectRepr T) (b : CircularBuffer T) (h : b.Vacant R) :
    ∃ b1, b.pop R = some b1 ∧ b1.Vacant R ∧ b1.mCap = b.mCap ∧ b1.mStart = b.mStart
      ∧ b1.mEnd = b.mEnd ∧ b1.front = some R.filled := by
  obtain ⟨s, hs, he, hlen, hsc, x, hx, hb⟩ := h
  have hst : b.store b.mEnd R.filled = some { b with mBuffer := b.mBuffer.set s R.filled } := by
    have h := store_natCast b s R.filled (by omega)
    rw [← he] at h
    exact h
  have hres : b.pop R = some { b with mBuffer := b.mBuffer.set s R.filled } := by
    unfold CircularBuffer.pop
    rw [hst]
    dsimp only
    rw [if_pos (by rw [hs, he])]
  refine ⟨_, hres, ⟨s, hs, he, by simp [hlen], hsc, R.filled, ?_, R.firstByte_filled⟩,
    rfl, rfl, rfl, ?_⟩
  · dsimp only
    rw [List.getElem?_set_self (by omega)]
  · unfold CircularBuffer.front
    dsimp only
    rw [hs, deref_natCast]
    dsimp only
    rw [List.getElem?_set_self (by omega)]

/-- A `pop` on a buffer that holds one element leaves it holding nothing and moves neither
pointer. -/
theorem pop_single (R : ObjectRepr T) (b : CircularBuffer T) (L : List T) (h : b.Holds L)
    (hl : L.length = 1) :
    ∃ b1, b.pop R = some b1 ∧ b1.Vacant R ∧ b1.mCap = b.mCap ∧ b1.mStart = b.mStart
      ∧ b1.mEnd = b.mEnd ∧ b1.front = some R.filled := by
  obtain ⟨s, hs, hlen, hsc, hl1, hlc, hend, hget⟩ := h
  have he : b.mEnd = (s : Int) := by
    rw [hend, hl]
    simp [wrap_of_lt _ _ hsc]
  have hst : b.store b.mEnd R.filled = some { b with mBuffer := b.mBuffer.set s R.filled } := by
    have h := store_natCast b s R.filled (by omega)
    rw [← he] at h
    exact h
  have hres : b.pop R = some { b with mBuffer := b.mBuffer.set s R.filled } := by
    unfold CircularBuffer.pop
    rw [hst]
    dsimp only
    rw [if_pos (by rw [hs, he])]
  refine ⟨_, hres, ⟨s, hs, he, by simp [hlen], hsc, R.filled, ?_, R.firstByte_filled⟩,
    rfl, rfl, rfl, ?_⟩
  · dsimp only
    rw [List.getElem?_set_self (by omega)]
  · unfold CircularBuffer.front
    dsimp only
    rw [hs, deref_natCast]
    dsimp only
    rw [List.getElem?_set_self (by omega)]

/-- A `pop` on a buffer that holds at least two elements drops the newest one: `mEnd`
moves one object back (to the last object of the block from the first one) and `mStart`
stays. -/
theorem pop_Holds (R : ObjectRepr T) (b : CircularBuffer T) (L : List T) (h : b.Holds L)
    (hl : 2 ≤ L.length) :
    ∃ b1, b.pop R = some b1 ∧ b1.Holds L.dropLast ∧ b1.mCap = b.mCap
      ∧ b1.mStart = b.mStart := by
  obtain ⟨s, hs, hlen, hsc, hl1, hlc, hend, hget⟩ := h
  have hE : CircularBuffer.wrap b.mCap (s + L.length - 1) < b.mCap := wrap_lt _ _ (by omega)
  have hne : CircularBuffer.wrap b.mCap (s + L.length - 1) ≠ s := by
    have := wrap_ne b.mCap s (L.length - 1) 0 (by omega) (by omega) (by omega)
    rw [Nat.add_zero, wrap_of_lt _ _ hsc] at this
    have h2 : s + (L.length - 1) = s + L.length - 1 := by omega
    rw [h2] at this
    exact this
  have hprev : (if CircularBuffer.wrap b.mCap (s + L.length - 1) = 0 then b.mCap - 1
      else CircularBuffer.wrap b.mCap (s + L.length - 1) - 1)
      = CircularBuffer.wrap b.mCap (s + (L.length - 1) - 1) := by
    unfold CircularBuffer.wrap
    split_ifs <;> omega
  have hst : b.store b.mEnd R.filled = some ⟨b.mCap,
      b.mBuffer.set (CircularBuffer.wrap b.mCap (s + L.length - 1)) R.filled, b.mStart,
      b.mEnd⟩ := by
    have h := store_natCast b (CircularBuffer.wrap b.mCap (s + L.length - 1)) R.filled
      (by omega)
    rw [← hend] at h
    exact h
  have hres : b.pop R = some
      { mCap := b.mCap
        mBuffer := b.mBuffer.set (CircularBuffer.wrap b.mCap (s + L.length - 1)) R.filled
        mStart := b.mStart
        mEnd := ((CircularBuffer.wrap b.mCap (s + (L.length - 1) - 1) : Nat) : Int) } := by
    unfold CircularBuffer.pop
    rw [hst]
    dsimp only
    rw [if_neg (by rw [hs, hend]; exact_mod_cast hne), hend, ← hprev]
    congr 2
    split_ifs with h0 h1 h1
    · omega
    · exact absurd (by exact_mod_cast h0) h1
    · exact absurd (by exact_mod_cast h1) h0
    · omega
  refine ⟨_, hres, ⟨s, hs, by simp [hlen], hsc, ?_, ?_, ?_, ?_⟩, rfl, rfl⟩
  · simp only [List.length_dropLast]; omega
  · simp only [List.length_dropLast]; omega
  · simp only [List.length_dropLast]
  · intro i hi
    simp only [List.length_dropLast] at hi
    dsimp only
    have hne2 : CircularBuffer.wrap b.mCap (s + L.length - 1)
        ≠ CircularBuffer.wrap b.mCap (s + i) := by
      have := wrap_ne b.mCap s (L.length - 1) i (by omega) (by omega) (by omega)
      have h2 : s + (L.length - 1) = s + L.length - 1 := by omega
      rw [h2] at this
      exact this
    rw [List.getElem?_set_ne hne2, hget i (by omega), List.getElem?_dropLast]
    simp [hi]

/-- One call keeps the buffer well formed, and the number of elements it holds is the one
the specification counts, as long as no value with first byte `0xCC` is pushed. -/
theorem apply_HoldsCount (R : ObjectRepr T) (b : CircularBuffer T) (k : Nat) (op : Op T)
    (h : b.HoldsCount R k) (hv : ∀ v ∈ Op.values [op], R.firstByte v ≠ INVALID) :
    ∃ b1, b.apply R op = some b1 ∧ b1.HoldsCount R (Op.heldCount b.mCap k [op])
      ∧ b1.mCap = b.mCap := by
  have hpush : ∀ v, R.firstByte v ≠ INVALID →
      ∃ b1, b.push R v = some b1 ∧ b1.HoldsCount R (min (k + 1) b.mCap)
        ∧ b1.mCap = b.mCap := by
    intro v hb
    rcases h with ⟨hk, hvac⟩ | ⟨L, hL, hlen, hall⟩
    · obtain ⟨b1, h1, h2, h3, _, _, _, _⟩ := push_Vacant R b v hvac
      obtain ⟨s, _, _, _, hsc, _⟩ := hvac
      refine ⟨b1, h1, Or.inr ⟨[v], h2, ?_, ?_⟩, h3⟩
      · subst hk
        simp only [List.length_singleton]
        omega
      · intro x hx
        rw [List.mem_singleton] at hx
        rw [hx]
        exact hb
    · obtain ⟨x, hx, hempty⟩ := empty_of_Holds R b L hL
      have hxm : x ∈ L := List.getElem?_mem hx
      have hxb : (R.firstByte x == INVALID) = false := by simpa using hall x hxm
      rw [hxb, Bool.and_false] at hempty
      obtain ⟨b1, h1, h2, h3, _⟩ := push_Holds R b L v hL (Or.inr hempty)
      have hlc : L.length ≤ b.mCap := by
        obtain ⟨_, _, _, _, _, hlc, _⟩ := hL
        exact hlc
      refine ⟨b1, h1, Or.inr ⟨_, h2, ?_, ?_⟩, h3⟩
      · simp only [List.length_drop, List.length_append, List.length_singleton]
        omega
      · intro y hy
        have hy2 := List.mem_of_mem_drop hy
        rw [List.mem_append, List.mem_singleton] at hy2
        rcases hy2 with hy2 | hy2
        · exact hall y hy2
        · rw [hy2]
          exact hb
  cases op with
  | push v => exact hpush v (hv v (by simp [Op.values]))
  | emplace v => exact hpush v (hv v (by simp [Op.values]))
  | pop =>
    show ∃ b1, b.pop R = some b1 ∧ b1.HoldsCount R (k - 1) ∧ b1.mCap = b.mCap
    rcases h with ⟨hk, hvac⟩ | ⟨L, hL, hlen, hall⟩
    · obtain ⟨b1, h1, h2, h3, _⟩ := pop_Vacant R b hvac
      exact ⟨b1, h1, Or.inl ⟨by omega, h2⟩, h3⟩
    · by_cases hl : L.length = 1
      · obtain ⟨b1, h1, h2, h3, _⟩ := pop_single R b L hL hl
        exact ⟨b1, h1, Or.inl ⟨by omega, h2⟩, h3⟩
      · have hl1 : 1 ≤ L.length := by
          obtain ⟨_, _, _, _, hl1, _⟩ := hL
          exact hl1
        obtain ⟨b1, h1, h2, h3, _⟩ := pop_Holds R b L hL (by omega)
        refine ⟨b1, h1, Or.inr ⟨_, h2, ?_, ?_⟩, h3⟩
        · simp only [List.length_dropLast]
          omega
        · intro y hy
          exact hall y (List.mem_of_mem_dropLast hy)

theorem heldCount_cons (c k : Nat) (op : Op T) (ops : List (Op T)) :
    Op.heldCount c k (op :: ops) = Op.heldCount c (Op.heldCount c k [op]) ops := by
  cases op <;> rfl

theorem values_cons_subset (op : Op T) (ops : List (Op T)) (v : T) :
    (v ∈ Op.values [op] → v ∈ Op.values (op :: ops))
      ∧ (v ∈ Op.values ops → v ∈ Op.values (op :: ops)) := by
  cases op with
  | push value => exact ⟨fun h => by simpa [Op.values] using Or.inl (by simpa [Op.values] using h),
      fun h => by simpa [Op.values] using Or.inr h⟩
  | emplace value =>
    exact ⟨fun h => by simpa [Op.values] using Or.inl (by simpa [Op.values] using h),
      fun h => by simpa [Op.values] using Or.inr h⟩
  | pop => exact ⟨fun h => by simp [Op.values] at h, fun h => by simpa [Op.values] using h⟩

/-- A sequence of calls keeps the buffer well formed, and the number of elements it holds
is the one the specification counts. -/
theorem applyAll_HoldsCount (R : ObjectRepr T) (ops : List (Op T)) (b : CircularBuffer T)
    (k : Nat) (h : b.HoldsCount R k) (hv : ∀ v ∈ Op.values ops, R.firstByte v ≠ INVALID) :
    ∃ b1, b.applyAll R ops = some b1 ∧ b1.HoldsCount R (Op.heldCount b.mCap k ops)
      ∧ b1.mCap = b.mCap := by
  induction ops generalizing b k with
  | nil => exact ⟨b, rfl, h, rfl⟩
  | cons op ops ih =>
    obtain ⟨b1, h1, h2, h3⟩ := apply_HoldsCount R b k op h
      (fun v hm => hv v ((values_cons_subset op ops v).1 hm))
    obtain ⟨b2, h4, h5, h6⟩ := ih b1 _ h2
      (fun v hm => hv v ((values_cons_subset op ops v).2 hm))
    refine ⟨b2, ?_, ?_, h6.trans h3⟩
    · show (match b.apply R op with
        | none => none
        | some b1 => CircularBuffer.applyAll R b1 ops) = some b2
      rw [h1]
      exact h4
    · rw [heldCount_cons]
      rw [h3] at h5
      exact h5

/-- What `empty()` and `size()` return on a well-formed buffer that holds `k` elements:
`empty()` is true exactly when `k = 0`; `size()` is `k` when the stored range does not wrap
around the end of the block or fills the block, and `k - 1` otherwise. -/
theorem empty_size_of_HoldsCount (R : ObjectRepr T) (b : CircularBuffer T) (k : Nat)
    (h : b.HoldsCount R k) (hc64 : b.mCap < 2 ^ 64) :
    b.empty R = some (decide (k = 0))
      ∧ b.size R = some (if b.mStart ≤ b.mEnd ∨ k = b.mCap then k else k - 1) := by
  rcases h with ⟨hk, hvac⟩ | ⟨L, hL, hlen, hall⟩
  · subst hk
    refine ⟨by rw [empty_of_Vacant R b hvac]; rfl, ?_⟩
    rw [size_of_Vacant R b hvac]
    simp
  · obtain ⟨x, hx, hempty⟩ := empty_of_Holds R b L hL
    have hxm : x ∈ L := List.getElem?_mem hx
    have hxb : (R.firstByte x == INVALID) = false := by simpa using hall x hxm
    rw [hxb, Bool.and_false] at hempty
    have hl1 : 1 ≤ L.length := by
      obtain ⟨_, _, _, _, hl1, _⟩ := hL
      exact hl1
    refine ⟨?_, ?_⟩
    · rw [hempty]
      congr 1
      symm
      rw [decide_eq_false_iff_not]
      omega
    · rw [size_of_Holds R b L hL hc64 hempty, hlen]

/-- C22: `size()` does not count the elements held when the stored range wraps around the
end of the block. For every capacity `c >= 1` and every sequence of `push`, `emplace` and
`pop` calls on a fresh buffer, with values whose first byte is not `0xCC`, and with `k` the
count of the specification: `empty()` is true exactly when `k = 0`, and `size()` is `k`
when `mStart <= mEnd` or the buffer is full, but `k - 1` when the range wraps without
filling the block. With capacity 3, after pushing 1, 2, 3, 4, 5 and one `pop` the buffer
holds 3 and 4 (`mStart` at slot 2, `mEnd` at slot 0), `k` is 2 and `size()` is 1; with
capacity 5, after pushing -1, 1, 2, 3, 4, 5, 6, 7 and one `pop`, `k` is 4 and `size()`
is 3. -/
theorem size_miscounts_a_wrapped_range (R : ObjectRepr T) (c : Nat) (ops : List (Op T))
    (hc : 1 ≤ c) (hc64 : c < 2 ^ 64)
    (hvals : ∀ v ∈ Op.values ops, R.firstByte v ≠ INVALID) :
    (∃ b, (CircularBuffer.ctor R c).applyAll R ops = some b
      ∧ b.capacity = c
      ∧ b.empty R = some (decide (Op.heldCount c 0 ops = 0))
      ∧ b.size R = some (if b.mStart ≤ b.mEnd ∨ Op.heldCount c 0 ops = c
          then Op.heldCount c 0 ops else Op.heldCount c 0 ops - 1))
    ∧ Op.heldCount 3 0
        [Op.push (1 : Int), Op.push 2, Op.push 3, Op.push 4, Op.push 5, Op.pop] = 2
    ∧ ((CircularBuffer.ctor intRepr 3).applyAll intRepr
        [Op.push 1, Op.push 2, Op.push 3, Op.push 4, Op.push 5, Op.pop]).map
        (fun b => (b.mStart, b.mEnd, b.size intRepr, b.front, b.back))
        = some (2, 0, some 1, some 3, some 4)
    ∧ Op.heldCount 5 0
        [Op.push (-1 : Int), Op.emplace 1, Op.push 2, Op.emplace 3, Op.emplace 4,
          Op.emplace 5, Op.emplace 6, Op.emplace 7, Op.pop] = 4
    ∧ ((CircularBuffer.ctor intRepr 5).applyAll intRepr
        [Op.push (-1), Op.emplace 1, Op.push 2, Op.emplace 3, Op.emplace 4,
          Op.emplace 5, Op.emplace 6, Op.emplace 7, Op.pop]).map
        (fun b => (b.mStart, b.mEnd, b.size intRepr, b.front, b.back))
        = some (3, 1, some 3, some 3, some 6) := by
  refine ⟨?_, rfl, by decide, rfl, by decide⟩
  obtain ⟨b, h1, h2, h3⟩ := applyAll_HoldsCount R ops (CircularBuffer.ctor R c) 0
    (Or.inl ⟨rfl, ctor_Vacant R c hc⟩) hvals
  have h3c : b.mCap = c := h3
  have h4 := empty_size_of_HoldsCount R b _ h2 (by rw [h3c]; exact hc64)
  rw [h3c] at h4
  exact ⟨b, h1, h3, h4.1, h4.2⟩

/-- Witness for C22: the capacity 3 and the calls push 1, 2, 3, 4, 5 and one `pop`. -/
theorem size_miscounts_a_wrapped_range_witness :
    ∃ b, (CircularBuffer.ctor intRepr 3).applyAll intRepr
        [Op.push 1, Op.push 2, Op.push 3, Op.push 4, Op.push 5, Op.pop] = some b
      ∧ b.capacity = 3
      ∧ b.empty intRepr = some (decide (Op.heldCount 3 0
          [Op.push (1 : Int), Op.push 2, Op.push 3, Op.push 4, Op.push 5, Op.pop] = 0))
      ∧ b.size intRepr = some (if b.mStart ≤ b.mEnd ∨ Op.heldCount 3 0
          [Op.push (1 : Int), Op.push 2, Op.push 3, Op.push 4, Op.push 5, Op.pop] = 3
          then Op.heldCount 3 0
            [Op.push (1 : Int), Op.push 2, Op.push 3, Op.push 4, Op.push 5, Op.pop]
          else Op.heldCount 3 0
            [Op.push (1 : Int), Op.push 2, Op.push 3, Op.push 4, Op.push 5, Op.pop] - 1) :=
  (size_miscounts_a_wrapped_range intRepr 3
    [Op.push 1, Op.push 2, Op.push 3, Op.push 4, Op.push 5, Op.pop] (by decide)
    (by norm_num) (by decide)).1

/-! ## Push and pop -/

/-- A `push` on a buffer that holds elements without being full leaves `mStart` where it
is. -/
theorem push_keeps_start (R : ObjectRepr T) (b b1 : CircularBuffer T) (L : List T) (v : T)
    (h : b.Holds L) (hlt : L.length < b.mCap) (he : b.empty R = some false)
    (hp : b.push R v = some b1) : b1.mStart = b.mStart := by
  obtain ⟨s, hs, hlen, hsc, hl1, hlc, hend, hget⟩ := h
  have hE : (if CircularBuffer.wrap b.mCap (s + L.length - 1) + 1 = b.mCap then 0
      else CircularBuffer.wrap b.mCap (s + L.length - 1) + 1)
      = CircularBuffer.wrap b.mCap (s + L.length) := by
    rw [wrap_succ _ _ (by omega)]
    congr 1
    omega
  have hElt : CircularBuffer.wrap b.mCap (s + L.length) < b.mCap := wrap_lt _ _ (by omega)
  have hres := push_of_not_empty R b v s (CircularBuffer.wrap b.mCap (s + L.length - 1))
    hs hend (by rw [hE, hlen]; exact hElt) he
  have hW : CircularBuffer.wrap b.mCap (s + L.length) ≠ s := by
    have := wrap_ne b.mCap s L.length 0 (by omega) (by omega) (by omega)
    simpa [wrap_of_lt _ _ hsc] using this
  rw [hE, if_neg hW, hp] at hres
  rw [Option.some.inj hres, hs]

/-- Two well-formed buffers of one capacity that hold the same elements from the same
`mStart` on have the same `mEnd`. -/
theorem Holds_same_end (b a : CircularBuffer T) (L : List T) (hb : b.Holds L)
    (ha : a.Holds L) (hs : a.mStart = b.mStart) (hc : a.mCap = b.mCap) :
    a.mEnd = b.mEnd := by
  obtain ⟨s, hs1, _, _, _, _, hend1, _⟩ := hb
  obtain ⟨t, hs2, _, _, _, _, hend2, _⟩ := ha
  have hst : t = s := by
    rw [hs2, hs1] at hs
    exact_mod_cast hs
  rw [hend1, hend2, hst, hc]

/-- C25 (as amended): `pop` undoes `push` on a buffer that is not full and on which
`empty()` tells the truth. On a well-formed buffer that holds the elements `L`, fewer than
its capacity, and on which `empty()` is false (it does not hold a single element whose
first byte is `0xCC`), `push(v)` followed by `pop()` leaves `mStart`, `mEnd` and the
capacity as they were, and with them `empty()`, `front()`, `back()` and `at(i)` for every
held element. On a well-formed buffer on which `empty()` is true the two calls leave the
pointers as they were and the buffer empty, and `front()` and `back()` return the fill
pattern afterwards, which is what they returned before when the buffer held nothing.
`pop()` on a buffer that holds exactly one element makes it empty, and `pop()` on a
buffer that holds nothing leaves it empty; after either, as after construction, `front()`
returns the fill pattern. -/
theorem pop_undoes_push (R : ObjectRepr T) (b : CircularBuffer T) (L : List T) (v : T)
    (h : b.Holds L) (hlt : L.length < b.mCap) (he : b.empty R = some false) :
    (∃ b1 b2, b.push R v = some b1 ∧ b1.pop R = some b2
      ∧ b2.mStart = b.mStart ∧ b2.mEnd = b.mEnd ∧ b2.capacity = b.capacity
      ∧ b2.empty R = b.empty R ∧ b2.front = b.front ∧ b2.back = b.back
      ∧ ∀ i, i < L.length → i < 2 ^ 32 → b2.at i = b.at i)
    ∧ (∀ a : CircularBuffer T, a.Vacant R →
        ∃ a1 a2, a.push R v = some a1 ∧ a1.pop R = some a2
          ∧ a2.mStart = a.mStart ∧ a2.mEnd = a.mEnd ∧ a2.capacity = a.capacity
          ∧ a.empty R = some true ∧ a2.empty R = some true
          ∧ a2.front = some R.filled ∧ a2.back = some R.filled
          ∧ (a.front = some R.filled → a2.front = a.front ∧ a2.back = a.back))
    ∧ (∀ (a : CircularBuffer T) (x : T), a.Holds [x] →
        ∃ a1, a.pop R = some a1 ∧ a1.empty R = some true ∧ a1.front = some R.filled)
    ∧ (∀ a : CircularBuffer T, a.Vacant R →
        ∃ a1, a.pop R = some a1 ∧ a1.empty R = some true ∧ a1.front = some R.filled)
    ∧ (∀ c, 1 ≤ c → (CircularBuffer.ctor R c).Vacant R
        ∧ (CircularBuffer.ctor R c).front = some R.filled) := by
  refine ⟨?_, fun a ha => ?_, fun a x ha => ?_, fun a ha => ?_, fun c hc => ?_⟩
  · obtain ⟨b1, hp, hH1, hc1, _⟩ := push_Holds R b L v h (Or.inr he)
    have hd : (L ++ [v]).drop (L.length + 1 - b.mCap) = L ++ [v] := by
      have h0 : L.length + 1 - b.mCap = 0 := by omega
      rw [h0]
      rfl
    rw [hd] at hH1
    have hl1 : 1 ≤ L.length := by
      obtain ⟨_, _, _, _, hl1, _⟩ := h
      exact hl1
    have hs1 := push_keeps_start R b b1 L v h hlt he hp
    obtain ⟨b2, hq, hH2, hc2, hs2⟩ := pop_Holds R b1 (L ++ [v]) hH1
      (by simp only [List.length_append, List.length_singleton]; omega)
    rw [List.dropLast_concat] at hH2
    have hs : b2.mStart = b.mStart := hs2.trans hs1
    have hc : b2.mCap = b.mCap := hc2.trans hc1
    refine ⟨b1, b2, hp, hq, hs, Holds_same_end b b2 L h hH2 hs hc, hc, ?_, ?_, ?_, ?_⟩
    · obtain ⟨x, hx, hex⟩ := empty_of_Holds R b L h
      obtain ⟨y, hy, hey⟩ := empty_of_Holds R b2 L hH2
      have hxy : y = x := by
        rw [hx] at hy
        exact (Option.some.inj hy).symm
      rw [hex, hey, hxy]
    · rw [front_of_Holds b2 L hH2, front_of_Holds b L h]
    · rw [back_of_Holds b2 L hH2, back_of_Holds b L h]
    · intro i hi hi32
      obtain ⟨x, hx, hax⟩ := at_of_Holds b L h i hi hi32
      obtain ⟨y, hy, hay⟩ := at_of_Holds b2 L hH2 i hi hi32
      have hxy : y = x := by
        rw [hx] at hy
        exact (Option.some.inj hy).symm
      rw [hax, hay, hxy]
  · have hea := empty_of_Vacant R a ha
    obtain ⟨a1, hp, hH1, hc1, hs1, he1, _, _⟩ := push_Vacant R a v ha
    obtain ⟨a2, hq, hv2, hc2, hs2, he2, hf2⟩ := pop_single R a1 [v] hH1 rfl
    have hse : a.mEnd = a.mStart := by
      obtain ⟨s, hs, he, _⟩ := ha
      rw [hs, he]
    have hb2 : a2.back = some R.filled := by
      have h2 : a2.mEnd = a2.mStart := by
        rw [he2, he1, hs2, hs1]
        exact hse
      unfold CircularBuffer.back
      rw [h2]
      exact hf2
    refine ⟨a1, a2, hp, hq, hs2.trans hs1, he2.trans he1, hc2.trans hc1, hea,
      empty_of_Vacant R a2 hv2, hf2, hb2, fun hfa => ⟨hf2.trans hfa.symm, ?_⟩⟩
    rw [hb2]
    unfold CircularBuffer.back
    rw [hse]
    exact hfa.symm
  · obtain ⟨a1, hq, hv1, _, _, _, hf1⟩ := pop_single R a [x] ha rfl
    exact ⟨a1, hq, empty_of_Vacant R a1 hv1, hf1⟩
  · obtain ⟨a1, hq, hv1, _, _, _, hf1⟩ := pop_Vacant R a ha
    exact ⟨a1, hq, empty_of_Vacant R a1 hv1, hf1⟩
  · refine ⟨ctor_Vacant R c hc, ?_⟩
    unfold CircularBuffer.front CircularBuffer.ctor CircularBuffer.deref
    simp only [le_refl, if_true, Int.toNat_zero]
    rw [List.getElem?_replicate]
    simp
    omega

/-- Witness for C25: a buffer of capacity 3 that holds 1 and 2; 7 is pushed and popped. -/
theorem pop_undoes_push_witness :
    (CircularBuffer.mk 3 [(1 : Int), 2, -858993460] 0 1).Holds [1, 2]
      ∧ ∃ b1 b2, (CircularBuffer.mk 3 [(1 : Int), 2, -858993460] 0 1).push intRepr 7 = some b1
        ∧ b1.pop intRepr = some b2
        ∧ b2.mStart = 0 ∧ b2.mEnd = 1 ∧ b2.capacity = 3
        ∧ b2.empty intRepr = some false ∧ b2.front = some 1 ∧ b2.back = some 2
        ∧ ∀ i, i < 2 → i < 2 ^ 32 →
          b2.at i = (CircularBuffer.mk 3 [(1 : Int), 2, -858993460] 0 1).at i :=
  have hH : (CircularBuffer.mk 3 [(1 : Int), 2, -858993460] 0 1).Holds [1, 2] :=
    ⟨0, rfl, rfl, by decide, by decide, by decide, rfl, fun i hi => by
      have hi2 : i < 2 := hi
      interval_cases i <;> rfl⟩
  ⟨hH, (pop_undoes_push intRepr (CircularBuffer.mk 3 [(1 : Int), 2, -858993460] 0 1) [1, 2] 7
    hH (by decide) rfl).1⟩

/-- C23 (as amended): a `push` of `v` on a well-formed buffer that holds nothing makes
`front()` and `back()` equal to `v`. When the first byte of `v` is not `0xCC`, `empty()` is
false and `size()` is 1 afterwards, and a second `push` on a capacity of at least 2 leaves
`front()` equal to `v` and makes `back()` the second value; `size()` is then 2 when the two
elements do not wrap around the end of the block (`mStart` is not at its last object, as
on a fresh buffer) or the capacity is 2. When the first byte of `v` is `0xCC`, `empty()`
is still true and `size()` is 0, and a second `push` overwrites `v`. -/
theorem push_on_a_vacant_buffer (R : ObjectRepr T) (b : CircularBuffer T) (v w : T)
    (hb : b.Vacant R) (hc64 : b.mCap < 2 ^ 64) :
    (∃ b1, b.push R v = some b1 ∧ b1.front = some v ∧ b1.back = some v
      ∧ b1.capacity = b.capacity
      ∧ (R.firstByte v ≠ INVALID →
          b1.empty R = some false ∧ b1.size R = some 1
          ∧ (2 ≤ b.mCap → ∃ b2, b1.push R w = some b2 ∧ b2.empty R = some false
              ∧ b2.front = some v ∧ b2.back = some w
              ∧ (b.mStart + 1 < b.mCap ∨ b.mCap = 2 → b2.size R = some 2)))
      ∧ (R.firstByte v = INVALID →
          b1.empty R = some true ∧ b1.size R = some 0
          ∧ ∃ b2, b1.push R w = some b2 ∧ b2.front = some w ∧ b2.back = some w))
    ∧ (∀ c, 1 ≤ c → (CircularBuffer.ctor R c).Vacant R ∧ (CircularBuffer.ctor R c).mStart = 0
        ∧ (CircularBuffer.ctor R c).empty R = some true) := by
  refine ⟨?_, fun c hc => ⟨ctor_Vacant R c hc, rfl, empty_of_Vacant R _ (ctor_Vacant R c hc)⟩⟩
  obtain ⟨b1, hp, hH1, hc1, hs1, he1, hne, hsent⟩ := push_Vacant R b v hb
  obtain ⟨s, hs, he, hlen, hsc, _⟩ := hb
  refine ⟨b1, hp, ?_, ?_, hc1, fun hv => ?_, fun hv => ?_⟩
  · rw [front_of_Holds b1 [v] hH1]
    rfl
  · rw [back_of_Holds b1 [v] hH1]
    rfl
  · have hemp := hne hv
    refine ⟨hemp, ?_, fun h2 => ?_⟩
    · rw [size_of_Holds R b1 [v] hH1 (by rw [hc1]; exact hc64) hemp,
        if_pos (Or.inl (by rw [hs1, he1, hs, he]))]
      rfl
    · obtain ⟨b2, hp2, hH2, hc2, hemp2⟩ := push_Holds R b1 [v] w hH1 (Or.inr hemp)
      have hd : ([v] ++ [w]).drop ([v].length + 1 - b1.mCap) = [v, w] := by
        have h0 : [v].length + 1 - b1.mCap = 0 := by
          rw [hc1]
          simp only [List.length_singleton]
          omega
        rw [h0]
        rfl
      rw [hd] at hH2
      have hemp2b : b2.empty R = some false := by
        rcases hemp2 with h | h
        · rw [hc2, hc1] at h
          omega
        · exact h
      have hs2 : b2.mStart = b1.mStart :=
        push_keeps_start R b1 b2 [v] w hH1
          (by rw [hc1]; simp only [List.length_singleton]; omega) hemp hp2
      have hsz := size_of_Holds R b2 [v, w] hH2 (by rw [hc2, hc1]; exact hc64) hemp2b
      obtain ⟨t, ht, _, _, _, _, hte, _⟩ := hH2
      have hts : t = s := by
        rw [hs2, hs1, hs] at ht
        exact_mod_cast ht.symm
      have hte2 : b2.mEnd = ((CircularBuffer.wrap b.mCap (s + 1) : Nat) : Int) := by
        rw [hte, hts, hc2, hc1]
        rfl
      refine ⟨b2, hp2, hemp2b, ?_, ?_, fun hcase => ?_⟩
      · rw [front_of_Holds b2 [v, w] ⟨t, ht, by assumption, by assumption, by assumption,
          by assumption, hte, by assumption⟩]
        rfl
      · rw [back_of_Holds b2 [v, w] ⟨t, ht, by assumption, by assumption, by assumption,
          by assumption, hte, by assumption⟩]
        rfl
      · rw [hsz, hs2, hs1, hs, hte2, hc2, hc1]
        rw [hs] at hcase
        have hcond : (s : Int) ≤ ((CircularBuffer.wrap b.mCap (s + 1) : Nat) : Int)
            ∨ [v, w].length = b.mCap := by
          rcases hcase with h | h
          · left
            have h5 : s + 1 < b.mCap := by exact_mod_cast h
            rw [wrap_of_lt _ _ h5]
            push_cast
            omega
          · right
            rw [h]
            rfl
        rw [if_pos hcond]
        rfl
  · have hvac := hsent hv
    refine ⟨empty_of_Vacant R b1 hvac, size_of_Vacant R b1 hvac, ?_⟩
    obtain ⟨b2, hp2, hH2, _⟩ := push_Vacant R b1 w hvac
    refine ⟨b2, hp2, ?_, ?_⟩
    · rw [front_of_Holds b2 [w] hH2]
      rfl
    · rw [back_of_Holds b2 [w] hH2]
      rfl

/-- Counterexample for C25 as stated: on a fresh `int` buffer of capacity 2 the values 1, 204
and 3 are pushed and one `pop` follows. The buffer holds one element, 204, fewer than its
capacity, with `mStart` and `mEnd` at slot 1; its first byte is `0xCC`, so `empty()` is
true. A `push` of 7 followed by `pop()` leaves both pointers at slot 1, but `front()` and
`back()` return the fill pattern where they returned 204. -/
theorem pop_after_push_loses_a_sentinel_element :
    Op.heldCount 2 0 [Op.push (1 : Int), Op.push 204, Op.push 3, Op.pop] = 1
      ∧ ((CircularBuffer.ctor intRepr 2).applyAll intRepr
          [Op.push 1, Op.push 204, Op.push 3, Op.pop]).map
          (fun b => (b.capacity, b.mStart, b.mEnd, b.front, b.back, b.empty intRepr))
          = some (2, 1, 1, some 204, some 204, some true)
      ∧ ((CircularBuffer.ctor intRepr 2).applyAll intRepr
          [Op.push 1, Op.push 204, Op.push 3, Op.pop, Op.push 7, Op.pop]).map
          (fun b => (b.capacity, b.mStart, b.mEnd, b.front, b.back, b.empty intRepr))
          = some (2, 1, 1, some (-858993460), some (-858993460), some true) :=
  ⟨rfl, rfl, rfl⟩

/-- Witness for C23: 1 is pushed on a fresh `int` buffer of capacity 2. -/
theorem push_on_a_vacant_buffer_witness :
    ∃ b1, (CircularBuffer.ctor intRepr 2).push intRepr 1 = some b1
      ∧ b1.front = some 1 ∧ b1.back = some 1
      ∧ b1.empty intRepr = some false ∧ b1.size intRepr = some 1 :=
  match (push_on_a_vacant_buffer intRepr (CircularBuffer.ctor intRepr 2) 1 2
    ⟨0, rfl, rfl, rfl, by decide, -858993460, by rfl, by rfl⟩
    (by norm_num [CircularBuffer.ctor])).1 with
  | ⟨b1, hp, hf, hb, _, hne, _⟩ =>
    ⟨b1, hp, hf, hb, (hne (by decide)).1, (hne (by decide)).2.1⟩

/-- Counterexample for C23 as stated: 204, whose first byte is `0xCC`, is pushed on a fresh
`int` buffer of capacity 2, and `0xCC` on a fresh `unsigned char` buffer of capacity 1:
`front()` and `back()` return the value, but `empty()` is still true and `size()` is 0;
after a second `push`, of 5, `size()` is 1 and `front()` is 5. -/
theorem sentinel_value_leaves_buffer_empty :
    ((CircularBuffer.ctor intRepr 2).push intRepr 204).map
        (fun b => (b.empty intRepr, b.size intRepr, b.front, b.back))
        = some (some true, some 0, some 204, some 204)
      ∧ ((CircularBuffer.ctor ucharRepr 1).push ucharRepr 204).map
        (fun b => (b.empty ucharRepr, b.size ucharRepr, b.front, b.back))
        = some (some true, some 0, some 204, some 204)
      ∧ ((CircularBuffer.ctor intRepr 2).applyAll intRepr [Op.push 204, Op.push 5]).map
        (fun b => (b.empty intRepr, b.size intRepr, b.front, b.back))
        = some (some false, some 1, some 5, some 5) :=
  ⟨rfl, rfl, rfl⟩

/-! ## Resizing -/

/-- C24: `resize` does not keep the elements held. Growing copies the block and keeps the
offsets of `mStart` and `mEnd`, whatever they are. Shrinking sets `mEnd` to
`mStart + size() % sz`, one object past the newest element. The buffer built from
1, 2, 3, 4, 5 and resized to 10 and 20 still has size 5, front 1 and back 5; resized to 7
after that it has capacity 7, but `size()` is 6 and `back()` is the fill pattern; after
the whole sequence 10, 20, 7, 6, 1, 3, 5 of the test `front()` and `back()` are both 1.
A buffer of capacity 5 that holds 1, 2, 3 and is resized to 3 has `size()` 1 and `back()`
1. A buffer of capacity 3 that holds 3, 4, 5 in slots 2, 0, 1 and is resized to 5 has
`size()` 5, and `at(1)` reads the fill pattern where it read 4. A buffer of capacity 4
that holds 3, 4, 5 from slot 2 on and is resized to 3 has `mEnd` outside its block. -/
theorem resize_loses_the_elements :
    (∀ (R : ObjectRepr T) (b : CircularBuffer T) (n : Nat),
        b.resize R (b.mCap + n)
          = some ⟨b.mCap + n, b.mBuffer.take b.mCap ++ List.replicate n R.filled,
              b.mStart, b.mEnd⟩)
      ∧ ((CircularBuffer.rangeCtor [(1 : Int), 2, 3, 4, 5]).resizeAll intRepr [10, 20]).map
          (fun b => (b.capacity, b.size intRepr, b.front, b.back))
          = some (20, some 5, some 1, some 5)
      ∧ ((CircularBuffer.rangeCtor [(1 : Int), 2, 3, 4, 5]).resizeAll intRepr [10, 20, 7]).map
          (fun b => (b.capacity, b.mStart, b.mEnd, b.size intRepr, b.front, b.back))
          = some (7, 0, 5, some 6, some 1, some (-858993460))
      ∧ ((CircularBuffer.rangeCtor [(1 : Int), 2, 3, 4, 5]).resizeAll intRepr
          [10, 20, 7, 6, 1, 3, 5]).map
          (fun b => (b.capacity, b.size intRepr, b.front, b.back))
          = some (5, some 1, some 1, some 1)
      ∧ (((CircularBuffer.ctor intRepr 5).applyAll intRepr
          [Op.push 1, Op.push 2, Op.push 3]).bind (fun b => b.resize intRepr 3)).map
          (fun b => (b.capacity, b.mStart, b.mEnd, b.size intRepr, b.front, b.back))
          = some (3, 0, 0, some 1, some 1, some 1)
      ∧ ((CircularBuffer.ctor intRepr 3).applyAll intRepr
          [Op.push 1, Op.push 2, Op.push 3, Op.push 4, Op.push 5]).map
          (fun b => (b.mStart, b.mEnd, b.size intRepr, b.front, b.at 1, b.back))
          = some (2, 1, some 3, some 3, Fetch.value 4, some 5)
      ∧ (((CircularBuffer.ctor intRepr 3).applyAll intRepr
          [Op.push 1, Op.push 2, Op.push 3, Op.push 4, Op.push 5]).bind
          (fun b => b.resize intRepr 5)).map
          (fun b => (b.mStart, b.mEnd, b.size intRepr, b.front, b.at 1, b.back))
          = some (2, 1, some 5, some 3, Fetch.value (-858993460), some 5)
      ∧ (((CircularBuffer.ctor intRepr 4).applyAll intRepr
          [Op.push 1, Op.push 2, Op.push 3, Op.push 4, Op.push 5, Op.push 6, Op.pop]).bind
          (fun b => b.resize intRepr 3)).map
          (fun b => (b.capacity, b.mStart, b.mEnd, b.back))
          = some (3, 2, 4, none) := by
  refine ⟨fun R b n => ?_, rfl, rfl, rfl, rfl, rfl, rfl, rfl⟩
  unfold CircularBuffer.resize
  rw [if_pos (Nat.le_add_right _ _), Nat.add_sub_cancel_left]

end Counting

end regit.containers
